import Mathlib

/-!
# Identity maps: readers, default-map resolver, export and shifter (`shared/idmap/idmapset_linux.go`)

A shallow embedding of `getFromShadow`, `getFromProc`, `CurrentIdmapSet`,
`DefaultIdmapSet`, `kernelDefaultMap`, `ToUidMappings`, `ToGidMappings` and
`doUidshiftIntoContainer`, together with the parts of the Go standard
library they call (`bufio.ScanLines`, `strings.Split`, `strings.Fields`,
`strings.EqualFold`, `strconv.ParseUint`, `filepath.Walk`).

Conventions of the embedding.

* Text (a Go `string` holding valid UTF-8) is a `List Char`, one element per
  rune.  Separators used by the source (`#`, `:`, newline) are ASCII, so
  splitting runes and splitting bytes agree.
* `int64` values are `Int`; the only arithmetic in the source is performed on
  values that cannot wrap (`select_no_wrap`).  Go `int` is taken to be 64
  bits wide.
* Errors are values of `Err` (readers and resolver) or `ShiftErr` (shifter);
  a Go `(x, error)` result is an `Except`, a Go `error` result an `Option`.
* The file system, `user.Current`, the method `IdmapSet.ValidRanges`
  (declared outside this file) and the case-folding table `unicode.SimpleFold`
  of the Go release are fields of `Env`.
* `bufio.Scanner` delivers the lines of the file up to the first line that
  fills its 64 KiB buffer; there `Scan` returns false with `ErrTooLong`, and
  since neither reader looks at `scanner.Err()` the loop simply ends.  Read
  errors of an open file are outside the model.
* The shifter works on a `Tree` of entries, each holding the outcome of every
  operation the shifter may perform on it; the closure `convert` is a step on
  the slice `hardLinks` that also returns the calls it makes, in order.  One
  call is followed from start to end; calls running at the same time are
  outside the model.
-/

namespace Idmap

/-! ## Standard library: text -/

/-- A Go `string`, as its sequence of runes. -/
abbrev Text := List Char

/-- Go `strings.Split(s, sep)` for a one-rune separator: the pieces between
consecutive separators; always at least one piece. -/
def Split : Text → Char → List Text
  | [], _ => [[]]
  | c :: cs, sep =>
    if c = sep then [] :: Split cs sep
    else
      match Split cs sep with
      | [] => [[c]]
      | f :: fs => (c :: f) :: fs

/-- Go `dropCR` of `bufio`: remove one trailing carriage return. -/
def dropCR (data : Text) : Text :=
  if data.getLast? = some '\r' then data.dropLast else data

/-- Go `utf8.RuneLen`: the number of bytes in the UTF-8 encoding of a rune. -/
def RuneLen (r : Char) : Nat :=
  if r.toNat < 0x80 then 1
  else if r.toNat < 0x800 then 2
  else if r.toNat < 0x10000 then 3
  else 4

/-- Go `len(s)`: the number of bytes of a string. -/
def byteLen : Text → Nat
  | [] => 0
  | c :: cs => RuneLen c + byteLen cs

/-- Go `bufio.MaxScanTokenSize`, the size the buffer of a `bufio.Scanner` may
grow to. -/
def MaxScanTokenSize : Nat := 64 * 1024

/-- Scanner state of a `bufio.Scanner` with the split function `ScanLines`:
`cur` is the text read since the last newline.  A line is delivered when its
newline is found in the buffer, and at end of input a non-empty rest is
delivered as a last line.  When the text since the last newline fills the
buffer (`MaxScanTokenSize` bytes, the carriage return included) `Scan`
returns false with `ErrTooLong`: that line and everything after it is never
delivered. -/
def ScanLines.go : Text → Text → List Text
  | [], cur => if cur = [] ∨ MaxScanTokenSize ≤ byteLen cur then [] else [dropCR cur]
  | c :: cs, cur =>
    if c = '\n' then
      if MaxScanTokenSize ≤ byteLen cur then [] else dropCR cur :: ScanLines.go cs []
    else ScanLines.go cs (cur ++ [c])

/-- The successive values of `scanner.Text()` in a loop `for scanner.Scan()`
over a `bufio.NewScanner` of the given content, up to the call on which
`Scan` returns false (at end of input, or with `ErrTooLong`, which the
readers do not tell apart). -/
def ScanLines (content : Text) : List Text :=
  ScanLines.go content []

/-- Go `unicode.IsSpace`. -/
def IsSpace (r : Char) : Bool :=
  let n := r.toNat
  n = 0x09 || n = 0x0A || n = 0x0B || n = 0x0C || n = 0x0D || n = 0x20 ||
  n = 0x85 || n = 0xA0 || n = 0x1680 || (0x2000 ≤ n && n ≤ 0x200A) ||
  n = 0x2028 || n = 0x2029 || n = 0x202F || n = 0x205F || n = 0x3000

/-- Field scanner of `strings.Fields`: `cur` is the field being read. -/
def Fields.go : Text → Text → List Text
  | [], cur => if cur = [] then [] else [cur]
  | c :: cs, cur =>
    if IsSpace c then
      (if cur = [] then Fields.go cs [] else cur :: Fields.go cs [])
    else Fields.go cs (cur ++ [c])

/-- Go `strings.Fields(s)`: the maximal runs of non-space runes. -/
def Fields (s : Text) : List Text :=
  Fields.go s []

/-! ## Standard library: `strconv.ParseUint(s, 10, 32)` -/

/-- The constant `cutoff` of `ParseUint` for base 10: `maxUint64/10 + 1`. -/
def ParseUint.cutoff : Nat := (2 ^ 64 - 1) / 10 + 1

/-- The constant `maxVal` of `ParseUint` for bit size 32. -/
def ParseUint.maxVal : Nat := 2 ^ 32 - 1

/-- Digit loop of `ParseUint`; `n` is the `uint64` accumulator, `none` is
any error (syntax or range). -/
def ParseUint.loop : Text → Nat → Option Nat
  | [], n => some n
  | c :: cs, n =>
    if 48 ≤ c.toNat ∧ c.toNat ≤ 57 then
      let d := c.toNat - 48
      if n ≥ ParseUint.cutoff then none
      else
        let n0 := (n * 10) % 2 ^ 64
        let n1 := (n0 + d) % 2 ^ 64
        if n1 < n0 ∨ n1 > ParseUint.maxVal then none
        else ParseUint.loop cs n1
    else none

/-- Go `strconv.ParseUint(s, 10, 32)`; `none` when it returns an error. -/
def ParseUint (s : Text) : Option Nat :=
  if s = [] then none else ParseUint.loop s 0

/-! ## Standard library: `strings.EqualFold` -/

/-- The number of code points, `unicode.MaxRune + 1`. -/
def EqualFold.fuel : Nat := 0x110000

/-- The loop `for r != sr && r < tr { r = unicode.SimpleFold(r) }` of
`EqualFold`, over the table `SimpleFold`.  The loop walks the fold orbit of
`sr`, a set of code points, so for a table whose orbits close (`orbitsClose`)
`EqualFold.fuel` rounds are enough for it to leave by its own condition
(`EqualFold_orbit_exit`). -/
def EqualFold.orbit (SimpleFold : Nat → Nat) (sr tr : Nat) : Nat → Nat → Nat
  | 0, r => r
  | fuel + 1, r =>
    if r ≠ sr ∧ r < tr then EqualFold.orbit SimpleFold sr tr fuel (SimpleFold r) else r

/-- One step of the rune loop of `EqualFold`: do the runes `a` and `b` match
under simple case folding?  `SimpleFold` is Go `unicode.SimpleFold`, the
table of fold orbits of the Unicode version the program is built with. -/
def EqualFold.rune (SimpleFold : Nat → Nat) (a b : Char) : Bool :=
  if b = a then true
  else
    let sr := min a.toNat b.toNat
    let tr := max a.toNat b.toNat
    if tr < 0x80 then
      decide (65 ≤ sr ∧ sr ≤ 90 ∧ tr = sr + 32)
    else
      decide (EqualFold.orbit SimpleFold sr tr EqualFold.fuel (SimpleFold sr) = tr)

/-- Go `strings.EqualFold(s, t)` on valid UTF-8: runes are compared pairwise
and both strings must be exhausted together. -/
def EqualFold (SimpleFold : Nat → Nat) : Text → Text → Bool
  | [], [] => true
  | sr :: s, tr :: t => EqualFold.rune SimpleFold sr tr && EqualFold SimpleFold s t
  | _, _ => false

/-! ## Data model -/

/-- Files the package touches. `path.Join(rootfs, "/etc/subuid")` and
`path.Join(rootfs, "/etc/subgid")` are kept symbolic. -/
inductive Path
  | etcSubuid (rootfs : String)
  | etcSubgid (rootfs : String)
  | procUidMap
  | procGidMap
  deriving DecidableEq, Repr

/-- Error values. `ErrNoUserMap` is the package-level sentinel; the others
are the two `fmt.Errorf` values of the readers and errors handed up from the
operating system or from other code. -/
inductive Err
  | ErrNoUserMap
  | unexpectedValues (fname : Path) (s : List Text)
  | noMapSet
  | other (code : Nat)
  deriving DecidableEq, Repr

/-- Go `IdmapEntry` (declared in the sibling file of the package). -/
structure IdmapEntry where
  Isuid : Bool := false
  Isgid : Bool := false
  Hostid : Int := 0
  Nsid : Int := 0
  Maprange : Int := 0
  deriving DecidableEq, Repr

/-- Go `IdmapSet`. -/
structure IdmapSet where
  Idmap : List IdmapEntry := []
  deriving DecidableEq, Repr

/-- Go `IdRange`, with the field order of the composite literals in
`kernelDefaultMap`. -/
structure IdRange where
  Isuid : Bool
  Isgid : Bool
  Startid : Int
  Endid : Int
  deriving DecidableEq, Repr

/-- What the code takes from outside: `user.Current()`, `util.PathExists`,
`os.Open` with the content of the opened file, the method
`IdmapSet.ValidRanges`, whose body is not part of this file, and the table
`unicode.SimpleFold` of the Go standard library (runes as code points). -/
structure Env where
  userCurrent : Except Err Text
  PathExists : Path → Bool
  Open : Path → Except Err Text
  ValidRanges : IdmapSet → Except Err (List IdRange)
  SimpleFold : Nat → Nat

deriving instance DecidableEq for Except

/-! ## Source readers -/

/-- The `for scanner.Scan()` loop of `getFromShadow`; `entries` is the slice
built so far. -/
def getFromShadow.loop (SimpleFold : Nat → Nat) (fname : Path) (username : Text) :
    List Text → List (Int × Int) → Except Err (List (Int × Int))
  | [], entries => .ok entries
  | text :: rest, entries =>
    -- Skip comments
    let s := Split text '#'
    if (s.headD []).length = 0 then getFromShadow.loop SimpleFold fname username rest entries
    else
      -- Validate format
      let s := Split (s.headD []) ':'
      if s.length < 3 then .error (.unexpectedValues fname s)
      else if EqualFold SimpleFold (s.getD 0 []) username then
        -- Get range start
        match ParseUint (s.getD 1 []) with
        | none => getFromShadow.loop SimpleFold fname username rest entries
        | some entryStart =>
          -- Get range size
          match ParseUint (s.getD 2 []) with
          | none => getFromShadow.loop SimpleFold fname username rest entries
          | some entrySize =>
            getFromShadow.loop SimpleFold fname username rest
              (entries ++ [((entryStart : Int), (entrySize : Int))])
      else getFromShadow.loop SimpleFold fname username rest entries

/-- Go `getFromShadow(fname, username)`; `f` is the outcome of `os.Open(fname)`
with the content the scanner reads, `SimpleFold` the fold table that
`strings.EqualFold` consults. -/
def getFromShadow (SimpleFold : Nat → Nat) (fname : Path) (f : Except Err Text)
    (username : Text) :
    Except Err (List (Int × Int)) :=
  match f with
  | .error err => .error err
  | .ok content =>
    match getFromShadow.loop SimpleFold fname username (ScanLines content) [] with
    | .error err => .error err
    | .ok entries =>
      if entries.length = 0 then .error .ErrNoUserMap else .ok entries

/-- The `for scanner.Scan()` loop of `getFromProc`. -/
def getFromProc.loop (fname : Path) :
    List Text → List (Int × Int × Int) → Except Err (List (Int × Int × Int))
  | [], entries => .ok entries
  | text :: rest, entries =>
    -- Skip comments
    let s := Split text '#'
    if (s.headD []).length = 0 then getFromProc.loop fname rest entries
    else
      -- Validate format
      let s := Fields (s.headD [])
      if s.length < 3 then .error (.unexpectedValues fname s)
      else
        match ParseUint (s.getD 0 []) with
        | none => getFromProc.loop fname rest entries
        | some entryStart =>
          match ParseUint (s.getD 1 []) with
          | none => getFromProc.loop fname rest entries
          | some entryHost =>
            match ParseUint (s.getD 2 []) with
            | none => getFromProc.loop fname rest entries
            | some entrySize =>
              getFromProc.loop fname rest
                (entries ++ [((entryStart : Int), (entryHost : Int), (entrySize : Int))])

/-- Go `getFromProc(fname)`; `f` is the outcome of `os.Open(fname)` with the
content the scanner reads. -/
def getFromProc (fname : Path) (f : Except Err Text) :
    Except Err (List (Int × Int × Int)) :=
  match f with
  | .error err => .error err
  | .ok content =>
    match getFromProc.loop fname (ScanLines content) [] with
    | .error err => .error err
    | .ok entries =>
      if entries.length = 0 then .error .noMapSet else .ok entries

/-! ## Current map and default-map resolver -/

/-- Go `CurrentIdmapSet()`. -/
def CurrentIdmapSet (env : Env) : Except Err IdmapSet :=
  let idmapset : IdmapSet := {}
  let afterUid : Except Err IdmapSet :=
    if env.PathExists .procUidMap then
      -- Parse the uidmap
      match getFromProc .procUidMap (env.Open .procUidMap) with
      | .error err => .error err
      | .ok entries =>
        .ok { Idmap := idmapset.Idmap ++ entries.map fun entry =>
                { Isuid := true, Nsid := entry.1, Hostid := entry.2.1, Maprange := entry.2.2 } }
    else
      -- Fallback map
      .ok { Idmap := idmapset.Idmap ++ [{ Isuid := true, Nsid := 0, Hostid := 0, Maprange := 0 }] }
  match afterUid with
  | .error err => .error err
  | .ok idmapset =>
    if env.PathExists .procGidMap then
      -- Parse the gidmap
      match getFromProc .procGidMap (env.Open .procGidMap) with
      | .error err => .error err
      | .ok entries =>
        .ok { Idmap := idmapset.Idmap ++ entries.map fun entry =>
                { Isgid := true, Nsid := entry.1, Hostid := entry.2.1, Maprange := entry.2.2 } }
    else
      -- Fallback map
      .ok { Idmap := idmapset.Idmap ++ [{ Isgid := true, Nsid := 0, Hostid := 0, Maprange := 0 }] }

/-- The "Hardcoded fallback map" of `kernelDefaultMap`. -/
def kernelDefaultMap.fallback : IdmapSet :=
  { Idmap :=
      [ { Isuid := true, Isgid := false, Nsid := 0, Hostid := 1000000, Maprange := 1000000000 },
        { Isuid := false, Isgid := true, Nsid := 0, Hostid := 1000000, Maprange := 1000000000 } ] }

/-- The literal `fullKernelRanges` of `kernelDefaultMap`. -/
def kernelDefaultMap.fullKernelRanges : List IdRange :=
  [ ⟨true, false, 0, 4294967294⟩, ⟨false, true, 0, 4294967294⟩ ]

/-- The loop "Find a suitable uid range".  `kernelRanges` is a slice of
pointers, so the assignment `entry.Startid = 100000` changes the range
stored in the slice: the loop returns the slice as it leaves it, together
with the set.  After the clamp `Startid` and `Endid` are both at least
`100000`, so the `int64` subtraction cannot wrap (`select_no_wrap`). -/
def kernelDefaultMap.uidLoop : List IdRange → IdmapSet → List IdRange × IdmapSet
  | [], idmapset => ([], idmapset)
  | entry :: rest, idmapset =>
    -- We only care about uids right now
    if !entry.Isuid then
      let r := kernelDefaultMap.uidLoop rest idmapset
      (entry :: r.1, r.2)
    -- We want a map that is separate from the system's own POSIX allocation
    else if entry.Endid < 100000 then
      let r := kernelDefaultMap.uidLoop rest idmapset
      (entry :: r.1, r.2)
    else
      -- Don't use the first 65536 ids
      let entry : IdRange :=
        if entry.Startid < 100000 then { entry with Startid := 100000 } else entry
      -- Check if we have enough ids
      if entry.Endid - entry.Startid < 65536 then
        let r := kernelDefaultMap.uidLoop rest idmapset
        (entry :: r.1, r.2)
      else
        -- Add the map, then break
        (entry :: rest,
         { Idmap := idmapset.Idmap ++
             [{ Isuid := true, Isgid := false, Nsid := 0, Hostid := entry.Startid,
                Maprange := entry.Endid - entry.Startid + 1 }] })

/-- The loop "Find a suitable gid range"; see `kernelDefaultMap.uidLoop`. -/
def kernelDefaultMap.gidLoop : List IdRange → IdmapSet → List IdRange × IdmapSet
  | [], idmapset => ([], idmapset)
  | entry :: rest, idmapset =>
    -- We only care about gids right now
    if !entry.Isgid then
      let r := kernelDefaultMap.gidLoop rest idmapset
      (entry :: r.1, r.2)
    else if entry.Endid < 100000 then
      let r := kernelDefaultMap.gidLoop rest idmapset
      (entry :: r.1, r.2)
    else
      let entry : IdRange :=
        if entry.Startid < 100000 then { entry with Startid := 100000 } else entry
      if entry.Endid - entry.Startid < 65536 then
        let r := kernelDefaultMap.gidLoop rest idmapset
        (entry :: r.1, r.2)
      else
        (entry :: rest,
         { Idmap := idmapset.Idmap ++
             [{ Isuid := false, Isgid := true, Nsid := 0, Hostid := entry.Startid,
                Maprange := entry.Endid - entry.Startid + 1 }] })

/-- The part of `kernelDefaultMap` that follows the call of `ValidRanges`:
the full-range special case, then the two selection loops. -/
def kernelDefaultMap.select (kernelRanges : List IdRange) : IdmapSet :=
  if kernelRanges = kernelDefaultMap.fullKernelRanges then
    kernelDefaultMap.fallback
  else
    let u := kernelDefaultMap.uidLoop kernelRanges {}
    let g := kernelDefaultMap.gidLoop u.1 u.2
    g.2

/-- Go `kernelDefaultMap()`. -/
def kernelDefaultMap (env : Env) : Except Err IdmapSet :=
  match CurrentIdmapSet env with
  | .error _ => .ok kernelDefaultMap.fallback
  | .ok kernelMap =>
    -- Look for mapped ranges
    match env.ValidRanges kernelMap with
    | .error err => .error err
    | .ok kernelRanges => .ok (kernelDefaultMap.select kernelRanges)

/-- The user name `"root"`. -/
def root : Text := ['r', 'o', 'o', 't']

/-- The error branch shared by both reads in `DefaultIdmapSet`. -/
def DefaultIdmapSet.onError (env : Env) (username : Text) (err : Err) : Except Err IdmapSet :=
  if username = root ∧ err = .ErrNoUserMap then
    -- No root map available, figure out a default map
    kernelDefaultMap env
  else .error err

/-- Go `DefaultIdmapSet(rootfs, username)`. -/
def DefaultIdmapSet (env : Env) (rootfs : String) (username : Text) : Except Err IdmapSet :=
  let idmapset : IdmapSet := {}
  let resolved : Except Err Text :=
    if username = [] then env.userCurrent else .ok username
  match resolved with
  | .error err => .error err
  | .ok username =>
    -- Check if shadow's uidmap tools are installed
    let subuidPath := Path.etcSubuid rootfs
    let subgidPath := Path.etcSubgid rootfs
    if env.PathExists subuidPath && env.PathExists subgidPath then
      -- Parse the shadow uidmap
      match getFromShadow env.SimpleFold subuidPath (env.Open subuidPath) username with
      | .error err => DefaultIdmapSet.onError env username err
      | .ok entries =>
        let idmapset : IdmapSet :=
          { Idmap := idmapset.Idmap ++ entries.map fun entry =>
              { Isuid := true, Nsid := 0, Hostid := entry.1, Maprange := entry.2 } }
        -- Parse the shadow gidmap
        match getFromShadow env.SimpleFold subgidPath (env.Open subgidPath) username with
        | .error err => DefaultIdmapSet.onError env username err
        | .ok entries =>
          .ok { Idmap := idmapset.Idmap ++ entries.map fun entry =>
                  { Isgid := true, Nsid := 0, Hostid := entry.1, Maprange := entry.2 } }
    else
      -- No shadow available, figure out a default map
      kernelDefaultMap env

/-! ## Specification-side vocabulary -/

/-- A line with everything from its first `#` removed. -/
def stripComment (line : Text) : Text :=
  line.takeWhile (· ≠ '#')

/-- One of the decimal digits `0`–`9`. -/
def isDigit (c : Char) : Bool :=
  48 ≤ c.toNat && c.toNat ≤ 57

/-- The number a string of decimal digits denotes, continuing from `n`. -/
def decimalFrom (n : Nat) (s : Text) : Nat :=
  s.foldl (fun n c => 10 * n + (c.toNat - 48)) n

/-- The number a string of decimal digits denotes. -/
def decimalValue (s : Text) : Nat :=
  decimalFrom 0 s

/-- A decimal unsigned 32-bit integer: a non-empty string of the digits
`0`–`9` whose value is below `2^32`. -/
def isUint32 (s : Text) : Bool :=
  s ≠ [] && s.all isDigit && decimalValue s < 2 ^ 32

/-- The value of a field that is a decimal unsigned 32-bit integer. -/
def uint32Field (s : Text) : Option Nat :=
  if isUint32 s then some (decimalValue s) else none

/-- The record a comment-free text holds for `username`, in the words of the
specification: the text is non-empty, has at least three `:`-separated
fields, its first field equals the user name ignoring case (under the fold
table `SimpleFold`), and its second and third fields are decimal unsigned
32-bit integers (start and size). -/
def shadowFields (SimpleFold : Nat → Nat) (username : Text) (t : Text) : Option (Int × Int) :=
  match Split t ':' with
  | name :: start :: size :: _ =>
    if t ≠ [] ∧ EqualFold SimpleFold name username = true then
      match uint32Field start, uint32Field size with
      | some a, some b => some ((a : Int), (b : Int))
      | _, _ => none
    else none
  | _ => none

/-- The record a line of a shadow file holds for `username`: the record of
the line with everything from the first `#` removed. -/
def shadowRecord (SimpleFold : Nat → Nat) (username : Text) (line : Text) :
    Option (Int × Int) :=
  shadowFields SimpleFold username (stripComment line)

/-- The records of `username` in the lines of a shadow file that the scanner
delivers, in file order. -/
def shadowRecords (SimpleFold : Nat → Nat) (content : Text) (username : Text) :
    List (Int × Int) :=
  (ScanLines content).filterMap (shadowRecord SimpleFold username)

/-- A comment-free text that triggers the field-count failure of the shadow
reader: not empty, and fewer than three `:`-separated fields. -/
def shadowFieldCount (t : Text) : Bool :=
  t ≠ [] && (Split t ':').length < 3

/-- A line that triggers the field-count failure of the shadow reader. -/
def shadowFieldCountFailure (line : Text) : Bool :=
  shadowFieldCount (stripComment line)

/-- The record a comment-free text holds for the proc reader, in the words of
the specification: the text is non-empty and its first three
whitespace-separated fields are decimal unsigned 32-bit integers (nsid, host
and size). -/
def procFields (t : Text) : Option (Int × Int × Int) :=
  match Fields t with
  | nsid :: host :: size :: _ =>
    if t ≠ [] then
      match uint32Field nsid, uint32Field host, uint32Field size with
      | some a, some b, some c => some ((a : Int), (b : Int), (c : Int))
      | _, _, _ => none
    else none
  | _ => none

/-- The record a line of a proc map holds: the record of the line with
everything from the first `#` removed. -/
def procRecord (line : Text) : Option (Int × Int × Int) :=
  procFields (stripComment line)

/-- The records in the lines of a proc map that the scanner delivers, in file
order. -/
def procRecords (content : Text) : List (Int × Int × Int) :=
  (ScanLines content).filterMap procRecord

/-- A comment-free text that triggers the field-count failure of the proc
reader: not empty, and fewer than three whitespace-separated fields. -/
def procFieldCount (t : Text) : Bool :=
  t ≠ [] && (Fields t).length < 3

/-- A line that triggers the field-count failure of the proc reader. -/
def procFieldCountFailure (line : Text) : Bool :=
  procFieldCount (stripComment line)

/-- The comment-free, non-empty texts of the lines the scanner delivers, in
file order: what is left of them once comments and empty lines are taken
out. -/
def significantLines (content : Text) : List Text :=
  ((ScanLines content).map stripComment).filter (· ≠ [])

/-- Line splitter of a text file: `cur` is the text since the last newline.
Every newline ends a line, and a non-empty text after the last newline is a
line too. -/
def rawLines.go : Text → Text → List Text
  | [], cur => if cur = [] then [] else [cur]
  | c :: cs, cur =>
    if c = '\n' then cur :: rawLines.go cs [] else rawLines.go cs (cur ++ [c])

/-- The lines of a file as they stand in the file, without their newline. -/
def rawLines (content : Text) : List Text :=
  rawLines.go content []

/-- The lines of a file, in file order, each without its line end (a newline,
or a carriage return and a newline). -/
def fileLines (content : Text) : List Text :=
  (rawLines content).map dropCR

/-- What Go documents of `unicode.SimpleFold`: it steps through the code
points equivalent under simple case folding and wraps around from the largest
to the smallest, so folding a rune again and again comes back to that rune
within as many steps as there are code points. -/
def orbitsClose (SimpleFold : Nat → Nat) : Prop :=
  ∀ r, ∃ k, k < EqualFold.fuel ∧ SimpleFold^[k + 1] r = r

/-- The selection test `kernelDefaultMap` applies to one range: the range
ends at or above `100000`, and its end lies at least `65536` above its start
once the start is raised to `100000`. -/
def kernelDefaultMap.suitable (r : IdRange) : Bool :=
  100000 ≤ r.Endid && 65536 ≤ r.Endid - max r.Startid 100000

/-- The uid entry `kernelDefaultMap` derives from a range it selects. -/
def kernelDefaultMap.uidEntry (r : IdRange) : IdmapEntry :=
  { Isuid := true, Isgid := false, Nsid := 0, Hostid := max r.Startid 100000,
    Maprange := r.Endid - max r.Startid 100000 + 1 }

/-- The gid entry `kernelDefaultMap` derives from a range it selects. -/
def kernelDefaultMap.gidEntry (r : IdRange) : IdmapEntry :=
  { Isuid := false, Isgid := true, Nsid := 0, Hostid := max r.Startid 100000,
    Maprange := r.Endid - max r.Startid 100000 + 1 }

/-- What a selection loop may do to a range it passes over: leave it alone,
or raise its start to `100000` when it ends at or above `100000`. -/
def kernelDefaultMap.clamped (r r2 : IdRange) : Prop :=
  r2 = r ∨ (100000 ≤ r.Endid ∧ r2 = { r with Startid := max r.Startid 100000 })

/-- A fold table for the examples: the orbits of Go `unicode.SimpleFold` that
contain an ASCII letter, `A`–`Z` with `a`–`z` and the two three-element
orbits `K k U+212A` and `S s U+017F`; every other rune is left alone. -/
def Example.SimpleFold (r : Nat) : Nat :=
  if 65 ≤ r ∧ r ≤ 90 then r + 32
  else if r = 107 then 0x212A
  else if r = 115 then 0x017F
  else if 97 ≤ r ∧ r ≤ 122 then r - 32
  else if r = 0x017F then 83
  else if r = 0x212A then 75
  else r

/-- A text file holding the given lines, each ended by a newline. -/
def Example.lines : List Text → Text
  | [] => []
  | l :: ls => l ++ '\n' :: Example.lines ls

/-- A comment line of 65536 bytes: `#` followed by 65535 times `x`. -/
def Example.longComment : Text :=
  '#' :: List.replicate 65535 'x'

/-- An environment given by the user name, the content of the four files
(`none` for a file that does not exist) and the ranges `ValidRanges`
returns, with the fold table of the examples. -/
def Example.env (user : String) (subuid subgid uidMap gidMap : Option String)
    (ranges : List IdRange) : Env :=
  let file : Path → Option String := fun p =>
    match p with
    | .etcSubuid _ => subuid
    | .etcSubgid _ => subgid
    | .procUidMap => uidMap
    | .procGidMap => gidMap
  { userCurrent := .ok user.toList
    PathExists := fun p => (file p).isSome
    Open := fun p =>
      match file p with
      | some content => .ok content.toList
      | none => .error (.other 2)
    ValidRanges := fun _ => .ok ranges
    SimpleFold := Example.SimpleFold }

/-! ## Spawn-mapping export -/

/-- Go `syscall.SysProcIDMap`.  Go `int` is taken to be 64 bits wide, so the
conversion `int(x)` of an `int64` is `x`. -/
structure SysProcIDMap where
  ContainerID : Int
  HostID : Int
  Size : Int
  deriving DecidableEq, Repr

/-- The `for _, e := range m.Idmap` loop of `ToUidMappings`. -/
def ToUidMappings.loop : List IdmapEntry → List SysProcIDMap → List SysProcIDMap
  | [], mapping => mapping
  | e :: rest, mapping =>
    if !e.Isuid then ToUidMappings.loop rest mapping
    else
      ToUidMappings.loop rest
        (mapping ++ [{ ContainerID := e.Nsid, HostID := e.Hostid, Size := e.Maprange }])

/-- Go `IdmapSet.ToUidMappings`. -/
def IdmapSet.ToUidMappings (m : IdmapSet) : List SysProcIDMap :=
  ToUidMappings.loop m.Idmap []

/-- The `for _, e := range m.Idmap` loop of `ToGidMappings`. -/
def ToGidMappings.loop : List IdmapEntry → List SysProcIDMap → List SysProcIDMap
  | [], mapping => mapping
  | e :: rest, mapping =>
    if !e.Isgid then ToGidMappings.loop rest mapping
    else
      ToGidMappings.loop rest
        (mapping ++ [{ ContainerID := e.Nsid, HostID := e.Hostid, Size := e.Maprange }])

/-- Go `IdmapSet.ToGidMappings`. -/
def IdmapSet.ToGidMappings (m : IdmapSet) : List SysProcIDMap :=
  ToGidMappings.loop m.Idmap []

/-- The kernel triple of an entry: `(ContainerID, HostID, Size) =
(Nsid, Hostid, Maprange)`. -/
def IdmapEntry.triple (e : IdmapEntry) : SysProcIDMap :=
  { ContainerID := e.Nsid, HostID := e.Hostid, Size := e.Maprange }

/-! ## Invariants of the specification -/

/-- Two entries lie on the same axis: both are uid entries or both are gid
entries. -/
def IdmapEntry.sameAxis (a b : IdmapEntry) : Bool :=
  (a.Isuid && b.Isuid) || (a.Isgid && b.Isgid)

/-- The container-side ranges `[Nsid, Nsid + Maprange)` of two entries have
an id in common. -/
def IdmapEntry.nsOverlap (a b : IdmapEntry) : Bool :=
  decide (max a.Nsid b.Nsid < min (a.Nsid + a.Maprange) (b.Nsid + b.Maprange))

/-- The `IdmapEntry` invariant of the specification: exactly one of `Isuid`
and `Isgid` is true, `Maprange ≥ 1`, `Nsid ≥ 0`, `Hostid ≥ 0`,
`Hostid + Maprange ≤ 2^32` and `Nsid + Maprange ≤ 2^32`. -/
def IdmapEntry.invariant (e : IdmapEntry) : Bool :=
  (e.Isuid != e.Isgid) && decide (1 ≤ e.Maprange) && decide (0 ≤ e.Nsid) &&
    decide (0 ≤ e.Hostid) && decide (e.Hostid + e.Maprange ≤ 2 ^ 32) &&
    decide (e.Nsid + e.Maprange ≤ 2 ^ 32)

/-- The consolidated ranges of the current map end below `2^32`, as the
`u32` field `end_id` of an `IdRange` in the specification says. -/
def Env.u32Ranges (env : Env) : Prop :=
  ∀ m rs, CurrentIdmapSet env = .ok m → env.ValidRanges m = .ok rs →
    ∀ r ∈ rs, r.Endid < 2 ^ 32

/-! ## Filesystem shifter -/

/-- Go `VFS3FscapsUnsupported`. -/
def VFS3FscapsUnsupported : Int := 0

/-- Go `VFS3FscapsSupported`. -/
def VFS3FscapsSupported : Int := 1

/-- Go `VFS3FscapsUnknown`. -/
def VFS3FscapsUnknown : Int := -1

/-- Errors seen by the shifter: the sentinel `filepath.SkipDir`, an error
handed up from a system call or a helper of the package, and the two
`fmt.Errorf` values of `doUidshiftIntoContainer`. -/
inductive ShiftErr
  | SkipDir
  | sys (code : Nat)
  | expandingSymlinks (code : Nat)
  | noSuchFile
  deriving DecidableEq, Repr

/-- The fields of `unix.Stat_t` the shifter reads. -/
structure Stat where
  Nlink : Nat
  Ino : Nat
  Uid : Nat
  Gid : Nat
  deriving DecidableEq, Repr

/-- What the shifter asks of an `os.FileInfo`: `IsDir()` and whether
`Mode()&os.ModeSymlink` is set. -/
structure FileInfo where
  IsDir : Bool
  symlink : Bool
  deriving DecidableEq, Repr

/-- One path of the tree, with the outcome of every operation the shifter
may perform on it (`none` and `.ok` for success, an error code otherwise). -/
structure Entry where
  path : String
  fi : FileInfo
  Lstat : Except Nat Stat
  GetCaps : Except Nat (List Nat)
  ShiftOwner : Option Nat
  ShiftACL : Option Nat
  SetCaps : Option Nat
  deriving DecidableEq, Repr

/-- The calls `convert` makes, in the order it makes them. -/
inductive Call
  | Lstat (path : String)
  | Printf (path : String) (newuid newgid : Int)
  | GetCaps (path : String)
  | ShiftOwner (basepath path : String) (uid gid : Int)
  | ShiftACL (path : String)
  | SetCaps (path : String) (caps : List Nat) (rootUID : Int)
  | Warnf (path : String) (code : Nat)
  deriving DecidableEq, Repr

/-- The parameters of one call of `doUidshiftIntoContainer` that the closure
`convert` captures: the translation methods of the set (declared in the
sibling file of the package), the canonical `dir`, `testmode`, `how`, the
skip predicate (`none` for a nil `skipper`) and the value the feature cache
holds during the walk. -/
structure Shift where
  ShiftIntoNs : Int → Int → Int × Int
  ShiftFromNs : Int → Int → Int × Int
  dir : String
  testmode : Bool
  how : String
  skipper : Option (String → String → FileInfo → Bool)
  VFS3Fscaps : Int

/-- What one call of `convert` leaves: its return value, the slice
`hardLinks` and the calls it made. -/
structure Converted where
  err : Option ShiftErr
  hardLinks : List Nat
  calls : List Call
  deriving DecidableEq, Repr

/-- The condition `skipper != nil && skipper(dir, path, fi)`. -/
def Shift.skips (c : Shift) (e : Entry) : Bool :=
  match c.skipper with
  | none => false
  | some skipper => skipper c.dir e.path e.fi

/-- The part of `convert` that follows the hard-link check: translate the
owner, then print (test mode) or read capabilities, change the owner, shift
the ACLs and set the capabilities again.  `calls` holds the calls made so
far. -/
def convert.shift (c : Shift) (e : Entry) (stat : Stat) (hardLinks : List Nat)
    (calls : List Call) : Converted :=
  let uid : Int := stat.Uid
  let gid : Int := stat.Gid
  let new : Int × Int :=
    if c.how = "in" then c.ShiftIntoNs uid gid
    else if c.how = "out" then c.ShiftFromNs uid gid
    else (0, 0)
  if c.testmode then
    ⟨none, hardLinks, calls ++ [.Printf e.path new.1 new.2]⟩
  else
    -- Dump capabilities
    let dumped : Except Nat (List Nat) × List Call :=
      if !e.fi.symlink then (e.GetCaps, calls ++ [.GetCaps e.path]) else (.ok [], calls)
    match dumped with
    | (.error code, calls) => ⟨some (.sys code), hardLinks, calls⟩
    | (.ok caps, calls) =>
      -- Shift owner
      let calls := calls ++ [.ShiftOwner c.dir e.path new.1 new.2]
      match e.ShiftOwner with
      | some code => ⟨some (.sys code), hardLinks, calls⟩
      | none =>
        if !e.fi.symlink then
          -- Shift POSIX ACLs
          let calls := calls ++ [.ShiftACL e.path]
          match e.ShiftACL with
          | some code => ⟨some (.sys code), hardLinks, calls⟩
          | none =>
            -- Shift capabilities
            if caps.length ≠ 0 then
              let rootUID : Int := if c.how = "in" then (c.ShiftIntoNs 0 0).1 else 0
              if c.how ≠ "in" ∨ c.VFS3Fscaps = VFS3FscapsSupported then
                let calls := calls ++ [.SetCaps e.path caps rootUID]
                match e.SetCaps with
                | some code => ⟨none, hardLinks, calls ++ [.Warnf e.path code]⟩
                | none => ⟨none, hardLinks, calls⟩
              else ⟨none, hardLinks, calls⟩
            else ⟨none, hardLinks, calls⟩
        else ⟨none, hardLinks, calls⟩

/-- The closure `convert` of `doUidshiftIntoContainer`, called by the walk
with an entry and the error the walk met at it (`none` for nil). -/
def convert (c : Shift) (e : Entry) (err : Option Nat) (hardLinks : List Nat) : Converted :=
  match err with
  | some code => ⟨some (.sys code), hardLinks, []⟩
  | none =>
    if c.skips e then ⟨some .SkipDir, hardLinks, []⟩
    else
      match e.Lstat with
      | .error code => ⟨some (.sys code), hardLinks, [.Lstat e.path]⟩
      | .ok stat =>
        if stat.Nlink ≥ 2 then
          -- File was already shifted through hardlink
          if hardLinks.contains stat.Ino then ⟨none, hardLinks, [.Lstat e.path]⟩
          else convert.shift c e stat (hardLinks ++ [stat.Ino]) [.Lstat e.path]
        else convert.shift c e stat hardLinks [.Lstat e.path]

/-- The file tree as `filepath.Walk` finds it: an entry, the error of the
walk's own `lstat` of it, the error of reading it as a directory, and the
entries it holds in lexical order (used when the entry is a directory). -/
inductive Tree
  | node (e : Entry) (lstatErr : Option Nat) (readDirErr : Option Nat) (names : List Tree)

/-- The entry at the root of a tree. -/
def Tree.entry : Tree → Entry
  | .node e _ _ _ => e

/-- The error of the walk's `lstat` at the root of a tree. -/
def Tree.lstatErr : Tree → Option Nat
  | .node _ err _ _ => err

mutual
/-- Go `filepath.walk(path, info, walkFn)`; the state `σ` is what `walkFn`
reads and writes outside its arguments. -/
def walk {σ : Type} (walkFn : Entry → Option Nat → σ → Option ShiftErr × σ) :
    Tree → σ → Option ShiftErr × σ
  | .node e _ readDirErr names, st =>
    if !e.fi.IsDir then walkFn e none st
    else
      let r := walkFn e readDirErr st
      if readDirErr.isSome || r.1.isSome then r
      else walkNames walkFn names r.2
/-- The loop `for _, name := range names` of `filepath.walk`. -/
def walkNames {σ : Type} (walkFn : Entry → Option Nat → σ → Option ShiftErr × σ) :
    List Tree → σ → Option ShiftErr × σ
  | [], st => (none, st)
  | t :: rest, st =>
    match t.lstatErr with
    | some code =>
      let r := walkFn t.entry (some code) st
      if r.1.isSome && r.1 != some .SkipDir then r
      else walkNames walkFn rest r.2
    | none =>
      let r := walk walkFn t st
      if r.1.isSome then
        if !t.entry.fi.IsDir || r.1 != some .SkipDir then r
        else walkNames walkFn rest r.2
      else walkNames walkFn rest r.2
end

/-- Go `filepath.Walk(root, fn)`. -/
def Walk {σ : Type} (fn : Entry → Option Nat → σ → Option ShiftErr × σ) (root : Tree)
    (st : σ) : Option ShiftErr × σ :=
  let r :=
    match root.lstatErr with
    | some code => fn root.entry (some code) st
    | none => walk fn root st
  if r.1 = some .SkipDir then (none, r.2) else r

/-- The state of one walk of the shifter: the slice `hardLinks` and the
calls made so far. -/
structure WalkState where
  hardLinks : List Nat
  calls : List Call
  deriving DecidableEq, Repr

/-- The closure `convert` as the function the walk calls. -/
def Shift.walkFn (c : Shift) (e : Entry) (err : Option Nat) (st : WalkState) :
    Option ShiftErr × WalkState :=
  let r := convert c e err st.hardLinks
  (r.err, { hardLinks := r.hardLinks, calls := st.calls ++ r.calls })

/-- What a call of `doUidshiftIntoContainer` finds outside: the probe
`SupportsVFS3Fscaps`, the canonical form of a directory (`filepath.Dir`,
`filepath.EvalSymlinks`, `filepath.Join`, `filepath.Base` and
`strings.TrimRight`; the error is that of `EvalSymlinks`),
`util.PathExists`, and the tree the walk finds at a path. -/
structure ShiftEnv where
  SupportsVFS3Fscaps : String → Bool
  canonical : String → Except Nat String
  PathExists : String → Bool
  tree : String → Tree

/-- What a call of `doUidshiftIntoContainer` leaves: its return value, the
value of the feature cache `VFS3Fscaps`, and the calls `convert` made. -/
structure Shifted where
  err : Option ShiftErr
  VFS3Fscaps : Int
  calls : List Call

/-- Go `IdmapSet.doUidshiftIntoContainer`; `ShiftIntoNs` and `ShiftFromNs`
are the methods of the receiver, `VFS3Fscaps` is the value of the feature
cache when the call starts. -/
def doUidshiftIntoContainer (env : ShiftEnv) (ShiftIntoNs ShiftFromNs : Int → Int → Int × Int)
    (VFS3Fscaps : Int) (dir : String) (testmode : Bool) (how : String)
    (skipper : Option (String → String → FileInfo → Bool)) : Shifted :=
  let VFS3Fscaps : Int :=
    if how = "in" ∧ VFS3Fscaps = VFS3FscapsUnknown then
      (if env.SupportsVFS3Fscaps dir then VFS3FscapsSupported else VFS3FscapsUnsupported)
    else VFS3Fscaps
  -- Expand any symlink before the final path component
  match env.canonical dir with
  | .error code => ⟨some (.expandingSymlinks code), VFS3Fscaps, []⟩
  | .ok dir =>
    if !env.PathExists dir then ⟨some .noSuchFile, VFS3Fscaps, []⟩
    else
      let c : Shift :=
        { ShiftIntoNs := ShiftIntoNs, ShiftFromNs := ShiftFromNs, dir := dir,
          testmode := testmode, how := how, skipper := skipper, VFS3Fscaps := VFS3Fscaps }
      let r := Walk c.walkFn (env.tree dir) { hardLinks := [], calls := [] }
      ⟨r.1, VFS3Fscaps, r.2.calls⟩

/-- A regular file owned by `0:0` on which every operation succeeds. -/
def Example.file (path : String) (nlink ino : Nat) : Tree :=
  .node
    { path := path, fi := { IsDir := false, symlink := false },
      Lstat := .ok { Nlink := nlink, Ino := ino, Uid := 0, Gid := 0 },
      GetCaps := .ok [], ShiftOwner := none, ShiftACL := none, SetCaps := none }
    none none []

/-- A directory owned by `0:0` on which every operation succeeds. -/
def Example.dir (path : String) (ino : Nat) (names : List Tree) : Tree :=
  .node
    { path := path, fi := { IsDir := true, symlink := false },
      Lstat := .ok { Nlink := 2, Ino := ino, Uid := 0, Gid := 0 },
      GetCaps := .ok [], ShiftOwner := none, ShiftACL := none, SetCaps := none }
    none none names

/-- An environment that holds one tree, at every path. -/
def Example.shiftEnv (t : Tree) : ShiftEnv :=
  { SupportsVFS3Fscaps := fun _ => true
    canonical := fun dir => .ok dir
    PathExists := fun _ => true
    tree := fun _ => t }

/-- The translation of the map `(uid and gid, nsid 0, hostid 100000,
maprange 65536)` from the host into the namespace, `-1` where no entry
covers the id. -/
def Example.into (uid gid : Int) : Int × Int :=
  (if 100000 ≤ uid ∧ uid < 165536 then uid - 100000 else -1,
   if 100000 ≤ gid ∧ gid < 165536 then gid - 100000 else -1)

/-- The translation of the same map from the namespace to the host. -/
def Example.from (uid gid : Int) : Int × Int :=
  (if 0 ≤ uid ∧ uid < 65536 then uid + 100000 else -1,
   if 0 ≤ gid ∧ gid < 65536 then gid + 100000 else -1)

/-- The state after the walk function has been called along a sequence of
visits, each an entry with the error the walk passes for it. -/
def visitAll {σ : Type} (walkFn : Entry → Option Nat → σ → Option ShiftErr × σ) :
    List (Entry × Option Nat) → σ → σ
  | [], st => st
  | v :: vs, st => visitAll walkFn vs (walkFn v.1 v.2 st).2

/-- The slice `hardLinks` after `convert` has been called along a sequence of
visits. -/
def hardLinksAfter (c : Shift) : List (Entry × Option Nat) → List Nat → List Nat
  | [], hardLinks => hardLinks
  | v :: vs, hardLinks => hardLinksAfter c vs (convert c v.1 v.2 hardLinks).hardLinks

/-- The inode a visit brings to the hard-link check: that of an entry the
walk passes without error, the predicate does not skip, `Lstat` succeeds on
and that has a link count of at least two. -/
def Shift.recorded (c : Shift) (v : Entry × Option Nat) : Option Nat :=
  match v.2 with
  | some _ => none
  | none =>
    if c.skips v.1 then none
    else
      match v.1.Lstat with
      | .error _ => none
      | .ok stat => if stat.Nlink ≥ 2 then some stat.Ino else none

/-- A call of the ownership setter. -/
def Call.isShiftOwner : Call → Bool
  | .ShiftOwner _ _ _ _ => true
  | _ => false

/-- The number of calls of the ownership setter, along a sequence of visits,
made for entries that bring the inode `ino` to the hard-link check. -/
def ownerCalls (c : Shift) (ino : Nat) : List (Entry × Option Nat) → List Nat → Nat
  | [], _ => 0
  | v :: vs, hardLinks =>
    (if c.recorded v = some ino then
        (convert c v.1 v.2 hardLinks).calls.countP Call.isShiftOwner
      else 0) +
      ownerCalls c ino vs (convert c v.1 v.2 hardLinks).hardLinks

/-! ## Entry point -/

/-- Go `GetIdmapSet()` without its log lines: `Usable` is the method
`IdmapSet.Usable` of the sibling file (`none` for nil), the call of
`CurrentIdmapSet` only feeds the log, and `none` is the nil result. -/
def GetIdmapSet (env : Env) (Usable : IdmapSet → Option Err) : Option IdmapSet :=
  match DefaultIdmapSet env "" [] with
  | .error _ => none
  | .ok idmapSet =>
    if idmapSet.Idmap.length = 0 then none
    else
      match Usable idmapSet with
      | some _ => none
      | none => some idmapSet

/-! # Theorems -/

/-! ## Standard-library facts -/

theorem Split_ne_nil (s : Text) (sep : Char) : Split s sep ≠ [] := by
  cases s with
  | nil => simp [Split]
  | cons c cs =>
    unfold Split
    by_cases h : c = sep
    · simp [h]
    · rw [if_neg h]
      cases Split cs sep <;> simp

theorem Split_headD (s : Text) (sep : Char) :
    (Split s sep).headD [] = s.takeWhile (· ≠ sep) := by
  induction s with
  | nil => rfl
  | cons c cs ih =>
    unfold Split
    by_cases h : c = sep
    · simp [h]
    · rw [if_neg h]
      cases hs : Split cs sep with
      | nil => exact absurd hs (Split_ne_nil cs sep)
      | cons f fs =>
        rw [hs] at ih
        simp only [List.headD_cons] at ih
        simp only [List.headD_cons, List.takeWhile_cons, ne_eq, h, not_false_eq_true,
          decide_True, if_true, ← ih]

theorem decimalFrom_ge (cs : Text) (n : Nat) : n ≤ decimalFrom n cs := by
  induction cs generalizing n with
  | nil => simp [decimalFrom]
  | cons c cs ih =>
    have := ih (10 * n + (c.toNat - 48))
    simp only [decimalFrom, List.foldl_cons] at this ⊢
    omega

theorem decimalFrom_cons (c : Char) (cs : Text) (n : Nat) :
    decimalFrom n (c :: cs) = decimalFrom (10 * n + (c.toNat - 48)) cs := rfl

theorem ParseUint_loop_eq (cs : Text) (n : Nat) (hn : n < 2 ^ 32) :
    ParseUint.loop cs n =
      if cs.all isDigit = true ∧ decimalFrom n cs < 2 ^ 32
      then some (decimalFrom n cs) else none := by
  induction cs generalizing n with
  | nil =>
    have hn' : n < 4294967296 := by omega
    simp [ParseUint.loop, decimalFrom, hn']
  | cons c cs ih =>
    unfold ParseUint.loop
    rw [decimalFrom_cons, List.all_cons]
    by_cases hd : 48 ≤ c.toNat ∧ c.toNat ≤ 57
    · have hdig : isDigit c = true := by simp [isDigit, hd]
      have hcut : ¬ n ≥ ParseUint.cutoff := by simp [ParseUint.cutoff]; omega
      have h0 : (n * 10) % 2 ^ 64 = 10 * n := by
        rw [Nat.mod_eq_of_lt (by omega)]; omega
      have h1 : (10 * n + (c.toNat - 48)) % 2 ^ 64 = 10 * n + (c.toNat - 48) :=
        Nat.mod_eq_of_lt (by omega)
      rw [if_pos hd, if_neg hcut]
      simp only [h0, h1, hdig, Bool.true_and]
      by_cases hbig : 10 * n + (c.toNat - 48) > ParseUint.maxVal
      · rw [if_pos (Or.inr hbig)]
        have hge := decimalFrom_ge cs (10 * n + (c.toNat - 48))
        simp only [ParseUint.maxVal] at hbig
        rw [if_neg]
        intro h
        omega
      · have hno : ¬ (10 * n + (c.toNat - 48) < 10 * n ∨
            10 * n + (c.toNat - 48) > ParseUint.maxVal) := by
          intro h
          rcases h with h | h
          · omega
          · exact hbig h
        rw [if_neg hno]
        simp only [ParseUint.maxVal] at hbig
        exact ih _ (by omega)
    · have hdig : isDigit c = false := by
        simp only [isDigit, Bool.and_eq_false_iff, decide_eq_false_iff_not]
        by_cases h48 : 48 ≤ c.toNat
        · exact Or.inr (fun h => hd ⟨h48, h⟩)
        · exact Or.inl h48
      rw [if_neg hd]
      simp [hdig]

/-- `strconv.ParseUint(s, 10, 32)` succeeds exactly on the decimal unsigned
32-bit integers, and returns their value. -/
theorem ParseUint_eq (s : Text) : ParseUint s = uint32Field s := by
  unfold ParseUint uint32Field isUint32 decimalValue
  by_cases hs : s = []
  · simp [hs]
  · rw [if_neg hs, ParseUint_loop_eq s 0 (by norm_num)]
    simp [hs]

/-! ## The scanner -/

theorem byteLen_append (a b : Text) : byteLen (a ++ b) = byteLen a + byteLen b := by
  induction a with
  | nil => simp [byteLen]
  | cons c cs ih => simp [byteLen, ih, Nat.add_assoc]

theorem byteLen_replicate (n : Nat) (c : Char) :
    byteLen (List.replicate n c) = n * RuneLen c := by
  induction n with
  | zero => simp [byteLen]
  | succ n ih => simp [List.replicate_succ, byteLen, ih, Nat.succ_mul, Nat.add_comm]

theorem ScanLines_go_cons (c : Char) (cs cur : Text) :
    ScanLines.go (c :: cs) cur =
      if c = '\n' then
        if MaxScanTokenSize ≤ byteLen cur then [] else dropCR cur :: ScanLines.go cs []
      else ScanLines.go cs (cur ++ [c]) := by
  rw [ScanLines.go]

theorem ScanLines_go_line (line post : Text) (cur : Text) (h : '\n' ∉ line) :
    ScanLines.go (line ++ '\n' :: post) cur =
      if MaxScanTokenSize ≤ byteLen (cur ++ line) then []
      else dropCR (cur ++ line) :: ScanLines.go post [] := by
  induction line generalizing cur with
  | nil => simp [ScanLines_go_cons]
  | cons c cs ih =>
    have hc : c ≠ '\n' := fun hc => h (by simp [hc])
    have hcs : '\n' ∉ cs := fun hcs => h (by simp [hcs])
    rw [List.cons_append, ScanLines_go_cons, if_neg hc, ih _ hcs]
    simp

theorem ScanLines_go_last (line : Text) (cur : Text) (h : '\n' ∉ line) :
    ScanLines.go line cur =
      if cur ++ line = [] ∨ MaxScanTokenSize ≤ byteLen (cur ++ line) then []
      else [dropCR (cur ++ line)] := by
  induction line generalizing cur with
  | nil => simp [ScanLines.go]
  | cons c cs ih =>
    have hc : c ≠ '\n' := fun hc => h (by simp [hc])
    have hcs : '\n' ∉ cs := fun hcs => h (by simp [hcs])
    rw [ScanLines_go_cons, if_neg hc, ih _ hcs]
    simp

theorem rawLines_go_cons (c : Char) (cs cur : Text) :
    rawLines.go (c :: cs) cur =
      if c = '\n' then cur :: rawLines.go cs [] else rawLines.go cs (cur ++ [c]) := by
  rw [rawLines.go]

theorem rawLines_go_line (line post : Text) (cur : Text) (h : '\n' ∉ line) :
    rawLines.go (line ++ '\n' :: post) cur = (cur ++ line) :: rawLines.go post [] := by
  induction line generalizing cur with
  | nil => simp [rawLines_go_cons]
  | cons c cs ih =>
    have hc : c ≠ '\n' := fun hc => h (by simp [hc])
    have hcs : '\n' ∉ cs := fun hcs => h (by simp [hcs])
    rw [List.cons_append, rawLines_go_cons, if_neg hc, ih _ hcs]
    simp

/-- The scanner delivers the lines of the file that come before the first
line of `MaxScanTokenSize` bytes or more, each without its line end. -/
theorem ScanLines_go_eq (content cur : Text) :
    ScanLines.go content cur =
      ((rawLines.go content cur).takeWhile
        (fun l => decide (byteLen l < MaxScanTokenSize))).map dropCR := by
  induction content generalizing cur with
  | nil =>
    simp only [ScanLines.go, rawLines.go]
    by_cases h1 : cur = []
    · simp [h1]
    · by_cases h2 : MaxScanTokenSize ≤ byteLen cur
      · have h3 : ¬ byteLen cur < MaxScanTokenSize := by omega
        simp [h1, h2, h3, List.takeWhile_cons]
      · have h3 : byteLen cur < MaxScanTokenSize := by omega
        simp [h1, h2, h3, List.takeWhile_cons]
  | cons c cs ih =>
    rw [ScanLines_go_cons, rawLines_go_cons]
    by_cases hc : c = '\n'
    · by_cases h2 : MaxScanTokenSize ≤ byteLen cur
      · have h3 : ¬ byteLen cur < MaxScanTokenSize := by omega
        simp [hc, h2, h3, List.takeWhile_cons]
      · have h3 : byteLen cur < MaxScanTokenSize := by omega
        simp [hc, h2, h3, List.takeWhile_cons, ih]
    · simp [hc, ih]

theorem ScanLines_eq (content : Text) :
    ScanLines content =
      ((rawLines content).takeWhile
        (fun l => decide (byteLen l < MaxScanTokenSize))).map dropCR :=
  ScanLines_go_eq content []

/-- On a file whose lines are all shorter than `MaxScanTokenSize` bytes the
scanner delivers every line of the file. -/
theorem ScanLines_short (content : Text)
    (h : ∀ l ∈ rawLines content, byteLen l < MaxScanTokenSize) :
    ScanLines content = fileLines content := by
  rw [ScanLines_eq, fileLines]
  congr 1
  rw [List.takeWhile_eq_self_iff]
  intro l hl
  simpa using h l hl

theorem ScanLines_lines_cons (l : Text) (ls : List Text) (h : '\n' ∉ l) :
    ScanLines (Example.lines (l :: ls)) =
      if MaxScanTokenSize ≤ byteLen l then [] else dropCR l :: ScanLines (Example.lines ls) := by
  unfold ScanLines
  rw [Example.lines, ScanLines_go_line _ _ _ h, List.nil_append]

theorem rawLines_lines_cons (l : Text) (ls : List Text) (h : '\n' ∉ l) :
    rawLines (Example.lines (l :: ls)) = l :: rawLines (Example.lines ls) := by
  unfold rawLines
  rw [Example.lines, rawLines_go_line _ _ _ h, List.nil_append]

theorem longComment_byteLen : byteLen Example.longComment = 65536 := by
  unfold Example.longComment
  rw [byteLen, byteLen_replicate]
  decide

theorem newline_not_mem_replicate (n : Nat) : '\n' ∉ '#' :: List.replicate n 'x' := by
  simp [List.mem_replicate]

theorem longComment_newline : '\n' ∉ Example.longComment :=
  newline_not_mem_replicate 65535

theorem longComment_long : MaxScanTokenSize ≤ byteLen Example.longComment := by
  rw [longComment_byteLen]
  decide

theorem stripComment_hash (t : Text) : stripComment ('#' :: t) = [] := by
  simp [stripComment]

theorem longComment_stripComment : stripComment Example.longComment = [] :=
  stripComment_hash _

theorem stripComment_append_hash (a t : Text) :
    stripComment (a ++ '#' :: t) = stripComment a := by
  induction a with
  | nil => simp [stripComment]
  | cons c cs ih =>
    unfold stripComment at ih ⊢
    by_cases hc : c = '#'
    · simp [hc]
    · simp only [List.cons_append, List.takeWhile_cons, ne_eq, hc, not_false_eq_true,
        decide_True, if_true, ih]

theorem dropCR_append_hash (a t : Text) :
    ∃ t2, dropCR (a ++ '#' :: t) = a ++ '#' :: t2 := by
  unfold dropCR
  by_cases h : (a ++ '#' :: t).getLast? = some '\r'
  · rw [if_pos h]
    cases t with
    | nil => simp at h
    | cons d ds =>
      refine ⟨(d :: ds).dropLast, ?_⟩
      rw [List.dropLast_append_of_ne_nil _ (by simp), List.dropLast_cons₂]
  · rw [if_neg h]
    exact ⟨t, rfl⟩

theorem stripComment_dropCR_hash (a t : Text) :
    stripComment (dropCR (a ++ '#' :: t)) = stripComment a := by
  obtain ⟨t2, h⟩ := dropCR_append_hash a t
  rw [h, stripComment_append_hash]

/-! ## The shadow reader -/

theorem toNat_inj {a b : Char} (h : a.toNat = b.toNat) : a = b := by
  rw [← Char.ofNat_toNat a, ← Char.ofNat_toNat b, h]

theorem Split_hash_headD (text : Text) : (Split text '#').headD [] = stripComment text :=
  Split_headD text '#'

/-- The scan loop of `getFromShadow`, in closed form: it stops with the
field-count error at the first offending line, and otherwise appends the
records of the user in line order. -/
theorem getFromShadow_loop_eq (SimpleFold : Nat → Nat) (fname : Path) (username : Text)
    (lines : List Text)
    (entries : List (Int × Int)) :
    getFromShadow.loop SimpleFold fname username lines entries =
      match lines.find? shadowFieldCountFailure with
      | some line => .error (.unexpectedValues fname (Split (stripComment line) ':'))
      | none => .ok (entries ++ lines.filterMap (shadowRecord SimpleFold username)) := by
  induction lines generalizing entries with
  | nil => simp [getFromShadow.loop]
  | cons text rest ih =>
    unfold getFromShadow.loop
    simp only [Split_hash_headD]
    by_cases hlen : (stripComment text).length = 0
    · have hnil : stripComment text = [] := List.length_eq_zero.mp hlen
      have hbad : shadowFieldCountFailure text = false := by
        simp [shadowFieldCountFailure, shadowFieldCount, hnil]
      have hrec : shadowRecord SimpleFold username text = none := by
        simp [shadowRecord, shadowFields, hnil, Split]
      rw [if_pos hlen, ih, List.find?_cons, hbad, List.filterMap_cons, hrec]
    · have hne : stripComment text ≠ [] := fun h => hlen (by simp [h])
      rw [if_neg hlen]
      by_cases hcnt : (Split (stripComment text) ':').length < 3
      · have hbad : shadowFieldCountFailure text = true := by
          simp [shadowFieldCountFailure, shadowFieldCount, hne, hcnt]
        rw [if_pos hcnt, List.find?_cons, hbad]
      · have hbad : shadowFieldCountFailure text = false := by
          simp [shadowFieldCountFailure, shadowFieldCount, hne, hcnt]
        rw [if_neg hcnt, List.find?_cons, hbad, List.filterMap_cons]
        obtain ⟨name, start, size, more, hs⟩ :
            ∃ name start size more, Split (stripComment text) ':' = name :: start :: size :: more := by
          match hs : Split (stripComment text) ':' with
          | [] => simp [hs] at hcnt
          | [_] => simp [hs] at hcnt
          | [_, _] => simp [hs] at hcnt
          | a :: b :: c :: d => exact ⟨a, b, c, d, rfl⟩
        simp only [hs, List.getD_cons_zero, List.getD_cons_succ]
        by_cases hfold : EqualFold SimpleFold name username = true
        · rw [if_pos hfold]
          simp only [shadowRecord, shadowFields, hs, hne, hfold, ne_eq, not_false_eq_true, and_self, if_true,
            ← ParseUint_eq]
          cases h1 : ParseUint start with
          | none => simp [ih]
          | some a =>
            cases h2 : ParseUint size with
            | none => simp [ih]
            | some b => simp [ih]
        · rw [if_neg hfold]
          simp [shadowRecord, shadowFields, hs, hfold, ih]

/-- Go `getFromShadow` on a file that opens, in closed form. -/
theorem getFromShadow_eq (SimpleFold : Nat → Nat) (fname : Path) (content username : Text) :
    getFromShadow SimpleFold fname (.ok content) username =
      match (ScanLines content).find? shadowFieldCountFailure with
      | some line => .error (.unexpectedValues fname (Split (stripComment line) ':'))
      | none =>
        if shadowRecords SimpleFold content username = [] then .error .ErrNoUserMap
        else .ok (shadowRecords SimpleFold content username) := by
  unfold getFromShadow
  simp only [getFromShadow_loop_eq, List.nil_append]
  cases (ScanLines content).find? shadowFieldCountFailure with
  | some line => rfl
  | none => simp [shadowRecords, List.length_eq_zero]

/-- The shadow reader on a file of which the scanner delivers `lines`. -/
theorem getFromShadow_of_lines (SimpleFold : Nat → Nat) (fname : Path)
    (content username : Text) (lines : List Text) (h : ScanLines content = lines) :
    getFromShadow SimpleFold fname (.ok content) username =
      match getFromShadow.loop SimpleFold fname username lines [] with
      | .error err => .error err
      | .ok entries => if entries.length = 0 then .error .ErrNoUserMap else .ok entries := by
  subst h
  rfl

theorem EqualFold_orbit_succ (SimpleFold : Nat → Nat) (sr tr fuel r : Nat) :
    EqualFold.orbit SimpleFold sr tr (fuel + 1) r =
      if r ≠ sr ∧ r < tr then EqualFold.orbit SimpleFold sr tr fuel (SimpleFold r) else r :=
  rfl

/-- With a fold table that pairs `A` with `a`, a rune matches `A` exactly
when it matches `a`. -/
theorem EqualFold_rune_A_a (SimpleFold : Nat → Nat) (hA : SimpleFold 65 = 97)
    (ha : SimpleFold 97 = 65) (c : Char) :
    EqualFold.rune SimpleFold c 'A' = EqualFold.rune SimpleFold c 'a' := by
  by_cases hcA : c = 'A'
  · subst hcA; simp [EqualFold.rune]
  by_cases hca : c = 'a'
  · subst hca; simp [EqualFold.rune]
  have hA' : c.toNat ≠ 65 := fun h => hcA (toNat_inj h)
  have ha' : c.toNat ≠ 97 := fun h => hca (toNat_inj h)
  have eA : ('A' : Char).toNat = 65 := rfl
  have ea : ('a' : Char).toNat = 97 := rfl
  have hA2 : ¬ ('A' = c) := fun h => hcA h.symm
  have ha2 : ¬ ('a' = c) := fun h => hca h.symm
  unfold EqualFold.rune
  rw [if_neg hA2, if_neg ha2]
  simp only [eA, ea]
  generalize c.toNat = n at hA' ha'
  by_cases hn : n < 0x80
  · have h1 : max n 65 < 0x80 := by omega
    have h2 : max n 97 < 0x80 := by omega
    rw [if_pos h1, if_pos h2]
    have f1 : ¬ (65 ≤ min n 65 ∧ min n 65 ≤ 90 ∧ max n 65 = min n 65 + 32) := by omega
    have f2 : ¬ (65 ≤ min n 97 ∧ min n 97 ≤ 90 ∧ max n 97 = min n 97 + 32) := by omega
    rw [decide_eq_false f1, decide_eq_false f2]
  · have h1 : ¬ max n 65 < 0x80 := by omega
    have h2 : ¬ max n 97 < 0x80 := by omega
    have m1 : min n 65 = 65 := by omega
    have m2 : min n 97 = 97 := by omega
    have M1 : max n 65 = n := by omega
    have M2 : max n 97 = n := by omega
    rw [if_neg h1, if_neg h2, m1, m2, M1, M2]
    have c1 : (97 : Nat) ≠ 65 ∧ 97 < n := ⟨by decide, by omega⟩
    have c2 : (65 : Nat) ≠ 97 ∧ 65 < n := ⟨by decide, by omega⟩
    have hf : EqualFold.fuel = 1114110 + 1 + 1 := rfl
    have o1 : EqualFold.orbit SimpleFold 65 n EqualFold.fuel (SimpleFold 65) = 65 := by
      rw [hA, hf, EqualFold_orbit_succ, if_pos c1, ha, EqualFold_orbit_succ, if_neg (by simp)]
    have o2 : EqualFold.orbit SimpleFold 97 n EqualFold.fuel (SimpleFold 97) = 97 := by
      rw [ha, hf, EqualFold_orbit_succ, if_pos c2, hA, EqualFold_orbit_succ, if_neg (by simp)]
    rw [o1, o2]
    have : ¬ (65 = n) := by omega
    have : ¬ (97 = n) := by omega
    simp [*]

theorem EqualFold_Alice_alice (SimpleFold : Nat → Nat) (hA : SimpleFold 65 = 97)
    (ha : SimpleFold 97 = 65) (s : Text) :
    EqualFold SimpleFold s ['A', 'l', 'i', 'c', 'e'] =
      EqualFold SimpleFold s ['a', 'l', 'i', 'c', 'e'] := by
  cases s with
  | nil => rfl
  | cons c cs => simp only [EqualFold, EqualFold_rune_A_a SimpleFold hA ha]

theorem shadowRecord_Alice_alice (SimpleFold : Nat → Nat) (hA : SimpleFold 65 = 97)
    (ha : SimpleFold 97 = 65) (line : Text) :
    shadowRecord SimpleFold ['A', 'l', 'i', 'c', 'e'] line =
      shadowRecord SimpleFold ['a', 'l', 'i', 'c', 'e'] line := by
  unfold shadowRecord shadowFields
  simp only [EqualFold_Alice_alice SimpleFold hA ha]

/-- The folding loop of `EqualFold` leaves by its own condition before its
fuel is spent, whenever folding the start rune again and again comes back to
it: the rune it stops at is the start rune again or is not below the
target. -/
theorem EqualFold_orbit_exit (SimpleFold : Nat → Nat) (h : orbitsClose SimpleFold)
    (sr tr : Nat) :
    EqualFold.orbit SimpleFold sr tr EqualFold.fuel (SimpleFold sr) = sr ∨
      ¬ EqualFold.orbit SimpleFold sr tr EqualFold.fuel (SimpleFold sr) < tr := by
  obtain ⟨k, hk, hcyc⟩ := h sr
  have aux : ∀ d i fuel, i + d = k → d < fuel →
      (EqualFold.orbit SimpleFold sr tr fuel (SimpleFold^[i + 1] sr) = sr ∨
        ¬ EqualFold.orbit SimpleFold sr tr fuel (SimpleFold^[i + 1] sr) < tr) := by
    intro d
    induction d with
    | zero =>
      intro i fuel hi hfuel
      have hik : i = k := by omega
      subst hik
      obtain ⟨f, rfl⟩ : ∃ f, fuel = f + 1 := ⟨fuel - 1, by omega⟩
      rw [EqualFold_orbit_succ, hcyc]
      simp
    | succ d ih =>
      intro i fuel hi hfuel
      obtain ⟨f, rfl⟩ : ∃ f, fuel = f + 1 := ⟨fuel - 1, by omega⟩
      rw [EqualFold_orbit_succ]
      by_cases hc : SimpleFold^[i + 1] sr ≠ sr ∧ SimpleFold^[i + 1] sr < tr
      · rw [if_pos hc, ← Function.iterate_succ_apply' SimpleFold (i + 1) sr]
        exact ih (i + 1) f (by omega) (by omega)
      · rw [if_neg hc]
        by_cases he : SimpleFold^[i + 1] sr = sr
        · exact Or.inl he
        · exact Or.inr (fun hlt => hc ⟨he, hlt⟩)
  exact aux k 0 EqualFold.fuel (by omega) hk

theorem Example_SimpleFold_cycle (r : Nat) :
    Example.SimpleFold r = r ∨ Example.SimpleFold (Example.SimpleFold r) = r ∨
      Example.SimpleFold (Example.SimpleFold (Example.SimpleFold r)) = r := by
  by_cases h1 : 65 ≤ r ∧ r ≤ 90
  · have e1 : Example.SimpleFold r = r + 32 := by simp [Example.SimpleFold, h1]
    by_cases hK : r = 75
    · subst hK; decide
    by_cases hS : r = 83
    · subst hS; decide
    right; left
    rw [e1]
    unfold Example.SimpleFold
    split_ifs <;> omega
  · by_cases h2 : 97 ≤ r ∧ r ≤ 122
    · by_cases hk : r = 107
      · subst hk; decide
      by_cases hs : r = 115
      · subst hs; decide
      have e1 : Example.SimpleFold r = r - 32 := by
        unfold Example.SimpleFold
        split_ifs
        omega
      right; left
      rw [e1]
      unfold Example.SimpleFold
      split_ifs <;> omega
    · by_cases h3 : r = 0x017F
      · subst h3; decide
      by_cases h4 : r = 0x212A
      · subst h4; decide
      left
      unfold Example.SimpleFold
      split_ifs <;> omega

/-- The fold table of the examples closes every orbit within three steps. -/
theorem Example_SimpleFold_orbits : orbitsClose Example.SimpleFold := by
  intro r
  rcases Example_SimpleFold_cycle r with h | h | h
  · exact ⟨0, by decide, h⟩
  · exact ⟨1, by decide, h⟩
  · exact ⟨2, by decide, h⟩

/-- The records of `getFromShadow`, over the lines the scanner delivers.
When `getFromShadow` succeeds, its result is exactly the list, in file order,
of the (start, size) pairs of the delivered lines that, once the comment is
removed, are non-empty, have at least three `:`-separated fields, name the
user ignoring case and carry two decimal unsigned 32-bit integers; the only
errors are `ErrNoUserMap` and the field-count error, so a line of the user
whose numbers do not parse contributes nothing and fails nothing; and with a
fold table that pairs `A` with `a` the result for `Alice` is the result for
`alice`. -/
theorem getFromShadow_records (SimpleFold : Nat → Nat) (fname : Path)
    (content username : Text) :
    (∀ entries, getFromShadow SimpleFold fname (.ok content) username = .ok entries →
        entries = (ScanLines content).filterMap (shadowRecord SimpleFold username)) ∧
    (∀ err, getFromShadow SimpleFold fname (.ok content) username = .error err →
        err = .ErrNoUserMap ∨
        ∃ line ∈ ScanLines content, stripComment line ≠ [] ∧
          (Split (stripComment line) ':').length < 3 ∧
          err = .unexpectedValues fname (Split (stripComment line) ':')) ∧
    (SimpleFold 65 = 97 → SimpleFold 97 = 65 →
      getFromShadow SimpleFold fname (.ok content) ['A', 'l', 'i', 'c', 'e'] =
        getFromShadow SimpleFold fname (.ok content) ['a', 'l', 'i', 'c', 'e']) := by
  refine ⟨?_, ?_, ?_⟩
  · intro entries h
    rw [getFromShadow_eq] at h
    cases hf : (ScanLines content).find? shadowFieldCountFailure with
    | some line => simp [hf] at h
    | none =>
      simp only [hf] at h
      by_cases he : shadowRecords SimpleFold content username = []
      · simp [he] at h
      · rw [if_neg he] at h
        injection h with h
        exact h.symm
  · intro err h
    rw [getFromShadow_eq] at h
    cases hf : (ScanLines content).find? shadowFieldCountFailure with
    | some line =>
      simp only [hf] at h
      injection h with h
      right
      have hmem := List.mem_of_find?_eq_some hf
      have hbad := List.find?_some hf
      simp only [shadowFieldCountFailure, shadowFieldCount, Bool.and_eq_true, decide_eq_true_eq] at hbad
      exact ⟨line, hmem, hbad.1, hbad.2, h.symm⟩
    | none =>
      simp only [hf] at h
      by_cases he : shadowRecords SimpleFold content username = []
      · rw [if_pos he] at h
        injection h with h
        exact Or.inl h.symm
      · simp [he] at h
  · intro hA ha
    have hrec : shadowRecord SimpleFold ['A', 'l', 'i', 'c', 'e'] =
        shadowRecord SimpleFold ['a', 'l', 'i', 'c', 'e'] :=
      funext (shadowRecord_Alice_alice SimpleFold hA ha)
    simp only [getFromShadow_eq, shadowRecords, hrec]

/-- Scenario S1 of the specification, read for `Alice`, with a line of the
user whose start does not parse. -/
theorem getFromShadow_records_witness :
    getFromShadow Example.SimpleFold (.etcSubuid "") (.ok "alice:100000:65536\nalice:x:7\nalice:200000:1000\n".toList)
        "Alice".toList = .ok [(100000, 65536), (200000, 1000)] ∧
    [((100000 : Int), (65536 : Int)), (200000, 1000)] =
      (ScanLines "alice:100000:65536\nalice:x:7\nalice:200000:1000\n".toList).filterMap
        (shadowRecord Example.SimpleFold "Alice".toList) :=
  ⟨by decide,
   (getFromShadow_records Example.SimpleFold (.etcSubuid "")
      "alice:100000:65536\nalice:x:7\nalice:200000:1000\n".toList "Alice".toList).1 _ (by decide)⟩

theorem find?_shadowFieldCountFailure_none (lines : List Text)
    (h : ∀ line ∈ lines, stripComment line = [] ∨ 3 ≤ (Split (stripComment line) ':').length) :
    lines.find? shadowFieldCountFailure = none := by
  rw [List.find?_eq_none]
  intro line hmem hbad
  simp only [shadowFieldCountFailure, shadowFieldCount, Bool.and_eq_true, decide_eq_true_eq] at hbad
  rcases h line hmem with h1 | h1
  · exact hbad.1 h1
  · omega

/-- The field-count failure of `getFromShadow`, over the lines the scanner
delivers.  If some delivered line, once its comment is removed, is non-empty
and has fewer than three `:`-separated fields, `getFromShadow` returns the
field-count error of such a line and no entries, for every user name and
whatever the other lines hold. -/
theorem getFromShadow_field_count (SimpleFold : Nat → Nat) (fname : Path)
    (content username line : Text)
    (hmem : line ∈ ScanLines content) (hne : stripComment line ≠ [])
    (hcnt : (Split (stripComment line) ':').length < 3) :
    ∃ bad ∈ ScanLines content, stripComment bad ≠ [] ∧
      (Split (stripComment bad) ':').length < 3 ∧
      getFromShadow SimpleFold fname (.ok content) username =
        .error (.unexpectedValues fname (Split (stripComment bad) ':')) := by
  have hbad : shadowFieldCountFailure line = true := by
    simp [shadowFieldCountFailure, shadowFieldCount, hne, hcnt]
  cases hf : (ScanLines content).find? shadowFieldCountFailure with
  | none =>
    rw [List.find?_eq_none] at hf
    exact absurd hbad (hf line hmem)
  | some bad =>
    have hb := List.find?_some hf
    simp only [shadowFieldCountFailure, shadowFieldCount, Bool.and_eq_true, decide_eq_true_eq] at hb
    refine ⟨bad, List.mem_of_find?_eq_some hf, hb.1, hb.2, ?_⟩
    rw [getFromShadow_eq, hf]

/-- Two valid records of `alice` precede a one-field line of another user. -/
theorem getFromShadow_field_count_witness :
    ∃ bad ∈ ScanLines "alice:100000:65536\nalice:200000:1000\nbob # no range\n".toList,
      stripComment bad ≠ [] ∧ (Split (stripComment bad) ':').length < 3 ∧
      getFromShadow Example.SimpleFold (.etcSubuid "")
          (.ok "alice:100000:65536\nalice:200000:1000\nbob # no range\n".toList) "alice".toList =
        .error (.unexpectedValues (.etcSubuid "") (Split (stripComment bad) ':')) :=
  getFromShadow_field_count Example.SimpleFold (.etcSubuid "")
    "alice:100000:65536\nalice:200000:1000\nbob # no range\n".toList "alice".toList
    "bob # no range".toList (by decide) (by decide) (by decide)

/-- The `ErrNoUserMap` result of `getFromShadow`, over the lines the scanner
delivers.  When no delivered line triggers the field-count failure,
`getFromShadow` returns `ErrNoUserMap` exactly when no delivered line holds a
record of the user, and otherwise returns the non-empty list of the
records. -/
theorem getFromShadow_NoUserMap (SimpleFold : Nat → Nat) (fname : Path)
    (content username : Text)
    (h : ∀ line ∈ ScanLines content,
      stripComment line = [] ∨ 3 ≤ (Split (stripComment line) ':').length) :
    (getFromShadow SimpleFold fname (.ok content) username = .error .ErrNoUserMap ↔
        ∀ line ∈ ScanLines content, shadowRecord SimpleFold username line = none) ∧
    ((∃ line ∈ ScanLines content, shadowRecord SimpleFold username line ≠ none) →
        ∃ entries, entries ≠ [] ∧
          getFromShadow SimpleFold fname (.ok content) username = .ok entries) := by
  have hnone : shadowRecords SimpleFold content username = [] ↔
      ∀ line ∈ ScanLines content, shadowRecord SimpleFold username line = none := by
    simp [shadowRecords, List.filterMap_eq_nil_iff]
  rw [getFromShadow_eq, find?_shadowFieldCountFailure_none _ h]
  constructor
  · rw [← hnone]
    by_cases he : shadowRecords SimpleFold content username = []
    · simp [he]
    · simp [he]
  · rintro ⟨line, hmem, hrec⟩
    have he : shadowRecords SimpleFold content username ≠ [] := fun he => hrec (hnone.mp he line hmem)
    exact ⟨shadowRecords SimpleFold content username, he, by simp [he]⟩

/-- Scenario S1 read for `bob` (no record, `ErrNoUserMap`). -/
theorem getFromShadow_NoUserMap_witness :
    getFromShadow Example.SimpleFold (.etcSubuid "") (.ok "alice:100000:65536\nalice:200000:1000\n".toList)
        "bob".toList = .error .ErrNoUserMap :=
  ((getFromShadow_NoUserMap Example.SimpleFold (.etcSubuid "") "alice:100000:65536\nalice:200000:1000\n".toList
      "bob".toList (by decide)).1).2 (by decide)


/-- On a file whose lines are all shorter than `MaxScanTokenSize` bytes the
shadow reader is the closed form over the lines of the file. -/
theorem getFromShadow_short_lines (SimpleFold : Nat → Nat) (fname : Path)
    (content username : Text)
    (h : ∀ l ∈ rawLines content, byteLen l < MaxScanTokenSize) :
    getFromShadow SimpleFold fname (.ok content) username =
      match (fileLines content).find? shadowFieldCountFailure with
      | some line => .error (.unexpectedValues fname (Split (stripComment line) ':'))
      | none =>
        if (fileLines content).filterMap (shadowRecord SimpleFold username) = [] then
          .error .ErrNoUserMap
        else .ok ((fileLines content).filterMap (shadowRecord SimpleFold username)) := by
  rw [getFromShadow_eq, shadowRecords, ScanLines_short content h]

/-! ### Lines of 64 KiB or more -/

theorem mem_fileLines (content line : Text) (h : line ∈ rawLines content)
    (hcr : dropCR line = line) : line ∈ fileLines content := by
  unfold fileLines
  exact List.mem_map.mpr ⟨line, h, hcr⟩

/-- Claim C1, at an input where it fails.  In the file
`alice:1:2`, a comment line of 65536 bytes, `alice:3:4`, the third line is a
line of the file and holds the record `(3, 4)` of `alice`, yet
`getFromShadow` succeeds with `[(1, 2)]` only.  The scanner stops at the
long line and the loop ends as at the end of the file. -/
theorem getFromShadow_records_long_line :
    "alice:3:4".toList ∈
      fileLines (Example.lines ["alice:1:2".toList, Example.longComment, "alice:3:4".toList]) ∧
    shadowRecord Example.SimpleFold "alice".toList "alice:3:4".toList = some (3, 4) ∧
    getFromShadow Example.SimpleFold (.etcSubuid "")
        (.ok (Example.lines ["alice:1:2".toList, Example.longComment, "alice:3:4".toList]))
        "alice".toList = .ok [(1, 2)] := by
  have hS : ScanLines (Example.lines
      ["alice:1:2".toList, Example.longComment, "alice:3:4".toList]) = ["alice:1:2".toList] := by
    rw [ScanLines_lines_cons _ _ (by decide), if_neg (by decide),
      ScanLines_lines_cons _ _ longComment_newline, if_pos longComment_long]
    decide
  have hR : rawLines (Example.lines
      ["alice:1:2".toList, Example.longComment, "alice:3:4".toList]) =
      ["alice:1:2".toList, Example.longComment, "alice:3:4".toList] := by
    rw [rawLines_lines_cons _ _ (by decide), rawLines_lines_cons _ _ longComment_newline,
      rawLines_lines_cons _ _ (by decide)]
    rfl
  refine ⟨mem_fileLines _ _ ?_ (by decide), by decide, ?_⟩
  · rw [hR]
    exact List.mem_cons_of_mem _ (List.mem_cons_of_mem _ (List.mem_cons_self _ _))
  · rw [getFromShadow_of_lines _ _ _ _ _ hS]
    decide

/-- Claim C2, at an input where it fails.  In the file
`alice:1:2`, a comment line of 65536 bytes, `bob`, the third line is a line
of the file, is not empty and has one `:`-separated field, yet
`getFromShadow` does not fail: it returns the record read before the long
line. -/
theorem getFromShadow_field_count_long_line :
    "bob".toList ∈
      fileLines (Example.lines ["alice:1:2".toList, Example.longComment, "bob".toList]) ∧
    stripComment "bob".toList ≠ [] ∧
    (Split (stripComment "bob".toList) ':').length < 3 ∧
    getFromShadow Example.SimpleFold (.etcSubuid "")
        (.ok (Example.lines ["alice:1:2".toList, Example.longComment, "bob".toList]))
        "alice".toList = .ok [(1, 2)] := by
  have hS : ScanLines (Example.lines
      ["alice:1:2".toList, Example.longComment, "bob".toList]) = ["alice:1:2".toList] := by
    rw [ScanLines_lines_cons _ _ (by decide), if_neg (by decide),
      ScanLines_lines_cons _ _ longComment_newline, if_pos longComment_long]
    decide
  have hR : rawLines (Example.lines
      ["alice:1:2".toList, Example.longComment, "bob".toList]) =
      ["alice:1:2".toList, Example.longComment, "bob".toList] := by
    rw [rawLines_lines_cons _ _ (by decide), rawLines_lines_cons _ _ longComment_newline,
      rawLines_lines_cons _ _ (by decide)]
    rfl
  refine ⟨mem_fileLines _ _ ?_ (by decide), by decide, by decide, ?_⟩
  · rw [hR]
    exact List.mem_cons_of_mem _ (List.mem_cons_of_mem _ (List.mem_cons_self _ _))
  · rw [getFromShadow_of_lines _ _ _ _ _ hS]
    decide

/-- Claim C3, at an input where it fails.  In the file
made of a comment line of 65536 bytes and the line `alice:1:2`, no line
triggers the field-count failure and the second line holds a record of
`alice`, yet `getFromShadow` returns `ErrNoUserMap`. -/
theorem getFromShadow_NoUserMap_long_line :
    (∀ line ∈ fileLines (Example.lines [Example.longComment, "alice:1:2".toList]),
        shadowFieldCountFailure line = false) ∧
    "alice:1:2".toList ∈
      fileLines (Example.lines [Example.longComment, "alice:1:2".toList]) ∧
    shadowRecord Example.SimpleFold "alice".toList "alice:1:2".toList = some (1, 2) ∧
    getFromShadow Example.SimpleFold (.etcSubuid "")
        (.ok (Example.lines [Example.longComment, "alice:1:2".toList]))
        "alice".toList = .error .ErrNoUserMap := by
  have hS : ScanLines (Example.lines [Example.longComment, "alice:1:2".toList]) = [] := by
    rw [ScanLines_lines_cons _ _ longComment_newline, if_pos longComment_long]
  have hR : rawLines (Example.lines [Example.longComment, "alice:1:2".toList]) =
      [Example.longComment, "alice:1:2".toList] := by
    rw [rawLines_lines_cons _ _ longComment_newline, rawLines_lines_cons _ _ (by decide)]
    rfl
  refine ⟨?_, mem_fileLines _ _ ?_ (by decide), by decide, ?_⟩
  · intro line hline
    unfold fileLines at hline
    rw [hR] at hline
    simp only [List.map_cons, List.map_nil, List.mem_cons, List.mem_singleton,
      List.not_mem_nil, or_false] at hline
    rcases hline with h | h
    · have hs : stripComment (dropCR Example.longComment) = [] :=
        stripComment_dropCR_hash [] _
      rw [h]
      unfold shadowFieldCountFailure
      rw [hs]
      rfl
    · rw [h]
      decide
  · rw [hR]
    exact List.mem_cons_of_mem _ (List.mem_cons_self _ _)
  · rw [getFromShadow_of_lines _ _ _ _ _ hS]
    decide

/-! ## The proc reader -/

/-- The scan loop of `getFromProc`, in closed form. -/
theorem getFromProc_loop_eq (fname : Path) (lines : List Text)
    (entries : List (Int × Int × Int)) :
    getFromProc.loop fname lines entries =
      match lines.find? procFieldCountFailure with
      | some line => .error (.unexpectedValues fname (Fields (stripComment line)))
      | none => .ok (entries ++ lines.filterMap procRecord) := by
  induction lines generalizing entries with
  | nil => simp [getFromProc.loop]
  | cons text rest ih =>
    unfold getFromProc.loop
    simp only [Split_hash_headD]
    by_cases hlen : (stripComment text).length = 0
    · have hnil : stripComment text = [] := List.length_eq_zero.mp hlen
      have hbad : procFieldCountFailure text = false := by
        simp [procFieldCountFailure, procFieldCount, hnil]
      have hrec : procRecord text = none := by
        simp [procRecord, procFields, hnil, Fields, Fields.go]
      rw [if_pos hlen, ih, List.find?_cons, hbad, List.filterMap_cons, hrec]
    · have hne : stripComment text ≠ [] := fun h => hlen (by simp [h])
      rw [if_neg hlen]
      by_cases hcnt : (Fields (stripComment text)).length < 3
      · have hbad : procFieldCountFailure text = true := by
          simp [procFieldCountFailure, procFieldCount, hne, hcnt]
        rw [if_pos hcnt, List.find?_cons, hbad]
      · have hbad : procFieldCountFailure text = false := by
          simp [procFieldCountFailure, procFieldCount, hne, hcnt]
        rw [if_neg hcnt, List.find?_cons, hbad, List.filterMap_cons]
        obtain ⟨nsid, host, size, more, hs⟩ :
            ∃ nsid host size more, Fields (stripComment text) = nsid :: host :: size :: more := by
          match hs : Fields (stripComment text) with
          | [] => simp [hs] at hcnt
          | [_] => simp [hs] at hcnt
          | [_, _] => simp [hs] at hcnt
          | a :: b :: c :: d => exact ⟨a, b, c, d, rfl⟩
        simp only [hs, List.getD_cons_zero, List.getD_cons_succ]
        simp only [procRecord, procFields, hs, hne, ne_eq, not_false_eq_true, if_true,
          ← ParseUint_eq]
        cases h1 : ParseUint nsid with
        | none => simp [ih]
        | some a =>
          cases h2 : ParseUint host with
          | none => simp [ih]
          | some b =>
            cases h3 : ParseUint size with
            | none => simp [ih]
            | some c => simp [ih]

/-- Go `getFromProc` on a file that opens, in closed form. -/
theorem getFromProc_eq (fname : Path) (content : Text) :
    getFromProc fname (.ok content) =
      match (ScanLines content).find? procFieldCountFailure with
      | some line => .error (.unexpectedValues fname (Fields (stripComment line)))
      | none =>
        if procRecords content = [] then .error .noMapSet
        else .ok (procRecords content) := by
  unfold getFromProc
  simp only [getFromProc_loop_eq, List.nil_append]
  cases (ScanLines content).find? procFieldCountFailure with
  | some line => rfl
  | none => simp [procRecords, List.length_eq_zero]

/-- The shadow reader's sibling on a file of which the scanner delivers
`lines`. -/
theorem getFromProc_of_lines (fname : Path) (content : Text) (lines : List Text)
    (h : ScanLines content = lines) :
    getFromProc fname (.ok content) =
      match getFromProc.loop fname lines [] with
      | .error err => .error err
      | .ok entries => if entries.length = 0 then .error .noMapSet else .ok entries := by
  subst h
  rfl

/-- On a file whose lines are all shorter than `MaxScanTokenSize` bytes the
proc reader is the closed form over the lines of the file. -/
theorem getFromProc_short_lines (fname : Path) (content : Text)
    (h : ∀ l ∈ rawLines content, byteLen l < MaxScanTokenSize) :
    getFromProc fname (.ok content) =
      match (fileLines content).find? procFieldCountFailure with
      | some line => .error (.unexpectedValues fname (Fields (stripComment line)))
      | none =>
        if (fileLines content).filterMap procRecord = [] then .error .noMapSet
        else .ok ((fileLines content).filterMap procRecord) := by
  rw [getFromProc_eq, procRecords, ScanLines_short content h]

/-- The results of `getFromProc`, over the lines the scanner delivers.
`getFromProc` fails exactly when some delivered line, once its comment is
removed, is non-empty with fewer than three whitespace-separated fields, or
when no delivered line yields a record; when it succeeds the result is the
non-empty list, in file order, of the triples of the record lines; and the
failure for zero records is not `ErrNoUserMap`. -/
theorem getFromProc_records (fname : Path) (content : Text) :
    ((∃ err, getFromProc fname (.ok content) = .error err) ↔
        (∃ line ∈ ScanLines content, stripComment line ≠ [] ∧
            (Fields (stripComment line)).length < 3) ∨
        (∀ line ∈ ScanLines content, procRecord line = none)) ∧
    (∀ entries, getFromProc fname (.ok content) = .ok entries →
        entries ≠ [] ∧ entries = (ScanLines content).filterMap procRecord) ∧
    ((∀ line ∈ ScanLines content,
          stripComment line = [] ∨ 3 ≤ (Fields (stripComment line)).length) →
      (∀ line ∈ ScanLines content, procRecord line = none) →
        getFromProc fname (.ok content) = .error .noMapSet ∧
          Err.noMapSet ≠ Err.ErrNoUserMap) := by
  have hnone : procRecords content = [] ↔
      ∀ line ∈ ScanLines content, procRecord line = none := by
    simp [procRecords, List.filterMap_eq_nil_iff]
  rw [getFromProc_eq]
  cases hf : (ScanLines content).find? procFieldCountFailure with
  | some bad =>
    have hb := List.find?_some hf
    have hmem := List.mem_of_find?_eq_some hf
    simp only [procFieldCountFailure, procFieldCount, Bool.and_eq_true,
      decide_eq_true_eq] at hb
    refine ⟨⟨fun _ => Or.inl ⟨bad, hmem, hb.1, hb.2⟩, fun _ => ⟨_, rfl⟩⟩, ?_, ?_⟩
    · intro entries h
      simp at h
    · intro hall _
      rcases hall bad hmem with h1 | h1
      · exact absurd h1 hb.1
      · omega
  | none =>
    rw [List.find?_eq_none] at hf
    simp only
    by_cases he : procRecords content = []
    · rw [if_pos he]
      refine ⟨⟨fun _ => Or.inr (hnone.mp he), fun _ => ⟨_, rfl⟩⟩, ?_, ?_⟩
      · intro entries h
        simp at h
      · intro _ _
        exact ⟨rfl, by simp⟩
    · rw [if_neg he]
      refine ⟨⟨?_, ?_⟩, ?_, ?_⟩
      · rintro ⟨err, h⟩
        simp at h
      · rintro (⟨line, hmem, hne, hcnt⟩ | hall)
        · have := hf line hmem
          simp [procFieldCountFailure, procFieldCount, hne, hcnt] at this
        · exact absurd (hnone.mpr hall) he
      · intro entries h
        injection h with h
        subst h
        exact ⟨he, rfl⟩
      · intro _ hall
        exact absurd (hnone.mpr hall) he

/-- A map with a record, a comment, an empty line and a line whose first
field does not parse. -/
theorem getFromProc_records_witness :
    getFromProc .procUidMap (.ok "0 100000 65536\n# none\n\nx 1 2\n".toList) =
        .ok [(0, 100000, 65536)] ∧
    ([((0 : Int), (100000 : Int), (65536 : Int))] ≠ [] ∧
      [((0 : Int), (100000 : Int), (65536 : Int))] =
        (ScanLines "0 100000 65536\n# none\n\nx 1 2\n".toList).filterMap procRecord) :=
  ⟨by decide,
   (getFromProc_records .procUidMap "0 100000 65536\n# none\n\nx 1 2\n".toList).2.1 _
     (by decide)⟩

/-- Claim C5, at an input where it fails.  In the file
`0 0 1`, a comment line of 65536 bytes, `bad`, the third line is a line of
the file, is not empty and has one whitespace-separated field, yet
`getFromProc` does not fail: it returns the record read before the long
line. -/
theorem getFromProc_long_line :
    "bad".toList ∈
      fileLines (Example.lines ["0 0 1".toList, Example.longComment, "bad".toList]) ∧
    stripComment "bad".toList ≠ [] ∧
    (Fields (stripComment "bad".toList)).length < 3 ∧
    getFromProc .procUidMap
        (.ok (Example.lines ["0 0 1".toList, Example.longComment, "bad".toList])) =
      .ok [(0, 0, 1)] := by
  have hS : ScanLines (Example.lines
      ["0 0 1".toList, Example.longComment, "bad".toList]) = ["0 0 1".toList] := by
    rw [ScanLines_lines_cons _ _ (by decide), if_neg (by decide),
      ScanLines_lines_cons _ _ longComment_newline, if_pos longComment_long]
    decide
  have hR : rawLines (Example.lines
      ["0 0 1".toList, Example.longComment, "bad".toList]) =
      ["0 0 1".toList, Example.longComment, "bad".toList] := by
    rw [rawLines_lines_cons _ _ (by decide), rawLines_lines_cons _ _ longComment_newline,
      rawLines_lines_cons _ _ (by decide)]
    rfl
  refine ⟨mem_fileLines _ _ ?_ (by decide), by decide, by decide, ?_⟩
  · rw [hR]
    exact List.mem_cons_of_mem _ (List.mem_cons_of_mem _ (List.mem_cons_self _ _))
  · rw [getFromProc_of_lines _ _ _ hS]
    decide

/-! ## Comments and empty lines -/

theorem find?_significant (p : Text → Bool) (hp : p [] = false) (lines : List Text) :
    (lines.find? (fun l => p (stripComment l))).map stripComment =
      ((lines.map stripComment).filter (· ≠ [])).find? p := by
  induction lines with
  | nil => rfl
  | cons l ls ih =>
    by_cases hl : stripComment l = []
    · simp [List.find?_cons, hl, hp, ih]
    · by_cases hpl : p (stripComment l) = true
      · simp [List.find?_cons, hl, hpl]
      · simp only [Bool.not_eq_true] at hpl
        simp [List.find?_cons, hl, hpl, ih]

theorem filterMap_significant {α : Type} (f : Text → Option α) (hf : f [] = none)
    (lines : List Text) :
    lines.filterMap (fun l => f (stripComment l)) =
      ((lines.map stripComment).filter (· ≠ [])).filterMap f := by
  induction lines with
  | nil => rfl
  | cons l ls ih =>
    by_cases hl : stripComment l = []
    · simp [List.filterMap_cons, hl, hf, ih]
    · simp only [List.filterMap_cons, List.map_cons]
      rw [List.filter_cons_of_pos (by simpa using hl), List.filterMap_cons, ih]

/-- The shadow reader sees a file only through its comment-free, non-empty
lines. -/
theorem getFromShadow_significant (SimpleFold : Nat → Nat) (fname : Path)
    (content username : Text) :
    getFromShadow SimpleFold fname (.ok content) username =
      match (significantLines content).find? shadowFieldCount with
      | some t => .error (.unexpectedValues fname (Split t ':'))
      | none =>
        if (significantLines content).filterMap (shadowFields SimpleFold username) = [] then
          .error .ErrNoUserMap
        else .ok ((significantLines content).filterMap (shadowFields SimpleFold username)) := by
  have h1 := find?_significant shadowFieldCount (by decide) (ScanLines content)
  have h2 := filterMap_significant (shadowFields SimpleFold username)
    (by simp [shadowFields, Split]) (ScanLines content)
  rw [getFromShadow_eq]
  unfold significantLines shadowRecords
  rw [← h1, ← h2]
  cases hf : (ScanLines content).find? shadowFieldCountFailure with
  | none =>
    have hf' : List.find? (fun l => shadowFieldCount (stripComment l)) (ScanLines content) = none := hf
    simp only [hf', Option.map_none']
    rfl
  | some line =>
    have hf' : List.find? (fun l => shadowFieldCount (stripComment l)) (ScanLines content) =
        some line := hf
    simp only [hf', Option.map_some']

/-- The proc reader sees a file only through its comment-free, non-empty
lines. -/
theorem getFromProc_significant (fname : Path) (content : Text) :
    getFromProc fname (.ok content) =
      match (significantLines content).find? procFieldCount with
      | some t => .error (.unexpectedValues fname (Fields t))
      | none =>
        if (significantLines content).filterMap procFields = [] then .error .noMapSet
        else .ok ((significantLines content).filterMap procFields) := by
  have h1 := find?_significant procFieldCount (by decide) (ScanLines content)
  have h2 := filterMap_significant procFields
    (by simp [procFields, Fields, Fields.go]) (ScanLines content)
  rw [getFromProc_eq]
  unfold significantLines procRecords
  rw [← h1, ← h2]
  cases hf : (ScanLines content).find? procFieldCountFailure with
  | none =>
    have hf' : List.find? (fun l => procFieldCount (stripComment l)) (ScanLines content) = none := hf
    simp only [hf', Option.map_none']
    rfl
  | some line =>
    have hf' : List.find? (fun l => procFieldCount (stripComment l)) (ScanLines content) =
        some line := hf
    simp only [hf', Option.map_some']

theorem ScanLines_go_cons_append (c : Char) (cs x cur : Text) :
    ScanLines.go ((c :: cs) ++ x) cur =
      if c = '\n' then
        if MaxScanTokenSize ≤ byteLen cur then [] else dropCR cur :: ScanLines.go (cs ++ x) []
      else ScanLines.go (cs ++ x) (cur ++ [c]) := by
  rw [List.cons_append, ScanLines_go_cons]

/-- What follows a line boundary is scanned on its own: two continuations
with the same comment-free lines give the same comment-free lines after any
common beginning that ends with a newline. -/
theorem significant_go_after (pre a b cur : Text) (hpre : pre.getLast? = some '\n')
    (h : significantLines a = significantLines b) :
    ((ScanLines.go (pre ++ a) cur).map stripComment).filter (· ≠ []) =
      ((ScanLines.go (pre ++ b) cur).map stripComment).filter (· ≠ []) := by
  induction pre generalizing cur with
  | nil => simp at hpre
  | cons c cs ih =>
    cases cs with
    | nil =>
      have hc : c = '\n' := by simpa using hpre
      subst hc
      have h' : ((ScanLines.go a []).map stripComment).filter (· ≠ []) =
          ((ScanLines.go b []).map stripComment).filter (· ≠ []) := h
      rw [ScanLines_go_cons_append '\n' [] a, ScanLines_go_cons_append '\n' [] b]
      by_cases hl : MaxScanTokenSize ≤ byteLen cur
      · simp only [if_true, if_pos hl]
      · simp only [if_true, if_neg hl, List.nil_append, List.map_cons, List.filter_cons, h']
    | cons d ds =>
      have hd : (d :: ds).getLast? = some '\n' := by
        rw [List.getLast?_cons_cons] at hpre
        exact hpre
      rw [ScanLines_go_cons_append c (d :: ds) a, ScanLines_go_cons_append c (d :: ds) b]
      by_cases hc : c = '\n'
      · by_cases hl : MaxScanTokenSize ≤ byteLen cur
        · simp only [if_pos hc, if_pos hl]
        · simp only [if_pos hc, if_neg hl, List.map_cons, List.filter_cons, ih [] hd]
      · simp only [if_neg hc, ih (cur ++ [c]) hd]

theorem significantLines_after (pre a b : Text)
    (hpre : pre = [] ∨ pre.getLast? = some '\n')
    (h : significantLines a = significantLines b) :
    significantLines (pre ++ a) = significantLines (pre ++ b) := by
  rcases hpre with hpre | hpre
  · subst hpre
    simpa using h
  · exact significant_go_after pre a b [] hpre h

theorem significantLines_line (line post : Text) (hline : '\n' ∉ line)
    (hlen : byteLen line < MaxScanTokenSize) (hempty : stripComment (dropCR line) = []) :
    significantLines (line ++ '\n' :: post) = significantLines post := by
  unfold significantLines ScanLines
  rw [ScanLines_go_line _ _ _ hline, List.nil_append, if_neg (by omega)]
  simp [hempty]

theorem significantLines_last (line : Text) (hline : '\n' ∉ line)
    (hempty : stripComment (dropCR line) = []) :
    significantLines line = significantLines [] := by
  unfold significantLines ScanLines
  rw [ScanLines_go_last _ _ hline, List.nil_append]
  split_ifs
  · rfl
  · simp [hempty, ScanLines.go]

theorem significantLines_insert (pre line post : Text)
    (hpre : pre = [] ∨ pre.getLast? = some '\n') (hline : '\n' ∉ line)
    (hlen : byteLen line < MaxScanTokenSize) (hempty : stripComment (dropCR line) = []) :
    significantLines (pre ++ (line ++ '\n' :: post)) = significantLines (pre ++ post) :=
  significantLines_after pre _ _ hpre (significantLines_line line post hline hlen hempty)

theorem significantLines_insert_last (pre line : Text)
    (hpre : pre = [] ∨ pre.getLast? = some '\n') (hline : '\n' ∉ line)
    (hempty : stripComment (dropCR line) = []) :
    significantLines (pre ++ line) = significantLines pre := by
  have h := significantLines_after pre _ _ hpre (significantLines_last line hline hempty)
  simpa using h

/-- Changing the text after a `#` changes no comment-free line, as long as
the line stays shorter than `MaxScanTokenSize` bytes. -/
theorem significantLines_comment_line (body t t2 post : Text)
    (hbody : '\n' ∉ body) (ht : '\n' ∉ t) (ht2 : '\n' ∉ t2)
    (hpost : post = [] ∨ post.head? = some '\n')
    (hlen : byteLen (body ++ '#' :: t) < MaxScanTokenSize)
    (hlen2 : byteLen (body ++ '#' :: t2) < MaxScanTokenSize) :
    significantLines (body ++ '#' :: (t ++ post)) =
      significantLines (body ++ '#' :: (t2 ++ post)) := by
  have hn : ∀ u : Text, '\n' ∉ u → '\n' ∉ body ++ '#' :: u := by
    intro u hu hmem
    simp only [List.mem_append, List.mem_cons] at hmem
    rcases hmem with hmem | hmem | hmem
    · exact hbody hmem
    · exact absurd hmem (by decide)
    · exact hu hmem
  have hne : ∀ u : Text, ¬ (body ++ '#' :: u = []) := by
    intro u
    simp
  cases post with
  | nil =>
    simp only [List.append_nil]
    unfold significantLines ScanLines
    rw [ScanLines_go_last _ _ (hn t ht), ScanLines_go_last _ _ (hn t2 ht2)]
    simp only [List.nil_append]
    rw [if_neg (by simp only [hne, false_or]; omega),
      if_neg (by simp only [hne, false_or]; omega)]
    simp [stripComment_dropCR_hash]
  | cons p ps =>
    have hp : p = '\n' := by simpa using hpost
    subst hp
    have e1 : body ++ '#' :: (t ++ '\n' :: ps) = (body ++ '#' :: t) ++ '\n' :: ps := by simp
    have e2 : body ++ '#' :: (t2 ++ '\n' :: ps) = (body ++ '#' :: t2) ++ '\n' :: ps := by simp
    rw [e1, e2]
    unfold significantLines ScanLines
    rw [ScanLines_go_line _ _ _ (hn t ht), ScanLines_go_line _ _ _ (hn t2 ht2)]
    simp only [List.nil_append]
    rw [if_neg (by omega), if_neg (by omega)]
    simp [stripComment_dropCR_hash]

theorem significantLines_comment (lead body t t2 post : Text)
    (hlead : lead = [] ∨ lead.getLast? = some '\n')
    (hbody : '\n' ∉ body) (ht : '\n' ∉ t) (ht2 : '\n' ∉ t2)
    (hpost : post = [] ∨ post.head? = some '\n')
    (hlen : byteLen (body ++ '#' :: t) < MaxScanTokenSize)
    (hlen2 : byteLen (body ++ '#' :: t2) < MaxScanTokenSize) :
    significantLines (lead ++ (body ++ '#' :: (t ++ post))) =
      significantLines (lead ++ (body ++ '#' :: (t2 ++ post))) :=
  significantLines_after lead _ _ hlead
    (significantLines_comment_line body t t2 post hbody ht ht2 hpost hlen hlen2)

/-- Comments and empty lines, for lines shorter than 64 KiB.  Both readers
see a file only through the comment-free, non-empty lines the scanner
delivers: two contents with the same such lines give the same entries or the
same failure.  In particular the result does not change when a line shorter
than `MaxScanTokenSize` bytes that is empty once its comment is removed is
inserted or deleted at a line boundary (followed by a newline, or
unterminated at the end of the file), nor when the text after a `#` is
replaced by another text and the line is shorter than `MaxScanTokenSize`
bytes before and after. -/
theorem readers_ignore_comments (SimpleFold : Nat → Nat) (fname : Path) (username : Text) :
    (∀ c1 c2 : Text, significantLines c1 = significantLines c2 →
        getFromShadow SimpleFold fname (.ok c1) username =
          getFromShadow SimpleFold fname (.ok c2) username ∧
        getFromProc fname (.ok c1) = getFromProc fname (.ok c2)) ∧
    (∀ pre line post : Text, (pre = [] ∨ pre.getLast? = some '\n') → '\n' ∉ line →
        stripComment (dropCR line) = [] →
        (byteLen line < MaxScanTokenSize →
          getFromShadow SimpleFold fname (.ok (pre ++ (line ++ '\n' :: post))) username =
            getFromShadow SimpleFold fname (.ok (pre ++ post)) username ∧
          getFromProc fname (.ok (pre ++ (line ++ '\n' :: post))) =
            getFromProc fname (.ok (pre ++ post))) ∧
        getFromShadow SimpleFold fname (.ok (pre ++ line)) username =
          getFromShadow SimpleFold fname (.ok pre) username ∧
        getFromProc fname (.ok (pre ++ line)) = getFromProc fname (.ok pre)) ∧
    (∀ lead body t t2 post : Text, (lead = [] ∨ lead.getLast? = some '\n') →
        '\n' ∉ body → '\n' ∉ t → '\n' ∉ t2 → (post = [] ∨ post.head? = some '\n') →
        byteLen (body ++ '#' :: t) < MaxScanTokenSize →
        byteLen (body ++ '#' :: t2) < MaxScanTokenSize →
        getFromShadow SimpleFold fname (.ok (lead ++ (body ++ '#' :: (t ++ post)))) username =
          getFromShadow SimpleFold fname (.ok (lead ++ (body ++ '#' :: (t2 ++ post)))) username ∧
        getFromProc fname (.ok (lead ++ (body ++ '#' :: (t ++ post)))) =
          getFromProc fname (.ok (lead ++ (body ++ '#' :: (t2 ++ post))))) := by
  have key : ∀ c1 c2 : Text, significantLines c1 = significantLines c2 →
      getFromShadow SimpleFold fname (.ok c1) username =
        getFromShadow SimpleFold fname (.ok c2) username ∧
      getFromProc fname (.ok c1) = getFromProc fname (.ok c2) := by
    intro c1 c2 h
    simp only [getFromShadow_significant, getFromProc_significant, h, and_self]
  refine ⟨key, ?_, ?_⟩
  · intro pre line post hpre hline hempty
    have h2 := key _ _ (significantLines_insert_last pre line hpre hline hempty)
    refine ⟨fun hlen => ?_, h2.1, h2.2⟩
    exact key _ _ (significantLines_insert pre line post hpre hline hlen hempty)
  · intro lead body t t2 post hlead hbody ht ht2 hpost hlen hlen2
    exact key _ _ (significantLines_comment lead body t t2 post hlead hbody ht ht2 hpost hlen hlen2)

/-- A comment line inserted between two records of a shadow file, and the
same for a proc map. -/
theorem readers_ignore_comments_witness :
    getFromShadow Example.SimpleFold (.etcSubuid "")
        (.ok ("alice:1:2\n".toList ++ ("# note\r".toList ++ '\n' :: "alice:3:4\n".toList)))
        "alice".toList =
      getFromShadow Example.SimpleFold (.etcSubuid "")
        (.ok ("alice:1:2\n".toList ++ "alice:3:4\n".toList)) "alice".toList ∧
    getFromProc (.etcSubuid "")
        (.ok ("alice:1:2\n".toList ++ ("# note\r".toList ++ '\n' :: "alice:3:4\n".toList))) =
      getFromProc (.etcSubuid "") (.ok ("alice:1:2\n".toList ++ "alice:3:4\n".toList)) :=
  ((readers_ignore_comments Example.SimpleFold (.etcSubuid "") "alice".toList).2.1
    "alice:1:2\n".toList "# note\r".toList "alice:3:4\n".toList
    (by decide) (by decide) (by decide)).1 (by decide)

/-- The limit is exact: a comment line of 65535 bytes before the record is
still passed over, where `Example.longComment`, one byte longer, ends the
read. -/
theorem readers_comment_65535 :
    getFromShadow Example.SimpleFold (.etcSubuid "")
        (.ok ([] ++ (('#' :: List.replicate 65534 'x') ++ '\n' :: "alice:1:2\n".toList)))
        "alice".toList = .ok [(1, 2)] := by
  have hlen : byteLen ('#' :: List.replicate 65534 'x') < MaxScanTokenSize := by
    rw [byteLen, byteLen_replicate]
    decide
  have h := ((readers_ignore_comments Example.SimpleFold (.etcSubuid "") "alice".toList).2.1
    [] ('#' :: List.replicate 65534 'x') "alice:1:2\n".toList (Or.inl rfl)
    (newline_not_mem_replicate 65534) (stripComment_dropCR_hash [] _)).1 hlen
  rw [h.1]
  decide

/-- Claim C4, at an input where it fails.  The line
`Example.longComment` is empty once the text from its `#` is removed, and it
is the line `#` with the text after the `#` changed.  The shadow file
`alice:1:2` gives `[(1, 2)]`, also with the line `#` before the record; with
the long comment line in that place `getFromShadow` returns `ErrNoUserMap`.
In the same way `getFromProc` turns from `[(0, 0, 1)]` to its zero-record
failure. -/
theorem readers_long_comment :
    stripComment Example.longComment = [] ∧
    getFromShadow Example.SimpleFold (.etcSubuid "")
        (.ok (Example.lines ["alice:1:2".toList])) "alice".toList = .ok [(1, 2)] ∧
    getFromShadow Example.SimpleFold (.etcSubuid "")
        (.ok (Example.lines ["#".toList, "alice:1:2".toList])) "alice".toList = .ok [(1, 2)] ∧
    getFromShadow Example.SimpleFold (.etcSubuid "")
        (.ok (Example.lines [Example.longComment, "alice:1:2".toList])) "alice".toList =
      .error .ErrNoUserMap ∧
    getFromProc .procUidMap (.ok (Example.lines ["0 0 1".toList])) = .ok [(0, 0, 1)] ∧
    getFromProc .procUidMap (.ok (Example.lines ["#".toList, "0 0 1".toList])) =
      .ok [(0, 0, 1)] ∧
    getFromProc .procUidMap (.ok (Example.lines [Example.longComment, "0 0 1".toList])) =
      .error .noMapSet := by
  have hS : ∀ l : Text,
      ScanLines (Example.lines [Example.longComment, l]) = [] := by
    intro l
    rw [ScanLines_lines_cons _ _ longComment_newline, if_pos longComment_long]
  refine ⟨longComment_stripComment, by decide, by decide, ?_, by decide, by decide, ?_⟩
  · rw [getFromShadow_of_lines _ _ _ _ _ (hS _)]
    decide
  · rw [getFromProc_of_lines _ _ _ (hS _)]
    decide

/-! ## The kernel default map -/

/-- The uid loop appends the entry of the first suitable uid range, if any. -/
theorem uidLoop_set (rs : List IdRange) (s : IdmapSet) :
    (kernelDefaultMap.uidLoop rs s).2 =
      match rs.find? (fun r => r.Isuid && kernelDefaultMap.suitable r) with
      | some r => { Idmap := s.Idmap ++ [kernelDefaultMap.uidEntry r] }
      | none => s := by
  induction rs with
  | nil => rfl
  | cons r rest ih =>
    unfold kernelDefaultMap.uidLoop
    rw [List.find?_cons]
    by_cases hu : r.Isuid = true
    · by_cases he : r.Endid < 100000
      · have hs : kernelDefaultMap.suitable r = false := by
          simp [kernelDefaultMap.suitable]; intro h; omega
        simp [hu, he, hs, ih]
      · by_cases hst : r.Startid < 100000
        · have hmax : max r.Startid 100000 = 100000 := by omega
          by_cases hen : r.Endid - 100000 < 65536
          · have hs : kernelDefaultMap.suitable r = false := by
              simp [kernelDefaultMap.suitable, hmax]; intro h; omega
            simp [hu, he, hst, hen, hs, ih]
          · have hs : kernelDefaultMap.suitable r = true := by
              simp [kernelDefaultMap.suitable, hmax]; omega
            simp [hu, he, hst, hen, hs, kernelDefaultMap.uidEntry, hmax]
        · have hmax : max r.Startid 100000 = r.Startid := by omega
          by_cases hen : r.Endid - r.Startid < 65536
          · have hs : kernelDefaultMap.suitable r = false := by
              simp [kernelDefaultMap.suitable, hmax]; intro h; omega
            simp [hu, he, hst, hen, hs, ih]
          · have hs : kernelDefaultMap.suitable r = true := by
              simp [kernelDefaultMap.suitable, hmax]; omega
            simp [hu, he, hst, hen, hs, kernelDefaultMap.uidEntry, hmax]
    · simp [hu, ih]

/-- The gid loop appends the entry of the first suitable gid range, if any. -/
theorem gidLoop_set (rs : List IdRange) (s : IdmapSet) :
    (kernelDefaultMap.gidLoop rs s).2 =
      match rs.find? (fun r => r.Isgid && kernelDefaultMap.suitable r) with
      | some r => { Idmap := s.Idmap ++ [kernelDefaultMap.gidEntry r] }
      | none => s := by
  induction rs with
  | nil => rfl
  | cons r rest ih =>
    unfold kernelDefaultMap.gidLoop
    rw [List.find?_cons]
    by_cases hu : r.Isgid = true
    · by_cases he : r.Endid < 100000
      · have hs : kernelDefaultMap.suitable r = false := by
          simp [kernelDefaultMap.suitable]; intro h; omega
        simp [hu, he, hs, ih]
      · by_cases hst : r.Startid < 100000
        · have hmax : max r.Startid 100000 = 100000 := by omega
          by_cases hen : r.Endid - 100000 < 65536
          · have hs : kernelDefaultMap.suitable r = false := by
              simp [kernelDefaultMap.suitable, hmax]; intro h; omega
            simp [hu, he, hst, hen, hs, ih]
          · have hs : kernelDefaultMap.suitable r = true := by
              simp [kernelDefaultMap.suitable, hmax]; omega
            simp [hu, he, hst, hen, hs, kernelDefaultMap.gidEntry, hmax]
        · have hmax : max r.Startid 100000 = r.Startid := by omega
          by_cases hen : r.Endid - r.Startid < 65536
          · have hs : kernelDefaultMap.suitable r = false := by
              simp [kernelDefaultMap.suitable, hmax]; intro h; omega
            simp [hu, he, hst, hen, hs, ih]
          · have hs : kernelDefaultMap.suitable r = true := by
              simp [kernelDefaultMap.suitable, hmax]; omega
            simp [hu, he, hst, hen, hs, kernelDefaultMap.gidEntry, hmax]
    · simp [hu, ih]

theorem clamped_refl (r : IdRange) : kernelDefaultMap.clamped r r := Or.inl rfl

theorem clamped_list_refl (rs : List IdRange) :
    List.Forall₂ kernelDefaultMap.clamped rs rs := by
  induction rs with
  | nil => exact List.Forall₂.nil
  | cons r rest ih => exact List.Forall₂.cons (clamped_refl r) ih

/-- The slice the uid loop leaves behind differs from the one it received
only by starts raised to `100000` on ranges that end at or above `100000`. -/
theorem uidLoop_list (rs : List IdRange) (s : IdmapSet) :
    List.Forall₂ kernelDefaultMap.clamped rs (kernelDefaultMap.uidLoop rs s).1 := by
  induction rs with
  | nil => exact List.Forall₂.nil
  | cons r rest ih =>
    unfold kernelDefaultMap.uidLoop
    by_cases hu : (!r.Isuid) = true
    · rw [if_pos hu]
      exact List.Forall₂.cons (clamped_refl r) ih
    · rw [if_neg hu]
      by_cases he : r.Endid < 100000
      · rw [if_pos he]
        exact List.Forall₂.cons (clamped_refl r) ih
      · rw [if_neg he]
        dsimp only
        by_cases hst : r.Startid < 100000
        · have hmax : max r.Startid 100000 = 100000 := by omega
          have hcl : kernelDefaultMap.clamped r { r with Startid := 100000 } :=
            Or.inr ⟨by omega, by rw [hmax]⟩
          simp only [if_pos hst]
          split_ifs
          · exact List.Forall₂.cons hcl ih
          · exact List.Forall₂.cons hcl (clamped_list_refl rest)
        · simp only [if_neg hst]
          split_ifs
          · exact List.Forall₂.cons (clamped_refl r) ih
          · exact List.Forall₂.cons (clamped_refl r) (clamped_list_refl rest)

theorem clamped_gid {r r2 : IdRange} (h : kernelDefaultMap.clamped r r2) :
    (r2.Isgid && kernelDefaultMap.suitable r2) = (r.Isgid && kernelDefaultMap.suitable r) ∧
      kernelDefaultMap.gidEntry r2 = kernelDefaultMap.gidEntry r := by
  rcases h with h | ⟨_, h⟩
  · subst h; exact ⟨rfl, rfl⟩
  · subst h
    have hmax : max (max r.Startid 100000) 100000 = max r.Startid 100000 := by omega
    simp [kernelDefaultMap.suitable, kernelDefaultMap.gidEntry, hmax]

/-- Raised starts do not change what the gid loop selects. -/
theorem find?_gid_clamped {rs rs2 : List IdRange}
    (h : List.Forall₂ kernelDefaultMap.clamped rs rs2) :
    (rs2.find? (fun r => r.Isgid && kernelDefaultMap.suitable r)).map kernelDefaultMap.gidEntry =
      (rs.find? (fun r => r.Isgid && kernelDefaultMap.suitable r)).map
        kernelDefaultMap.gidEntry := by
  induction h with
  | nil => rfl
  | cons hr _ ih =>
    obtain ⟨h1, h2⟩ := clamped_gid hr
    rw [List.find?_cons, List.find?_cons, h1]
    split
    · simp [h2]
    · exact ih

/-- The selection of `kernelDefaultMap`, in closed form: the fallback for the
full-range pair, and otherwise the entry of the first suitable uid range, if
any, followed by the entry of the first suitable gid range, if any. -/
theorem select_eq (rs : List IdRange) :
    kernelDefaultMap.select rs =
      if rs = kernelDefaultMap.fullKernelRanges then kernelDefaultMap.fallback
      else
        { Idmap :=
            ((rs.find? (fun r => r.Isuid && kernelDefaultMap.suitable r)).map
                kernelDefaultMap.uidEntry).toList ++
            ((rs.find? (fun r => r.Isgid && kernelDefaultMap.suitable r)).map
                kernelDefaultMap.gidEntry).toList } := by
  unfold kernelDefaultMap.select
  split_ifs
  · rfl
  · have hg := find?_gid_clamped (uidLoop_list rs {})
    simp only [gidLoop_set, uidLoop_set]
    cases hf : (kernelDefaultMap.uidLoop rs {}).1.find?
        (fun r => r.Isgid && kernelDefaultMap.suitable r) with
    | none =>
      rw [hf] at hg
      cases hu : rs.find? (fun r => r.Isuid && kernelDefaultMap.suitable r) with
      | none =>
        cases hg2 : rs.find? (fun r => r.Isgid && kernelDefaultMap.suitable r) with
        | none => rfl
        | some g => rw [hg2] at hg; simp at hg
      | some u =>
        cases hg2 : rs.find? (fun r => r.Isgid && kernelDefaultMap.suitable r) with
        | none => rfl
        | some g => rw [hg2] at hg; simp at hg
    | some g1 =>
      rw [hf] at hg
      cases hg2 : rs.find? (fun r => r.Isgid && kernelDefaultMap.suitable r) with
      | none => rw [hg2] at hg; simp at hg
      | some g =>
        rw [hg2] at hg
        simp only [Option.map_some', Option.some.injEq] at hg
        cases hu : rs.find? (fun r => r.Isuid && kernelDefaultMap.suitable r) with
        | none => simp [hg]
        | some u => simp [hg]

/-- The `int64` arithmetic of the selection loops cannot wrap: for a range
whose fields are `int64` values and which passed the test `Endid < 100000`,
the difference `Endid - Startid` taken after the clamp, and the `Maprange`
computed from it, are `int64` values. -/
theorem select_no_wrap (r : IdRange)
    (hs : -2 ^ 63 ≤ r.Startid ∧ r.Startid < 2 ^ 63) (he : r.Endid < 2 ^ 63)
    (hend : ¬ r.Endid < 100000) :
    -2 ^ 63 ≤ r.Endid - max r.Startid 100000 ∧ r.Endid - max r.Startid 100000 < 2 ^ 63 ∧
      -2 ^ 63 ≤ r.Endid - max r.Startid 100000 + 1 ∧
      r.Endid - max r.Startid 100000 + 1 < 2 ^ 63 := by
  omega

/-! ## The default-map resolver -/

/-- Claim C6. When both shadow files exist and both reads succeed for the
user, `DefaultIdmapSet` returns one uid entry per subuid record in file
order, then one gid entry per subgid record in file order, each with
`Nsid = 0`, `Hostid` the start and `Maprange` the size of its record, and
nothing else. -/
theorem DefaultIdmapSet_shadow (env : Env) (rootfs : String) (username user : Text)
    (uids gids : List (Int × Int))
    (huser : (if username = [] then env.userCurrent else .ok username) = .ok user)
    (hsubuid : env.PathExists (.etcSubuid rootfs) = true)
    (hsubgid : env.PathExists (.etcSubgid rootfs) = true)
    (hu : getFromShadow env.SimpleFold (.etcSubuid rootfs) (env.Open (.etcSubuid rootfs)) user = .ok uids)
    (hg : getFromShadow env.SimpleFold (.etcSubgid rootfs) (env.Open (.etcSubgid rootfs)) user = .ok gids) :
    DefaultIdmapSet env rootfs username =
      .ok { Idmap :=
              uids.map (fun r =>
                { Isuid := true, Isgid := false, Nsid := 0, Hostid := r.1, Maprange := r.2 }) ++
              gids.map (fun r =>
                { Isuid := false, Isgid := true, Nsid := 0, Hostid := r.1, Maprange := r.2 }) } := by
  unfold DefaultIdmapSet
  simp only [huser, hsubuid, hsubgid, hu, hg, Bool.and_self, if_true, List.nil_append]

/-- Witness for C6: two subuid records and one subgid record of `alice`,
the user name taken from `user.Current`. -/
theorem DefaultIdmapSet_shadow_witness :
    DefaultIdmapSet
        (Example.env "alice" (some "alice:100000:65536\nalice:200000:1000\n")
          (some "bob:1:2\nalice:300000:65536\n") none none [])
        "" [] =
      .ok { Idmap :=
              [ { Isuid := true, Isgid := false, Nsid := 0, Hostid := 100000, Maprange := 65536 },
                { Isuid := true, Isgid := false, Nsid := 0, Hostid := 200000, Maprange := 1000 },
                { Isuid := false, Isgid := true, Nsid := 0, Hostid := 300000, Maprange := 65536 } ] } :=
  DefaultIdmapSet_shadow
    (Example.env "alice" (some "alice:100000:65536\nalice:200000:1000\n")
      (some "bob:1:2\nalice:300000:65536\n") none none [])
    "" [] "alice".toList [(100000, 65536), (200000, 1000)] [(300000, 65536)]
    (by decide) (by decide) (by decide) (by decide) (by decide)

/-- Claim C7. When both shadow files exist and a read fails: for the user
`root` and the failure `ErrNoUserMap`, `DefaultIdmapSet` returns what
`kernelDefaultMap` returns (uid entries already read are not kept); in every
other case it fails with the error of that read. -/
theorem DefaultIdmapSet_read_failure (env : Env) (rootfs : String) (username user : Text)
    (huser : (if username = [] then env.userCurrent else .ok username) = .ok user)
    (hsubuid : env.PathExists (.etcSubuid rootfs) = true)
    (hsubgid : env.PathExists (.etcSubgid rootfs) = true) :
    (∀ err, getFromShadow env.SimpleFold (.etcSubuid rootfs) (env.Open (.etcSubuid rootfs)) user = .error err →
        DefaultIdmapSet env rootfs username =
          if user = ['r', 'o', 'o', 't'] ∧ err = .ErrNoUserMap then kernelDefaultMap env
          else .error err) ∧
    (∀ uids err,
        getFromShadow env.SimpleFold (.etcSubuid rootfs) (env.Open (.etcSubuid rootfs)) user = .ok uids →
        getFromShadow env.SimpleFold (.etcSubgid rootfs) (env.Open (.etcSubgid rootfs)) user = .error err →
        DefaultIdmapSet env rootfs username =
          if user = ['r', 'o', 'o', 't'] ∧ err = .ErrNoUserMap then kernelDefaultMap env
          else .error err) := by
  constructor
  · intro err hu
    unfold DefaultIdmapSet
    simp only [huser, hsubuid, hsubgid, hu, Bool.and_self, if_true, DefaultIdmapSet.onError, root]
  · intro uids err hu hg
    unfold DefaultIdmapSet
    simp only [huser, hsubuid, hsubgid, hu, hg, Bool.and_self, if_true, DefaultIdmapSet.onError,
      root]

/-- Witness for C7: `root` has a subuid record and no subgid record, and
there is no current map to read, so the result is the fallback of
`kernelDefaultMap` without the uid entry read from subuid. -/
theorem DefaultIdmapSet_read_failure_witness :
    DefaultIdmapSet
        (Example.env "root" (some "root:100000:65536\n") (some "alice:1:2\n") (some "") none [])
        "" [] =
      .ok { Idmap :=
              [ { Isuid := true, Isgid := false, Nsid := 0, Hostid := 1000000,
                  Maprange := 1000000000 },
                { Isuid := false, Isgid := true, Nsid := 0, Hostid := 1000000,
                  Maprange := 1000000000 } ] } :=
  ((DefaultIdmapSet_read_failure
      (Example.env "root" (some "root:100000:65536\n") (some "alice:1:2\n") (some "") none [])
      "" [] "root".toList (by decide) (by decide) (by decide)).2
    [(100000, 65536)] .ErrNoUserMap (by decide) (by decide)).trans (by decide)

/-- Claim C8. `kernelDefaultMap` returns, without error, the two-entry
fallback set whenever reading the current map fails, and whenever the
consolidated ranges of the current map are the uid range `[0, 4294967294]`
followed by the gid range `[0, 4294967294]`. -/
theorem kernelDefaultMap_fallback (env : Env) :
    ((∃ err, CurrentIdmapSet env = .error err) →
        kernelDefaultMap env =
          .ok { Idmap :=
                  [ { Isuid := true, Isgid := false, Nsid := 0, Hostid := 1000000,
                      Maprange := 1000000000 },
                    { Isuid := false, Isgid := true, Nsid := 0, Hostid := 1000000,
                      Maprange := 1000000000 } ] }) ∧
    (∀ kernelMap, CurrentIdmapSet env = .ok kernelMap →
        env.ValidRanges kernelMap =
          .ok [ { Isuid := true, Isgid := false, Startid := 0, Endid := 4294967294 },
                { Isuid := false, Isgid := true, Startid := 0, Endid := 4294967294 } ] →
        kernelDefaultMap env =
          .ok { Idmap :=
                  [ { Isuid := true, Isgid := false, Nsid := 0, Hostid := 1000000,
                      Maprange := 1000000000 },
                    { Isuid := false, Isgid := true, Nsid := 0, Hostid := 1000000,
                      Maprange := 1000000000 } ] }) := by
  constructor
  · rintro ⟨err, h⟩
    unfold kernelDefaultMap
    rw [h]
    rfl
  · intro kernelMap h hr
    unfold kernelDefaultMap
    simp only [h, hr]
    rfl

/-- Witness for C8: a uid map without any record (the read fails), and
scenario S2, the map `0 0 4294967295` on both axes with its consolidated
full ranges. -/
theorem kernelDefaultMap_fallback_witness :
    kernelDefaultMap (Example.env "root" none none (some "") none []) =
        .ok kernelDefaultMap.fallback ∧
    kernelDefaultMap
        (Example.env "root" none none (some "0 0 4294967295\n") (some "0 0 4294967295\n")
          [⟨true, false, 0, 4294967294⟩, ⟨false, true, 0, 4294967294⟩]) =
        .ok kernelDefaultMap.fallback :=
  ⟨(kernelDefaultMap_fallback (Example.env "root" none none (some "") none [])).1
      ⟨.noMapSet, by decide⟩,
   (kernelDefaultMap_fallback
      (Example.env "root" none none (some "0 0 4294967295\n") (some "0 0 4294967295\n")
        [⟨true, false, 0, 4294967294⟩, ⟨false, true, 0, 4294967294⟩])).2
      { Idmap := [ { Isuid := true, Nsid := 0, Hostid := 0, Maprange := 4294967295 },
                   { Isgid := true, Nsid := 0, Hostid := 0, Maprange := 4294967295 } ] }
      (by decide) (by decide)⟩

/-- Claim C9, at an input where it fails.  The current map `100000 100000
65536` on both axes consolidates to the range `[100000, 165535]` on each
axis: it ends above `100000` and holds exactly `65536` ids, all at or above
`100000`, so the claim expects the entries `(0, 100000, 65536)`.  The test
`Endid - Startid < 65536` rejects it and `kernelDefaultMap` returns the empty
set; with one id more the range is taken. -/
theorem kernelDefaultMap_65536_ids :
    kernelDefaultMap
        (Example.env "root" none none (some "100000 100000 65536\n")
          (some "100000 100000 65536\n")
          [⟨true, false, 100000, 165535⟩, ⟨false, true, 100000, 165535⟩]) =
      .ok { Idmap := [] } ∧
    kernelDefaultMap
        (Example.env "root" none none (some "100000 100000 65537\n")
          (some "100000 100000 65537\n")
          [⟨true, false, 100000, 165536⟩, ⟨false, true, 100000, 165536⟩]) =
      .ok { Idmap :=
              [ { Isuid := true, Isgid := false, Nsid := 0, Hostid := 100000, Maprange := 65537 },
                { Isuid := false, Isgid := true, Nsid := 0, Hostid := 100000,
                  Maprange := 65537 } ] } := by
  constructor <;> decide

theorem uidEntry_flags (r : IdRange) :
    (kernelDefaultMap.uidEntry r).Isuid = true ∧ (kernelDefaultMap.uidEntry r).Isgid = false :=
  ⟨rfl, rfl⟩

theorem gidEntry_flags (r : IdRange) :
    (kernelDefaultMap.gidEntry r).Isuid = false ∧ (kernelDefaultMap.gidEntry r).Isgid = true :=
  ⟨rfl, rfl⟩

/-- The uid entries of the selection, off the full-range pair. -/
theorem select_uid (rs : List IdRange) (h : rs ≠ kernelDefaultMap.fullKernelRanges) :
    (kernelDefaultMap.select rs).Idmap.filter (fun e => e.Isuid) =
      ((rs.find? (fun r => r.Isuid && kernelDefaultMap.suitable r)).map
        kernelDefaultMap.uidEntry).toList := by
  rw [select_eq, if_neg h]
  cases rs.find? (fun r => r.Isuid && kernelDefaultMap.suitable r) <;>
    cases rs.find? (fun r => r.Isgid && kernelDefaultMap.suitable r) <;>
    simp [uidEntry_flags, gidEntry_flags]

/-- The gid entries of the selection, off the full-range pair. -/
theorem select_gid (rs : List IdRange) (h : rs ≠ kernelDefaultMap.fullKernelRanges) :
    (kernelDefaultMap.select rs).Idmap.filter (fun e => e.Isgid) =
      ((rs.find? (fun r => r.Isgid && kernelDefaultMap.suitable r)).map
        kernelDefaultMap.gidEntry).toList := by
  rw [select_eq, if_neg h]
  cases rs.find? (fun r => r.Isuid && kernelDefaultMap.suitable r) <;>
    cases rs.find? (fun r => r.Isgid && kernelDefaultMap.suitable r) <;>
    simp [uidEntry_flags, gidEntry_flags]

theorem select_count (rs : List IdRange) :
    ((kernelDefaultMap.select rs).Idmap.filter (fun e => e.Isuid)).length ≤ 1 ∧
      ((kernelDefaultMap.select rs).Idmap.filter (fun e => e.Isgid)).length ≤ 1 := by
  by_cases h : rs = kernelDefaultMap.fullKernelRanges
  · subst h
    decide
  · rw [select_uid rs h, select_gid rs h]
    constructor
    · cases rs.find? (fun r => r.Isuid && kernelDefaultMap.suitable r) <;> simp
    · cases rs.find? (fun r => r.Isgid && kernelDefaultMap.suitable r) <;> simp

/-- Claim C10. A set returned by `kernelDefaultMap` holds at most one uid
entry and at most one gid entry; and once the ranges read so far yield an
entry on an axis, ranges that follow them add or change nothing on that
axis, however many of them pass the selection test (the full-range pair,
which is answered by the fallback, set aside). -/
theorem kernelDefaultMap_one_per_axis (env : Env) (set : IdmapSet)
    (h : kernelDefaultMap env = .ok set) :
    (set.Idmap.filter (fun e => e.Isuid)).length ≤ 1 ∧
    (set.Idmap.filter (fun e => e.Isgid)).length ≤ 1 ∧
    (∀ rs later : List IdRange, rs ≠ kernelDefaultMap.fullKernelRanges →
        rs ++ later ≠ kernelDefaultMap.fullKernelRanges →
        ((kernelDefaultMap.select rs).Idmap.filter (fun e => e.Isuid) ≠ [] →
          (kernelDefaultMap.select (rs ++ later)).Idmap.filter (fun e => e.Isuid) =
            (kernelDefaultMap.select rs).Idmap.filter (fun e => e.Isuid)) ∧
        ((kernelDefaultMap.select rs).Idmap.filter (fun e => e.Isgid) ≠ [] →
          (kernelDefaultMap.select (rs ++ later)).Idmap.filter (fun e => e.Isgid) =
            (kernelDefaultMap.select rs).Idmap.filter (fun e => e.Isgid))) := by
  have hcount : (set.Idmap.filter (fun e => e.Isuid)).length ≤ 1 ∧
      (set.Idmap.filter (fun e => e.Isgid)).length ≤ 1 := by
    unfold kernelDefaultMap at h
    cases hc : CurrentIdmapSet env with
    | error err =>
      rw [hc] at h
      injection h with h
      subst h
      decide
    | ok kernelMap =>
      rw [hc] at h
      cases hv : env.ValidRanges kernelMap with
      | error err => simp [hv] at h
      | ok kernelRanges =>
        simp only [hv] at h
        injection h with h
        subst h
        exact select_count kernelRanges
  refine ⟨hcount.1, hcount.2, ?_⟩
  intro rs later h1 h2
  rw [select_uid rs h1, select_uid _ h2, select_gid rs h1, select_gid _ h2]
  constructor
  · intro hne
    cases hf : rs.find? (fun r => r.Isuid && kernelDefaultMap.suitable r) with
    | none => simp [hf] at hne
    | some r => simp [List.find?_append, hf]
  · intro hne
    cases hf : rs.find? (fun r => r.Isgid && kernelDefaultMap.suitable r) with
    | none => simp [hf] at hne
    | some r => simp [List.find?_append, hf]

/-- Witness for C10: three uid ranges that pass the selection test and one
gid range; only the first uid range gives an entry. -/
theorem kernelDefaultMap_one_per_axis_witness :
    kernelDefaultMap
        (Example.env "root" none none none none
          [⟨true, false, 100000, 299999⟩, ⟨true, false, 400000, 599999⟩,
           ⟨false, true, 0, 299999⟩, ⟨true, false, 700000, 899999⟩]) =
      .ok { Idmap :=
              [ { Isuid := true, Isgid := false, Nsid := 0, Hostid := 100000, Maprange := 200000 },
                { Isuid := false, Isgid := true, Nsid := 0, Hostid := 100000,
                  Maprange := 200000 } ] } ∧
    ([ ({ Isuid := true, Isgid := false, Nsid := 0, Hostid := 100000, Maprange := 200000 } :
          IdmapEntry),
       { Isuid := false, Isgid := true, Nsid := 0, Hostid := 100000, Maprange := 200000 } ].filter
        (fun e => e.Isuid)).length ≤ 1 :=
  ⟨by decide,
   (kernelDefaultMap_one_per_axis
      (Example.env "root" none none none none
        [⟨true, false, 100000, 299999⟩, ⟨true, false, 400000, 599999⟩,
         ⟨false, true, 0, 299999⟩, ⟨true, false, 700000, 899999⟩])
      _ (by decide)).1⟩

/-! ## Spawn-mapping export -/

theorem ToUidMappings_loop_eq (es : List IdmapEntry) (mapping : List SysProcIDMap) :
    ToUidMappings.loop es mapping =
      mapping ++ (es.filter (fun e => e.Isuid)).map IdmapEntry.triple := by
  induction es generalizing mapping with
  | nil => simp [ToUidMappings.loop]
  | cons e rest ih =>
    unfold ToUidMappings.loop
    cases h : e.Isuid <;> simp [h, ih, IdmapEntry.triple]

theorem ToGidMappings_loop_eq (es : List IdmapEntry) (mapping : List SysProcIDMap) :
    ToGidMappings.loop es mapping =
      mapping ++ (es.filter (fun e => e.Isgid)).map IdmapEntry.triple := by
  induction es generalizing mapping with
  | nil => simp [ToGidMappings.loop]
  | cons e rest ih =>
    unfold ToGidMappings.loop
    cases h : e.Isgid <;> simp [h, ih, IdmapEntry.triple]

/-- Claim C13. `ToUidMappings` returns the `(Nsid, Hostid, Maprange)` triples
of the entries with `Isuid` true, in entry order, and `ToGidMappings` those
of the entries with `Isgid` true: one triple per entry of the axis (nothing
is merged) and none for an entry that is not on the axis. -/
theorem ToMappings_projection (m : IdmapSet) :
    m.ToUidMappings =
        (m.Idmap.filter (fun e => e.Isuid)).map
          (fun e => { ContainerID := e.Nsid, HostID := e.Hostid, Size := e.Maprange }) ∧
    m.ToGidMappings =
        (m.Idmap.filter (fun e => e.Isgid)).map
          (fun e => { ContainerID := e.Nsid, HostID := e.Hostid, Size := e.Maprange }) ∧
    m.ToUidMappings.length = m.Idmap.countP (fun e => e.Isuid) ∧
    m.ToGidMappings.length = m.Idmap.countP (fun e => e.Isgid) := by
  have hu : m.ToUidMappings = (m.Idmap.filter (fun e => e.Isuid)).map IdmapEntry.triple := by
    simp [IdmapSet.ToUidMappings, ToUidMappings_loop_eq]
  have hg : m.ToGidMappings = (m.Idmap.filter (fun e => e.Isgid)).map IdmapEntry.triple := by
    simp [IdmapSet.ToGidMappings, ToGidMappings_loop_eq]
  refine ⟨hu, hg, ?_, ?_⟩
  · rw [hu, List.length_map, List.countP_eq_length_filter]
  · rw [hg, List.length_map, List.countP_eq_length_filter]

/-! ## Entries of the kernel default map -/

/-- Claim C19, refuted: no entry of the hard-coded fallback has an id at or
above `2^31` in its host-side range `[Hostid, Hostid + Maprange)`. -/
theorem fallback_no_id_above_2_31 :
    ¬ ∃ e ∈ kernelDefaultMap.fallback.Idmap, ∃ id : Int,
        e.Hostid ≤ id ∧ id < e.Hostid + e.Maprange ∧ 2 ^ 31 ≤ id := by
  rintro ⟨e, he, id, h1, h2, h3⟩
  simp only [kernelDefaultMap.fallback, List.mem_cons, List.mem_singleton,
    List.not_mem_nil, or_false] at he
  rcases he with he | he <;> subst he <;> simp only at h1 h2 <;> omega

/-- Claim C19, amended: the host-side range of each entry of the hard-coded
fallback is `[1000000, 1001000000)`, so every id in it is below `2^30`. -/
theorem fallback_below_2_30 (e : IdmapEntry) (he : e ∈ kernelDefaultMap.fallback.Idmap)
    (id : Int) (hlo : e.Hostid ≤ id) (hhi : id < e.Hostid + e.Maprange) :
    e.Hostid = 1000000 ∧ e.Hostid + e.Maprange = 1001000000 ∧ id < 2 ^ 30 := by
  simp only [kernelDefaultMap.fallback, List.mem_cons, List.mem_singleton,
    List.not_mem_nil, or_false] at he
  rcases he with he | he <;> subst he <;> simp only at hlo hhi <;>
    exact ⟨rfl, by norm_num, by omega⟩

/-- Witness for the amended C19: the last id of the uid entry of the
fallback. -/
theorem fallback_below_2_30_witness : (1000999999 : Int) < 2 ^ 30 :=
  (fallback_below_2_30
    { Isuid := true, Isgid := false, Nsid := 0, Hostid := 1000000, Maprange := 1000000000 }
    (by decide) 1000999999 (by decide) (by decide)).2.2

/-- Off the full-range pair, every entry of the selection comes from a
suitable range of its axis. -/
theorem select_mem (rs : List IdRange) (h : rs ≠ kernelDefaultMap.fullKernelRanges)
    (e : IdmapEntry) (he : e ∈ (kernelDefaultMap.select rs).Idmap) :
    ∃ r ∈ rs, kernelDefaultMap.suitable r = true ∧
      ((r.Isuid = true ∧ e = kernelDefaultMap.uidEntry r) ∨
        (r.Isgid = true ∧ e = kernelDefaultMap.gidEntry r)) := by
  rw [select_eq, if_neg h] at he
  simp only [List.mem_append, Option.mem_toList, Option.mem_def, Option.map_eq_some'] at he
  rcases he with ⟨r, hf, hr⟩ | ⟨r, hf, hr⟩
  · have hp := List.find?_some hf
    simp only [Bool.and_eq_true] at hp
    exact ⟨r, List.mem_of_find?_eq_some hf, hp.2, Or.inl ⟨hp.1, hr.symm⟩⟩
  · have hp := List.find?_some hf
    simp only [Bool.and_eq_true] at hp
    exact ⟨r, List.mem_of_find?_eq_some hf, hp.2, Or.inr ⟨hp.1, hr.symm⟩⟩

theorem suitable_bounds (r : IdRange) (h : kernelDefaultMap.suitable r = true) :
    100000 ≤ max r.Startid 100000 ∧ 65537 ≤ r.Endid - max r.Startid 100000 + 1 ∧
      r.Startid ≤ max r.Startid 100000 ∧
      max r.Startid 100000 + (r.Endid - max r.Startid 100000 + 1) - 1 = r.Endid := by
  simp only [kernelDefaultMap.suitable, Bool.and_eq_true, decide_eq_true_eq] at h
  omega

theorem select_bounds (rs : List IdRange) (e : IdmapEntry)
    (he : e ∈ (kernelDefaultMap.select rs).Idmap) :
    e.Nsid = 0 ∧ 100000 ≤ e.Hostid ∧ 65537 ≤ e.Maprange := by
  by_cases h : rs = kernelDefaultMap.fullKernelRanges
  · rw [select_eq, if_pos h] at he
    simp only [kernelDefaultMap.fallback, List.mem_cons, List.mem_singleton,
      List.not_mem_nil, or_false] at he
    rcases he with he | he <;> subst he <;> decide
  · obtain ⟨r, _, hs, hr⟩ := select_mem rs h e he
    have hb := suitable_bounds r hs
    rcases hr with ⟨_, hr⟩ | ⟨_, hr⟩ <;> subst hr
    · exact ⟨rfl, hb.1, hb.2.1⟩
    · exact ⟨rfl, hb.1, hb.2.1⟩

/-- Claim C20. Every entry of a set returned by `kernelDefaultMap` has
`Nsid = 0`, `Hostid ≥ 100000` and `Maprange ≥ 65537`; and when the set is not
the answer to the full-range pair, each entry is derived from a range of its
own axis in the consolidated list, starts at or after that range's start and
ends exactly at that range's end.  (The bounds `0 ≤ start ≤ end < 2^32` on
the ranges are not needed.) -/
theorem kernelDefaultMap_entries (env : Env) (kernelMap : IdmapSet)
    (kernelRanges : List IdRange) (set : IdmapSet)
    (hc : CurrentIdmapSet env = .ok kernelMap)
    (hv : env.ValidRanges kernelMap = .ok kernelRanges)
    (h : kernelDefaultMap env = .ok set) :
    (∀ e ∈ set.Idmap, e.Nsid = 0 ∧ 100000 ≤ e.Hostid ∧ 65537 ≤ e.Maprange) ∧
    (kernelRanges ≠
        [ { Isuid := true, Isgid := false, Startid := 0, Endid := 4294967294 },
          { Isuid := false, Isgid := true, Startid := 0, Endid := 4294967294 } ] →
      ∀ e ∈ set.Idmap, ∃ r ∈ kernelRanges,
        (e.Isuid = true → r.Isuid = true) ∧ (e.Isgid = true → r.Isgid = true) ∧
        r.Startid ≤ e.Hostid ∧ e.Hostid + e.Maprange - 1 = r.Endid) := by
  unfold kernelDefaultMap at h
  simp only [hc, hv] at h
  injection h with h
  subst h
  refine ⟨fun e he => select_bounds kernelRanges e he, ?_⟩
  intro hne e he
  obtain ⟨r, hr, hs, hcase⟩ := select_mem kernelRanges hne e he
  have hb := suitable_bounds r hs
  refine ⟨r, hr, ?_⟩
  rcases hcase with ⟨hax, he⟩ | ⟨hax, he⟩ <;> subst he
  · exact ⟨fun _ => hax, fun h => by simp [kernelDefaultMap.uidEntry] at h, hb.2.2.1, hb.2.2.2⟩
  · exact ⟨fun h => by simp [kernelDefaultMap.gidEntry] at h, fun _ => hax, hb.2.2.1, hb.2.2.2⟩

/-- The fallback that answers a failed read of the current map also has
`Nsid = 0`, `Hostid ≥ 100000` and `Maprange ≥ 65537` in each entry. -/
theorem kernelDefaultMap_bounds (env : Env) (set : IdmapSet)
    (h : kernelDefaultMap env = .ok set) :
    ∀ e ∈ set.Idmap, e.Nsid = 0 ∧ 100000 ≤ e.Hostid ∧ 65537 ≤ e.Maprange := by
  unfold kernelDefaultMap at h
  cases hc : CurrentIdmapSet env with
  | error err =>
    rw [hc] at h
    injection h with h
    subst h
    decide
  | ok kernelMap =>
    rw [hc] at h
    cases hv : env.ValidRanges kernelMap with
    | error err => simp [hv] at h
    | ok kernelRanges =>
      simp only [hv] at h
      injection h with h
      subst h
      exact fun e he => select_bounds kernelRanges e he

/-- Witness for C20: the uid range `[50000, 299999]` is cut to start at
`100000`; the gid range `[0, 99999]` gives nothing. -/
theorem kernelDefaultMap_entries_witness :
    ({ Isuid := true, Isgid := false, Nsid := 0, Hostid := 100000, Maprange := 200000 } :
        IdmapEntry).Nsid = 0 ∧
    100000 ≤ ({ Isuid := true, Isgid := false, Nsid := 0, Hostid := 100000,
                Maprange := 200000 } : IdmapEntry).Hostid ∧
    65537 ≤ ({ Isuid := true, Isgid := false, Nsid := 0, Hostid := 100000,
               Maprange := 200000 } : IdmapEntry).Maprange :=
  (kernelDefaultMap_entries
    (Example.env "root" none none none none
      [⟨true, false, 50000, 299999⟩, ⟨false, true, 0, 99999⟩])
    { Idmap := [ { Isuid := true, Nsid := 0, Hostid := 0, Maprange := 0 },
                 { Isgid := true, Nsid := 0, Hostid := 0, Maprange := 0 } ] }
    [⟨true, false, 50000, 299999⟩, ⟨false, true, 0, 99999⟩]
    { Idmap := [ { Isuid := true, Isgid := false, Nsid := 0, Hostid := 100000,
                   Maprange := 200000 } ] }
    (by decide) (by decide) (by decide)).1
    { Isuid := true, Isgid := false, Nsid := 0, Hostid := 100000, Maprange := 200000 }
    (by decide)

/-! ## Invariants of the constructed sets -/

theorem uint32Field_lt (s : Text) (n : Nat) (h : uint32Field s = some n) : n < 2 ^ 32 := by
  unfold uint32Field at h
  by_cases hu : isUint32 s = true
  · rw [if_pos hu] at h
    injection h with h
    subst h
    simp only [isUint32, Bool.and_eq_true, decide_eq_true_eq] at hu
    exact hu.2
  · rw [if_neg hu] at h
    exact absurd h (by simp)

theorem shadowFields_bounds (SimpleFold : Nat → Nat) (username t : Text) (p : Int × Int)
    (h : shadowFields SimpleFold username t = some p) :
    0 ≤ p.1 ∧ p.1 < 2 ^ 32 ∧ 0 ≤ p.2 ∧ p.2 < 2 ^ 32 := by
  unfold shadowFields at h
  split at h
  · split at h
    · split at h
      · rename_i a b ha hb
        injection h with h
        subst h
        have h1 := uint32Field_lt _ _ ha
        have h2 := uint32Field_lt _ _ hb
        show 0 ≤ (a : Int) ∧ (a : Int) < 2 ^ 32 ∧ 0 ≤ (b : Int) ∧ (b : Int) < 2 ^ 32
        omega
      · exact absurd h (by simp)
    · exact absurd h (by simp)
  · exact absurd h (by simp)

theorem procFields_bounds (t : Text) (p : Int × Int × Int) (h : procFields t = some p) :
    0 ≤ p.1 ∧ p.1 < 2 ^ 32 ∧ 0 ≤ p.2.1 ∧ p.2.1 < 2 ^ 32 ∧ 0 ≤ p.2.2 ∧ p.2.2 < 2 ^ 32 := by
  unfold procFields at h
  split at h
  · split at h
    · split at h
      · rename_i a b c ha hb hc
        injection h with h
        subst h
        have h1 := uint32Field_lt _ _ ha
        have h2 := uint32Field_lt _ _ hb
        have h3 := uint32Field_lt _ _ hc
        show 0 ≤ (a : Int) ∧ (a : Int) < 2 ^ 32 ∧ 0 ≤ (b : Int) ∧ (b : Int) < 2 ^ 32 ∧
          0 ≤ (c : Int) ∧ (c : Int) < 2 ^ 32
        omega
      · exact absurd h (by simp)
    · exact absurd h (by simp)
  · exact absurd h (by simp)

/-- Every pair `getFromShadow` returns holds two unsigned 32-bit values. -/
theorem getFromShadow_bounds (SimpleFold : Nat → Nat) (fname : Path) (f : Except Err Text)
    (username : Text) (entries : List (Int × Int))
    (h : getFromShadow SimpleFold fname f username = .ok entries) :
    ∀ p ∈ entries, 0 ≤ p.1 ∧ p.1 < 2 ^ 32 ∧ 0 ≤ p.2 ∧ p.2 < 2 ^ 32 := by
  cases f with
  | error err => simp [getFromShadow] at h
  | ok content =>
    rw [getFromShadow_eq] at h
    split at h
    · exact absurd h (by simp)
    · split at h
      · exact absurd h (by simp)
      · injection h with h
        subst h
        intro p hp
        simp only [shadowRecords, List.mem_filterMap] at hp
        obtain ⟨line, _, hl⟩ := hp
        exact shadowFields_bounds SimpleFold username _ p hl

/-- Every triple `getFromProc` returns holds three unsigned 32-bit values. -/
theorem getFromProc_bounds (fname : Path) (f : Except Err Text)
    (entries : List (Int × Int × Int)) (h : getFromProc fname f = .ok entries) :
    ∀ p ∈ entries,
      0 ≤ p.1 ∧ p.1 < 2 ^ 32 ∧ 0 ≤ p.2.1 ∧ p.2.1 < 2 ^ 32 ∧ 0 ≤ p.2.2 ∧ p.2.2 < 2 ^ 32 := by
  cases f with
  | error err => simp [getFromProc] at h
  | ok content =>
    rw [getFromProc_eq] at h
    split at h
    · exact absurd h (by simp)
    · split at h
      · exact absurd h (by simp)
      · injection h with h
        subst h
        intro p hp
        simp only [procRecords, List.mem_filterMap] at hp
        obtain ⟨line, _, hl⟩ := hp
        exact procFields_bounds _ p hl

/-- The two ways `DefaultIdmapSet` returns a set: the set of
`kernelDefaultMap`, or the entries built from two successful shadow reads. -/
theorem DefaultIdmapSet_cases (env : Env) (rootfs : String) (username : Text) (set : IdmapSet)
    (h : DefaultIdmapSet env rootfs username = .ok set) :
    kernelDefaultMap env = .ok set ∨
    ∃ user uids gids,
      getFromShadow env.SimpleFold (.etcSubuid rootfs) (env.Open (.etcSubuid rootfs)) user = .ok uids ∧
      getFromShadow env.SimpleFold (.etcSubgid rootfs) (env.Open (.etcSubgid rootfs)) user = .ok gids ∧
      set = { Idmap :=
                uids.map (fun r =>
                  { Isuid := true, Isgid := false, Nsid := 0, Hostid := r.1, Maprange := r.2 }) ++
                gids.map (fun r =>
                  { Isuid := false, Isgid := true, Nsid := 0, Hostid := r.1, Maprange := r.2 }) } := by
  unfold DefaultIdmapSet at h
  simp only at h
  split at h
  · exact absurd h (by simp)
  · rename_i user _
    split at h
    · split at h
      · rename_i err _
        unfold DefaultIdmapSet.onError at h
        split at h
        · exact Or.inl h
        · exact absurd h (by simp)
      · rename_i uids hu
        split at h
        · rename_i err _
          unfold DefaultIdmapSet.onError at h
          split at h
          · exact Or.inl h
          · exact absurd h (by simp)
        · rename_i gids hg
          injection h with h
          exact Or.inr ⟨user, uids, gids, hu, hg, by rw [← h]; simp⟩
    · exact Or.inl h

/-- A set returned by `kernelDefaultMap` holds no two entries of one axis. -/
theorem kernelDefaultMap_axes (env : Env) (set : IdmapSet)
    (h : kernelDefaultMap env = .ok set) :
    set.Idmap.Pairwise (fun a b => IdmapEntry.sameAxis a b = false) := by
  have hsel : ∀ rs, (kernelDefaultMap.select rs).Idmap.Pairwise
      (fun a b => IdmapEntry.sameAxis a b = false) := by
    intro rs
    rw [select_eq]
    split_ifs
    · decide
    · cases rs.find? (fun r => r.Isuid && kernelDefaultMap.suitable r) <;>
        cases rs.find? (fun r => r.Isgid && kernelDefaultMap.suitable r) <;>
        simp [IdmapEntry.sameAxis, kernelDefaultMap.uidEntry, kernelDefaultMap.gidEntry]
  unfold kernelDefaultMap at h
  cases hc : CurrentIdmapSet env with
  | error err =>
    rw [hc] at h
    injection h with h
    subst h
    decide
  | ok kernelMap =>
    rw [hc] at h
    cases hv : env.ValidRanges kernelMap with
    | error err => simp [hv] at h
    | ok kernelRanges =>
      simp only [hv] at h
      injection h with h
      subst h
      exact hsel kernelRanges

/-- Every entry of a set returned by `kernelDefaultMap` is on exactly one
axis. -/
theorem kernelDefaultMap_axis (env : Env) (set : IdmapSet)
    (h : kernelDefaultMap env = .ok set) :
    ∀ e ∈ set.Idmap, e.Isuid ≠ e.Isgid := by
  intro e he
  unfold kernelDefaultMap at h
  cases hc : CurrentIdmapSet env with
  | error err =>
    rw [hc] at h
    injection h with h
    subst h
    simp only [kernelDefaultMap.fallback, List.mem_cons, List.mem_singleton,
      List.not_mem_nil, or_false] at he
    rcases he with he | he <;> subst he <;> decide
  | ok kernelMap =>
    rw [hc] at h
    cases hv : env.ValidRanges kernelMap with
    | error err => simp [hv] at h
    | ok kernelRanges =>
      simp only [hv] at h
      injection h with h
      subst h
      by_cases hfull : kernelRanges = kernelDefaultMap.fullKernelRanges
      · rw [select_eq, if_pos hfull] at he
        simp only [kernelDefaultMap.fallback, List.mem_cons, List.mem_singleton,
          List.not_mem_nil, or_false] at he
        rcases he with he | he <;> subst he <;> decide
      · obtain ⟨r, _, _, hr⟩ := select_mem kernelRanges hfull e he
        rcases hr with ⟨_, hr⟩ | ⟨_, hr⟩ <;> subst hr <;>
          simp [kernelDefaultMap.uidEntry, kernelDefaultMap.gidEntry]

/-- Every entry of a set returned by `DefaultIdmapSet` has `Nsid = 0`, a
`Maprange` and a `Hostid` that are not negative, and is on exactly one
axis. -/
theorem DefaultIdmapSet_Nsid (env : Env) (rootfs : String) (username : Text) (set : IdmapSet)
    (h : DefaultIdmapSet env rootfs username = .ok set) :
    ∀ e ∈ set.Idmap, e.Nsid = 0 ∧ 0 ≤ e.Maprange ∧ 0 ≤ e.Hostid ∧ e.Isuid ≠ e.Isgid := by
  rcases DefaultIdmapSet_cases env rootfs username set h with hk | ⟨user, uids, gids, hu, hg, hs⟩
  · intro e he
    have hb := kernelDefaultMap_bounds env set hk e he
    exact ⟨hb.1, by omega, by omega, kernelDefaultMap_axis env set hk e he⟩
  · subst hs
    intro e he
    simp only [List.mem_append, List.mem_map] at he
    rcases he with ⟨p, hp, rfl⟩ | ⟨p, hp, rfl⟩
    · have hb := getFromShadow_bounds _ _ _ _ _ hu p hp
      exact ⟨rfl, hb.2.2.1, hb.1, by simp⟩
    · have hb := getFromShadow_bounds _ _ _ _ _ hg p hp
      exact ⟨rfl, hb.2.2.1, hb.1, by simp⟩

/-- Claim C11, refuted: scenario S1 of the specification (two subuid records
of `alice`) gives two distinct uid entries whose container-side ranges
`[0, 65536)` and `[0, 1000)` overlap. -/
theorem DefaultIdmapSet_ns_overlap :
    DefaultIdmapSet
        (Example.env "alice" (some "alice:100000:65536\nalice:200000:1000\n")
          (some "alice:100000:65536\n") none none [])
        "" [] =
      .ok { Idmap :=
              [ { Isuid := true, Isgid := false, Nsid := 0, Hostid := 100000, Maprange := 65536 },
                { Isuid := true, Isgid := false, Nsid := 0, Hostid := 200000, Maprange := 1000 },
                { Isuid := false, Isgid := true, Nsid := 0, Hostid := 100000,
                  Maprange := 65536 } ] } ∧
    ({ Isuid := true, Isgid := false, Nsid := 0, Hostid := 100000, Maprange := 65536 } :
        IdmapEntry) ≠
      { Isuid := true, Isgid := false, Nsid := 0, Hostid := 200000, Maprange := 1000 } ∧
    IdmapEntry.sameAxis
        { Isuid := true, Isgid := false, Nsid := 0, Hostid := 100000, Maprange := 65536 }
        { Isuid := true, Isgid := false, Nsid := 0, Hostid := 200000, Maprange := 1000 } = true ∧
    IdmapEntry.nsOverlap
        { Isuid := true, Isgid := false, Nsid := 0, Hostid := 100000, Maprange := 65536 }
        { Isuid := true, Isgid := false, Nsid := 0, Hostid := 200000, Maprange := 1000 } = true := by
  decide

/-- Claim C11, amended: every entry of a set returned by `DefaultIdmapSet`
has `Nsid = 0`, so the container-side ranges of two entries overlap exactly
when both have `Maprange ≥ 1`; and a set that `DefaultIdmapSet` takes from
`kernelDefaultMap` holds no two entries of one axis, so there no two
distinct entries on the same axis overlap. -/
theorem DefaultIdmapSet_ns_ranges (env : Env) (rootfs : String) (username : Text)
    (set : IdmapSet) (h : DefaultIdmapSet env rootfs username = .ok set) :
    (∀ e ∈ set.Idmap, e.Nsid = 0) ∧
    (∀ a ∈ set.Idmap, ∀ b ∈ set.Idmap,
        (IdmapEntry.nsOverlap a b = true ↔ 1 ≤ a.Maprange ∧ 1 ≤ b.Maprange)) ∧
    (kernelDefaultMap env = .ok set →
        set.Idmap.Pairwise
          (fun a b => IdmapEntry.sameAxis a b = true → IdmapEntry.nsOverlap a b = false)) := by
  have hN := DefaultIdmapSet_Nsid env rootfs username set h
  refine ⟨fun e he => (hN e he).1, ?_, ?_⟩
  · intro a ha b hb
    have h1 := hN a ha
    have h2 := hN b hb
    simp only [IdmapEntry.nsOverlap, decide_eq_true_eq, h1.1, h2.1]
    omega
  · intro hk
    refine (kernelDefaultMap_axes env set hk).imp ?_
    intro a b hab hsame
    rw [hab] at hsame
    exact absurd hsame (by simp)

/-- Witness for the amended C11: the set of scenario S1; its two uid
entries both start at container id `0` and overlap. -/
theorem DefaultIdmapSet_ns_ranges_witness :
    IdmapEntry.nsOverlap
        { Isuid := true, Isgid := false, Nsid := 0, Hostid := 100000, Maprange := 65536 }
        { Isuid := true, Isgid := false, Nsid := 0, Hostid := 200000, Maprange := 1000 } = true ↔
      1 ≤ ({ Isuid := true, Isgid := false, Nsid := 0, Hostid := 100000, Maprange := 65536 } :
            IdmapEntry).Maprange ∧
        1 ≤ ({ Isuid := true, Isgid := false, Nsid := 0, Hostid := 200000, Maprange := 1000 } :
            IdmapEntry).Maprange :=
  (DefaultIdmapSet_ns_ranges
    (Example.env "alice" (some "alice:100000:65536\nalice:200000:1000\n")
      (some "alice:100000:65536\n") none none [])
    "" []
    { Idmap :=
        [ { Isuid := true, Isgid := false, Nsid := 0, Hostid := 100000, Maprange := 65536 },
          { Isuid := true, Isgid := false, Nsid := 0, Hostid := 200000, Maprange := 1000 },
          { Isuid := false, Isgid := true, Nsid := 0, Hostid := 100000, Maprange := 65536 } ] }
    (by decide)).2.1
    { Isuid := true, Isgid := false, Nsid := 0, Hostid := 100000, Maprange := 65536 } (by decide)
    { Isuid := true, Isgid := false, Nsid := 0, Hostid := 200000, Maprange := 1000 } (by decide)

/-- Every entry of a set returned by `CurrentIdmapSet` is on exactly one
axis and holds three unsigned 32-bit values. -/
theorem CurrentIdmapSet_bounds (env : Env) (set : IdmapSet)
    (h : CurrentIdmapSet env = .ok set) :
    ∀ e ∈ set.Idmap, e.Isuid ≠ e.Isgid ∧
      0 ≤ e.Nsid ∧ e.Nsid < 2 ^ 32 ∧ 0 ≤ e.Hostid ∧ e.Hostid < 2 ^ 32 ∧
      0 ≤ e.Maprange ∧ e.Maprange < 2 ^ 32 := by
  have huid : ∀ entries : List (Int × Int × Int),
      (∀ p ∈ entries,
        0 ≤ p.1 ∧ p.1 < 2 ^ 32 ∧ 0 ≤ p.2.1 ∧ p.2.1 < 2 ^ 32 ∧ 0 ≤ p.2.2 ∧ p.2.2 < 2 ^ 32) →
      ∀ e ∈ entries.map (fun entry =>
          ({ Isuid := true, Nsid := entry.1, Hostid := entry.2.1, Maprange := entry.2.2 } :
            IdmapEntry)),
        e.Isuid ≠ e.Isgid ∧
        0 ≤ e.Nsid ∧ e.Nsid < 2 ^ 32 ∧ 0 ≤ e.Hostid ∧ e.Hostid < 2 ^ 32 ∧
        0 ≤ e.Maprange ∧ e.Maprange < 2 ^ 32 := by
    intro entries hb e he
    simp only [List.mem_map] at he
    obtain ⟨p, hp, rfl⟩ := he
    have := hb p hp
    exact ⟨by simp, this.1, this.2.1, this.2.2.1, this.2.2.2.1, this.2.2.2.2.1, this.2.2.2.2.2⟩
  have hgid : ∀ entries : List (Int × Int × Int),
      (∀ p ∈ entries,
        0 ≤ p.1 ∧ p.1 < 2 ^ 32 ∧ 0 ≤ p.2.1 ∧ p.2.1 < 2 ^ 32 ∧ 0 ≤ p.2.2 ∧ p.2.2 < 2 ^ 32) →
      ∀ e ∈ entries.map (fun entry =>
          ({ Isgid := true, Nsid := entry.1, Hostid := entry.2.1, Maprange := entry.2.2 } :
            IdmapEntry)),
        e.Isuid ≠ e.Isgid ∧
        0 ≤ e.Nsid ∧ e.Nsid < 2 ^ 32 ∧ 0 ≤ e.Hostid ∧ e.Hostid < 2 ^ 32 ∧
        0 ≤ e.Maprange ∧ e.Maprange < 2 ^ 32 := by
    intro entries hb e he
    simp only [List.mem_map] at he
    obtain ⟨p, hp, rfl⟩ := he
    have := hb p hp
    exact ⟨by simp, this.1, this.2.1, this.2.2.1, this.2.2.2.1, this.2.2.2.2.1, this.2.2.2.2.2⟩
  have hfu : ∀ e ∈ [({ Isuid := true, Nsid := 0, Hostid := 0, Maprange := 0 } : IdmapEntry)],
      e.Isuid ≠ e.Isgid ∧
      0 ≤ e.Nsid ∧ e.Nsid < 2 ^ 32 ∧ 0 ≤ e.Hostid ∧ e.Hostid < 2 ^ 32 ∧
      0 ≤ e.Maprange ∧ e.Maprange < 2 ^ 32 := by
    intro e he
    simp only [List.mem_singleton] at he
    subst he
    decide
  have hfg : ∀ e ∈ [({ Isgid := true, Nsid := 0, Hostid := 0, Maprange := 0 } : IdmapEntry)],
      e.Isuid ≠ e.Isgid ∧
      0 ≤ e.Nsid ∧ e.Nsid < 2 ^ 32 ∧ 0 ≤ e.Hostid ∧ e.Hostid < 2 ^ 32 ∧
      0 ≤ e.Maprange ∧ e.Maprange < 2 ^ 32 := by
    intro e he
    simp only [List.mem_singleton] at he
    subst he
    decide
  unfold CurrentIdmapSet at h
  simp only [List.nil_append] at h
  intro e he
  by_cases hpu : env.PathExists .procUidMap = true
  · simp only [hpu, if_true] at h
    cases hru : getFromProc .procUidMap (env.Open .procUidMap) with
    | error err => simp [hru] at h
    | ok uids =>
      have hbu := getFromProc_bounds _ _ _ hru
      simp only [hru] at h
      by_cases hpg : env.PathExists .procGidMap = true
      · simp only [hpg, if_true] at h
        cases hrg : getFromProc .procGidMap (env.Open .procGidMap) with
        | error err => simp [hrg] at h
        | ok gids =>
          have hbg := getFromProc_bounds _ _ _ hrg
          simp only [hrg] at h
          injection h with h
          subst h
          rcases List.mem_append.mp he with he | he
          · exact huid uids hbu e he
          · exact hgid gids hbg e he
      · simp only [hpg] at h
        injection h with h
        subst h
        rcases List.mem_append.mp he with he | he
        · exact huid uids hbu e he
        · exact hfg e he
  · simp only [hpu] at h
    by_cases hpg : env.PathExists .procGidMap = true
    · simp only [hpg, if_true] at h
      cases hrg : getFromProc .procGidMap (env.Open .procGidMap) with
      | error err => simp [hrg] at h
      | ok gids =>
        have hbg := getFromProc_bounds _ _ _ hrg
        simp only [hrg] at h
        injection h with h
        subst h
        rcases List.mem_append.mp he with he | he
        · exact hfu e he
        · exact hgid gids hbg e he
    · simp only [hpg] at h
      injection h with h
      subst h
      rcases List.mem_append.mp he with he | he
      · exact hfu e he
      · exact hfg e he

/-- With ranges that end below `2^32`, an entry `kernelDefaultMap` selects
ends at or below `2^32` on the host side. -/
theorem select_top (rs : List IdRange) (hrs : ∀ r ∈ rs, r.Endid < 2 ^ 32) (e : IdmapEntry)
    (he : e ∈ (kernelDefaultMap.select rs).Idmap) :
    e.Hostid + e.Maprange ≤ 2 ^ 32 := by
  by_cases h : rs = kernelDefaultMap.fullKernelRanges
  · rw [select_eq, if_pos h] at he
    simp only [kernelDefaultMap.fallback, List.mem_cons, List.mem_singleton,
      List.not_mem_nil, or_false] at he
    rcases he with he | he <;> subst he <;> decide
  · obtain ⟨r, hr, hs, hcase⟩ := select_mem rs h e he
    have hb := suitable_bounds r hs
    have hr32 := hrs r hr
    rcases hcase with ⟨_, he⟩ | ⟨_, he⟩ <;> subst he
    · show max r.Startid 100000 + (r.Endid - max r.Startid 100000 + 1) ≤ 2 ^ 32
      omega
    · show max r.Startid 100000 + (r.Endid - max r.Startid 100000 + 1) ≤ 2 ^ 32
      omega

/-- With consolidated ranges that end below `2^32`, every entry of a set
returned by `kernelDefaultMap` ends at or below `2^32` on the host side. -/
theorem kernelDefaultMap_top (env : Env) (hr : env.u32Ranges) (set : IdmapSet)
    (h : kernelDefaultMap env = .ok set) :
    ∀ e ∈ set.Idmap, e.Hostid + e.Maprange ≤ 2 ^ 32 := by
  unfold kernelDefaultMap at h
  cases hc : CurrentIdmapSet env with
  | error err =>
    rw [hc] at h
    injection h with h
    subst h
    decide
  | ok kernelMap =>
    rw [hc] at h
    cases hv : env.ValidRanges kernelMap with
    | error err => simp [hv] at h
    | ok kernelRanges =>
      simp only [hv] at h
      injection h with h
      subst h
      exact fun e he => select_top kernelRanges (hr kernelMap kernelRanges hc hv) e he

/-- Claim C12, refuted.  Each of the clauses `Maprange ≥ 1`,
`Hostid + Maprange ≤ 2^32` and `Nsid + Maprange ≤ 2^32` fails on a returned
set: without `/proc/self/uid_map` and `/proc/self/gid_map` `CurrentIdmapSet`
returns the two fallback entries with `Maprange = 0`; from the maps
`0 4294967295 4294967295` and `4294967295 0 4294967295` it returns a uid
entry with `Hostid + Maprange = 8589934590` and a gid entry with
`Nsid + Maprange = 8589934590`; and the shadow records
`alice:4294967295:4294967295` and `alice:100000:0` give `DefaultIdmapSet` a
uid entry with `Hostid + Maprange = 8589934590` and a gid entry with
`Maprange = 0`. -/
theorem entry_invariant_fails :
    (CurrentIdmapSet (Example.env "root" none none none none []) =
        .ok { Idmap := [ { Isuid := true, Isgid := false, Nsid := 0, Hostid := 0, Maprange := 0 },
                         { Isuid := false, Isgid := true, Nsid := 0, Hostid := 0,
                           Maprange := 0 } ] } ∧
      ¬ 1 ≤ ({ Isuid := true, Isgid := false, Nsid := 0, Hostid := 0, Maprange := 0 } :
          IdmapEntry).Maprange ∧
      IdmapEntry.invariant
        { Isuid := true, Isgid := false, Nsid := 0, Hostid := 0, Maprange := 0 } = false) ∧
    (CurrentIdmapSet
        (Example.env "root" none none (some "0 4294967295 4294967295\n")
          (some "4294967295 0 4294967295\n") []) =
        .ok { Idmap := [ { Isuid := true, Isgid := false, Nsid := 0, Hostid := 4294967295,
                           Maprange := 4294967295 },
                         { Isuid := false, Isgid := true, Nsid := 4294967295, Hostid := 0,
                           Maprange := 4294967295 } ] } ∧
      ¬ ({ Isuid := true, Isgid := false, Nsid := 0, Hostid := 4294967295,
           Maprange := 4294967295 } : IdmapEntry).Hostid +
          ({ Isuid := true, Isgid := false, Nsid := 0, Hostid := 4294967295,
             Maprange := 4294967295 } : IdmapEntry).Maprange ≤ 2 ^ 32 ∧
      ¬ ({ Isuid := false, Isgid := true, Nsid := 4294967295, Hostid := 0,
           Maprange := 4294967295 } : IdmapEntry).Nsid +
          ({ Isuid := false, Isgid := true, Nsid := 4294967295, Hostid := 0,
             Maprange := 4294967295 } : IdmapEntry).Maprange ≤ 2 ^ 32 ∧
      IdmapEntry.invariant
        { Isuid := true, Isgid := false, Nsid := 0, Hostid := 4294967295,
          Maprange := 4294967295 } = false ∧
      IdmapEntry.invariant
        { Isuid := false, Isgid := true, Nsid := 4294967295, Hostid := 0,
          Maprange := 4294967295 } = false) ∧
    (DefaultIdmapSet
        (Example.env "alice" (some "alice:4294967295:4294967295\n") (some "alice:100000:0\n")
          none none [])
        "" [] =
      .ok { Idmap := [ { Isuid := true, Isgid := false, Nsid := 0, Hostid := 4294967295,
                         Maprange := 4294967295 },
                       { Isuid := false, Isgid := true, Nsid := 0, Hostid := 100000,
                         Maprange := 0 } ] } ∧
      ¬ 1 ≤ ({ Isuid := false, Isgid := true, Nsid := 0, Hostid := 100000, Maprange := 0 } :
          IdmapEntry).Maprange ∧
      IdmapEntry.invariant
        { Isuid := false, Isgid := true, Nsid := 0, Hostid := 100000, Maprange := 0 } = false) := by
  decide

/-- Claim C12, amended.  Every entry of a set returned by `CurrentIdmapSet`
has exactly one of `Isuid` and `Isgid` true and `Nsid`, `Hostid`, `Maprange`
in `[0, 2^32)`.  Every entry of a set returned by `kernelDefaultMap` has
exactly one of `Isuid` and `Isgid` true, `Nsid = 0`, `Hostid ≥ 100000` and
`Maprange ≥ 65537`, and satisfies the whole invariant when the consolidated
ranges end below `2^32`.  A set returned by `DefaultIdmapSet` is the set
`kernelDefaultMap` returns, or each of its entries has exactly one of
`Isuid` and `Isgid` true, `Nsid = 0`, `Hostid` and `Maprange` in `[0, 2^32)`
and so `Nsid + Maprange ≤ 2^32`. -/
theorem constructed_entries_invariant (env : Env) :
    (∀ set, CurrentIdmapSet env = .ok set → ∀ e ∈ set.Idmap,
        e.Isuid ≠ e.Isgid ∧ 0 ≤ e.Nsid ∧ e.Nsid < 2 ^ 32 ∧ 0 ≤ e.Hostid ∧ e.Hostid < 2 ^ 32 ∧
          0 ≤ e.Maprange ∧ e.Maprange < 2 ^ 32) ∧
    (∀ set, kernelDefaultMap env = .ok set → ∀ e ∈ set.Idmap,
        e.Isuid ≠ e.Isgid ∧ e.Nsid = 0 ∧ 100000 ≤ e.Hostid ∧ 65537 ≤ e.Maprange ∧
          (env.u32Ranges → e.invariant = true)) ∧
    (∀ rootfs username set, DefaultIdmapSet env rootfs username = .ok set →
        kernelDefaultMap env = .ok set ∨
        ∀ e ∈ set.Idmap,
          e.Isuid ≠ e.Isgid ∧ e.Nsid = 0 ∧ 0 ≤ e.Hostid ∧ e.Hostid < 2 ^ 32 ∧
            0 ≤ e.Maprange ∧ e.Maprange < 2 ^ 32 ∧ e.Nsid + e.Maprange ≤ 2 ^ 32) := by
  refine ⟨?_, ?_, ?_⟩
  · intro set h e he
    exact CurrentIdmapSet_bounds env set h e he
  · intro set h e he
    have hb := kernelDefaultMap_bounds env set h e he
    have hax := kernelDefaultMap_axis env set h e he
    refine ⟨hax, hb.1, hb.2.1, hb.2.2, ?_⟩
    intro hr
    have ht := kernelDefaultMap_top env hr set h e he
    have hx : (e.Isuid != e.Isgid) = true := by simpa using hax
    simp only [IdmapEntry.invariant, hx, Bool.true_and, Bool.and_eq_true, decide_eq_true_eq]
    omega
  · intro rootfs username set h
    rcases DefaultIdmapSet_cases env rootfs username set h with hk | ⟨user, uids, gids, hu, hg, hs⟩
    · exact Or.inl hk
    · right
      subst hs
      intro e he
      simp only [List.mem_append, List.mem_map] at he
      rcases he with ⟨p, hp, rfl⟩ | ⟨p, hp, rfl⟩
      · have hb := getFromShadow_bounds _ _ _ _ _ hu p hp
        refine ⟨by simp, rfl, hb.1, hb.2.1, hb.2.2.1, hb.2.2.2, ?_⟩
        show (0 : Int) + p.2 ≤ 2 ^ 32
        omega
      · have hb := getFromShadow_bounds _ _ _ _ _ hg p hp
        refine ⟨by simp, rfl, hb.1, hb.2.1, hb.2.2.1, hb.2.2.2, ?_⟩
        show (0 : Int) + p.2 ≤ 2 ^ 32
        omega

/-- Witness for the amended C12: the uid entry `CurrentIdmapSet` reads from
the map `0 4294967295 4294967295` holds three values below `2^32`. -/
theorem constructed_entries_invariant_witness :
    ({ Isuid := true, Isgid := false, Nsid := 0, Hostid := 4294967295,
       Maprange := 4294967295 } : IdmapEntry).Isuid ≠
      ({ Isuid := true, Isgid := false, Nsid := 0, Hostid := 4294967295,
         Maprange := 4294967295 } : IdmapEntry).Isgid ∧
    0 ≤ ({ Isuid := true, Isgid := false, Nsid := 0, Hostid := 4294967295,
           Maprange := 4294967295 } : IdmapEntry).Nsid ∧
    ({ Isuid := true, Isgid := false, Nsid := 0, Hostid := 4294967295,
       Maprange := 4294967295 } : IdmapEntry).Nsid < 2 ^ 32 ∧
    0 ≤ ({ Isuid := true, Isgid := false, Nsid := 0, Hostid := 4294967295,
           Maprange := 4294967295 } : IdmapEntry).Hostid ∧
    ({ Isuid := true, Isgid := false, Nsid := 0, Hostid := 4294967295,
       Maprange := 4294967295 } : IdmapEntry).Hostid < 2 ^ 32 ∧
    0 ≤ ({ Isuid := true, Isgid := false, Nsid := 0, Hostid := 4294967295,
           Maprange := 4294967295 } : IdmapEntry).Maprange ∧
    ({ Isuid := true, Isgid := false, Nsid := 0, Hostid := 4294967295,
       Maprange := 4294967295 } : IdmapEntry).Maprange < 2 ^ 32 :=
  (constructed_entries_invariant
      (Example.env "root" none none (some "0 4294967295 4294967295\n")
        (some "4294967295 0 4294967295\n") [])).1
    { Idmap := [ { Isuid := true, Isgid := false, Nsid := 0, Hostid := 4294967295,
                   Maprange := 4294967295 },
                 { Isuid := false, Isgid := true, Nsid := 4294967295, Hostid := 0,
                   Maprange := 4294967295 } ] }
    (by decide)
    { Isuid := true, Isgid := false, Nsid := 0, Hostid := 4294967295, Maprange := 4294967295 }
    (by decide)

/-! ## The feature cache -/

theorem doUidshiftIntoContainer_cache (env : ShiftEnv)
    (ShiftIntoNs ShiftFromNs : Int → Int → Int × Int) (cache : Int) (dir : String)
    (testmode : Bool) (how : String) (skipper : Option (String → String → FileInfo → Bool)) :
    (doUidshiftIntoContainer env ShiftIntoNs ShiftFromNs cache dir testmode how
        skipper).VFS3Fscaps =
      if how = "in" ∧ cache = VFS3FscapsUnknown then
        (if env.SupportsVFS3Fscaps dir then VFS3FscapsSupported else VFS3FscapsUnsupported)
      else cache := by
  unfold doUidshiftIntoContainer
  simp only
  split
  · rfl
  · split <;> rfl

/-- Claim C18. A call of the shifter leaves a cache that holds supported or
unsupported as it is; a call with a direction other than `in` (so `out`)
never changes the cache; and a call with direction `in` that finds the cache
unknown leaves it supported or unsupported according to the probe, never
unknown. -/
theorem VFS3Fscaps_one_shot (env : ShiftEnv)
    (ShiftIntoNs ShiftFromNs : Int → Int → Int × Int) (cache : Int) (dir : String)
    (testmode : Bool) (how : String) (skipper : Option (String → String → FileInfo → Bool)) :
    (cache = VFS3FscapsSupported ∨ cache = VFS3FscapsUnsupported →
      (doUidshiftIntoContainer env ShiftIntoNs ShiftFromNs cache dir testmode how
          skipper).VFS3Fscaps = cache) ∧
    (how ≠ "in" →
      (doUidshiftIntoContainer env ShiftIntoNs ShiftFromNs cache dir testmode how
          skipper).VFS3Fscaps = cache) ∧
    (how = "in" → cache = VFS3FscapsUnknown →
      (doUidshiftIntoContainer env ShiftIntoNs ShiftFromNs cache dir testmode how
          skipper).VFS3Fscaps =
        (if env.SupportsVFS3Fscaps dir then VFS3FscapsSupported else VFS3FscapsUnsupported) ∧
      (doUidshiftIntoContainer env ShiftIntoNs ShiftFromNs cache dir testmode how
          skipper).VFS3Fscaps ≠ VFS3FscapsUnknown) := by
  rw [doUidshiftIntoContainer_cache]
  refine ⟨?_, ?_, ?_⟩
  · intro h
    have hne : cache ≠ VFS3FscapsUnknown := by
      rcases h with h | h <;> rw [h] <;> decide
    rw [if_neg (fun hc => hne hc.2)]
  · intro h
    rw [if_neg (fun hc => h hc.1)]
  · intro h1 h2
    rw [if_pos ⟨h1, h2⟩]
    refine ⟨rfl, ?_⟩
    split <;> decide

/-- Witness for C18: a call `in` on an unknown cache with a probe that
succeeds leaves `supported`; a second call `in` leaves it so. -/
theorem VFS3Fscaps_one_shot_witness :
    (doUidshiftIntoContainer (Example.shiftEnv (Example.file "/f" 1 1)) Example.into
        Example.from VFS3FscapsUnknown "/f" false "in" none).VFS3Fscaps = VFS3FscapsSupported ∧
    (doUidshiftIntoContainer (Example.shiftEnv (Example.file "/f" 1 1)) Example.into
        Example.from VFS3FscapsSupported "/f" false "in" none).VFS3Fscaps =
      VFS3FscapsSupported :=
  ⟨((VFS3Fscaps_one_shot (Example.shiftEnv (Example.file "/f" 1 1)) Example.into
      Example.from VFS3FscapsUnknown "/f" false "in" none).2.2 rfl rfl).1,
   (VFS3Fscaps_one_shot (Example.shiftEnv (Example.file "/f" 1 1)) Example.into
      Example.from VFS3FscapsSupported "/f" false "in" none).1 (Or.inl rfl)⟩

/-! ## The walk and the skip predicate -/

theorem convert_skips (c : Shift) (e : Entry) (hardLinks : List Nat) (h : c.skips e = true) :
    convert c e none hardLinks = ⟨some .SkipDir, hardLinks, []⟩ := by
  simp [convert, h]

theorem walkFn_skips (c : Shift) (e : Entry) (st : WalkState) (h : c.skips e = true) :
    c.walkFn e none st = (some .SkipDir, st) := by
  simp [Shift.walkFn, convert_skips c e st.hardLinks h]

theorem walkFn_err (c : Shift) (e : Entry) (code : Nat) (st : WalkState) :
    c.walkFn e (some code) st = (some (.sys code), st) := by
  simp [Shift.walkFn, convert]

/-- Claim C15. When the predicate returns true for a directory, `convert`
returns `filepath.SkipDir` at once, with no call made (no `Lstat`, no change
of owner, ACL or capabilities) and `hardLinks` untouched; the walk of that
directory ends there without a call for any entry below it, whatever the
directory holds; the loop over the parent goes on with the next name; and a
walk rooted at the directory returns nil. -/
theorem skipper_directory (c : Shift) (e : Entry) (names : List Tree)
    (hdir : e.fi.IsDir = true) (hskip : c.skips e = true) :
    (∀ hardLinks, convert c e none hardLinks = ⟨some .SkipDir, hardLinks, []⟩) ∧
    (∀ st, walk c.walkFn (.node e none none names) st = (some .SkipDir, st)) ∧
    (∀ st readDirErr, (walk c.walkFn (.node e none readDirErr names) st).2 = st) ∧
    (∀ st rest, walkNames c.walkFn (.node e none none names :: rest) st =
        walkNames c.walkFn rest st) ∧
    (∀ st, Walk c.walkFn (.node e none none names) st = (none, st)) := by
  have hw : ∀ st, walk c.walkFn (.node e none none names) st = (some .SkipDir, st) := by
    intro st
    rw [walk]
    simp [hdir, walkFn_skips c e st hskip]
  refine ⟨fun hl => convert_skips c e hl hskip, hw, ?_, ?_, ?_⟩
  · intro st readDirErr
    cases readDirErr with
    | none => rw [hw]
    | some code =>
      rw [walk]
      simp [hdir, walkFn_err]
  · intro st rest
    rw [walkNames]
    simp [Tree.lstatErr, Tree.entry, hw, hdir]
  · intro st
    simp [Walk, Tree.lstatErr, hw]

/-- Witness for C15: the directory `/r/d` is skipped; its file `/r/d/x` gets
no call, the file `/r/e` after it is shifted. -/
theorem skipper_directory_witness :
    (doUidshiftIntoContainer
        (Example.shiftEnv
          (Example.dir "/r" 1
            [Example.dir "/r/d" 2 [Example.file "/r/d/x" 1 3], Example.file "/r/e" 1 4]))
        Example.into Example.from VFS3FscapsUnknown "/r" false "out"
        (some fun _ path _ => path == "/r/d")).calls =
      [ .Lstat "/r", .GetCaps "/r", .ShiftOwner "/r" "/r" 100000 100000, .ShiftACL "/r",
        .Lstat "/r/e", .GetCaps "/r/e", .ShiftOwner "/r" "/r/e" 100000 100000,
        .ShiftACL "/r/e" ] ∧
    walk
        (Shift.walkFn
          { ShiftIntoNs := Example.into, ShiftFromNs := Example.from, dir := "/r",
            testmode := false, how := "out",
            skipper := some fun _ path _ => path == "/r/d", VFS3Fscaps := VFS3FscapsUnknown })
        (Example.dir "/r/d" 2 [Example.file "/r/d/x" 1 3])
        { hardLinks := [], calls := [] } =
      (some .SkipDir, { hardLinks := [], calls := [] }) :=
  ⟨by decide,
   (skipper_directory
      { ShiftIntoNs := Example.into, ShiftFromNs := Example.from, dir := "/r",
        testmode := false, how := "out",
        skipper := some fun _ path _ => path == "/r/d", VFS3Fscaps := VFS3FscapsUnknown }
      { path := "/r/d", fi := { IsDir := true, symlink := false },
        Lstat := .ok { Nlink := 2, Ino := 2, Uid := 0, Gid := 0 },
        GetCaps := .ok [], ShiftOwner := none, ShiftACL := none, SetCaps := none }
      [Example.file "/r/d/x" 1 3] rfl (by decide)).2.1 _⟩

/-- When the predicate returns true for an entry that is not a directory,
`convert` returns `filepath.SkipDir` and the loop over the names of the
parent directory returns it at once: the names after the entry are not
visited. -/
theorem walkNames_skipped_file (c : Shift) (e : Entry) (readDirErr : Option Nat)
    (names rest : List Tree) (st : WalkState)
    (hfile : e.fi.IsDir = false) (hskip : c.skips e = true) :
    walkNames c.walkFn (.node e none readDirErr names :: rest) st = (some .SkipDir, st) := by
  have hw : walk c.walkFn (.node e none readDirErr names) st = (some .SkipDir, st) := by
    rw [walk]
    simp [hfile, walkFn_skips c e st hskip]
  rw [walkNames]
  simp [Tree.lstatErr, Tree.entry, hw, hfile]

/-- Claim C16, at an input where it fails.  The directory `/r` holds the
files `/r/a` and `/r/b`; the predicate returns true for `/r/a` only.  The
claim expects `/r/b` to be shifted.  `convert` answers `/r/a` with
`filepath.SkipDir`, which for an entry that is not a directory makes
`filepath.Walk` leave the parent directory: the call returns nil and
`/r/b` gets no call at all.  Without the predicate both files are
shifted. -/
theorem skipper_file_skips_rest :
    (doUidshiftIntoContainer
        (Example.shiftEnv
          (Example.dir "/r" 1 [Example.file "/r/a" 1 2, Example.file "/r/b" 1 3]))
        Example.into Example.from VFS3FscapsUnknown "/r" false "out"
        (some fun _ path _ => path == "/r/a")).err = none ∧
    (doUidshiftIntoContainer
        (Example.shiftEnv
          (Example.dir "/r" 1 [Example.file "/r/a" 1 2, Example.file "/r/b" 1 3]))
        Example.into Example.from VFS3FscapsUnknown "/r" false "out"
        (some fun _ path _ => path == "/r/a")).calls =
      [ .Lstat "/r", .GetCaps "/r", .ShiftOwner "/r" "/r" 100000 100000, .ShiftACL "/r" ] ∧
    (doUidshiftIntoContainer
        (Example.shiftEnv
          (Example.dir "/r" 1 [Example.file "/r/a" 1 2, Example.file "/r/b" 1 3]))
        Example.into Example.from VFS3FscapsUnknown "/r" false "out" none).calls =
      [ .Lstat "/r", .GetCaps "/r", .ShiftOwner "/r" "/r" 100000 100000, .ShiftACL "/r",
        .Lstat "/r/a", .GetCaps "/r/a", .ShiftOwner "/r" "/r/a" 100000 100000,
        .ShiftACL "/r/a",
        .Lstat "/r/b", .GetCaps "/r/b", .ShiftOwner "/r" "/r/b" 100000 100000,
        .ShiftACL "/r/b" ] := by
  decide

/-! ## Errors of the per-entry step -/

/-- The return value of the shift step, by the outcome of its operations: nil
in test mode; otherwise the first failure among reading the capabilities
(not for a symlink), changing the owner and shifting the ACLs (not for a
symlink), and nil without one.  The outcome of `SetCaps` does not occur. -/
theorem convert_shift_err (c : Shift) (e : Entry) (stat : Stat) (hardLinks : List Nat)
    (calls : List Call) :
    (convert.shift c e stat hardLinks calls).err =
      if c.testmode then none
      else if e.fi.symlink then
        (match e.ShiftOwner with
         | some code => some (.sys code)
         | none => none)
      else
        match e.GetCaps with
        | .error code => some (.sys code)
        | .ok _ =>
          match e.ShiftOwner with
          | some code => some (.sys code)
          | none =>
            match e.ShiftACL with
            | some code => some (.sys code)
            | none => none := by
  obtain ⟨into, frm, dir, testmode, how, skipper, cache⟩ := c
  obtain ⟨path, ⟨isDir, symlink⟩, lstat, getCaps, shiftOwner, shiftACL, setCaps⟩ := e
  cases testmode <;> cases symlink <;> cases getCaps <;> cases shiftOwner <;>
    cases shiftACL <;> cases setCaps <;> simp [convert.shift] <;> split_ifs <;> rfl

theorem convert_shift_hardLinks (c : Shift) (e : Entry) (stat : Stat) (hardLinks : List Nat)
    (calls : List Call) : (convert.shift c e stat hardLinks calls).hardLinks = hardLinks := by
  obtain ⟨into, frm, dir, testmode, how, skipper, cache⟩ := c
  obtain ⟨path, ⟨isDir, symlink⟩, lstat, getCaps, shiftOwner, shiftACL, setCaps⟩ := e
  cases testmode <;> cases symlink <;> cases getCaps <;> cases shiftOwner <;>
    cases shiftACL <;> cases setCaps <;> simp [convert.shift] <;> split_ifs <;> rfl

/-- The return value of `convert`, by the outcome of its operations. -/
theorem convert_err (c : Shift) (e : Entry) (err : Option Nat) (hardLinks : List Nat) :
    (convert c e err hardLinks).err =
      match err with
      | some code => some (.sys code)
      | none =>
        if c.skips e then some .SkipDir
        else
          match e.Lstat with
          | .error code => some (.sys code)
          | .ok stat =>
            if stat.Nlink ≥ 2 ∧ hardLinks.contains stat.Ino = true then none
            else (convert.shift c e stat [] []).err := by
  unfold convert
  cases err with
  | some code => rfl
  | none =>
    simp only
    cases hs : c.skips e
    · simp only [Bool.false_eq_true, if_false]
      cases e.Lstat with
      | error code => rfl
      | ok stat =>
        simp only
        by_cases hn : stat.Nlink ≥ 2
        · by_cases hc : hardLinks.contains stat.Ino = true
          · rw [if_pos hn, if_pos hc, if_pos ⟨hn, hc⟩]
          · rw [if_pos hn, if_neg hc, if_neg (fun h => hc h.2)]
            simp only [convert_shift_err]
        · rw [if_neg hn, if_neg (fun h => hn h.1)]
          simp only [convert_shift_err]
    · simp

/-- An error of the walk function at the entry of a tree is what the walk of
the tree returns; nothing below the entry is visited. -/
theorem walk_abort {σ : Type} (walkFn : Entry → Option Nat → σ → Option ShiftErr × σ)
    (e : Entry) (lstatErr readDirErr : Option Nat) (names : List Tree) (st st2 : σ)
    (err : ShiftErr)
    (h : walkFn e (if e.fi.IsDir then readDirErr else none) st = (some err, st2)) :
    walk walkFn (.node e lstatErr readDirErr names) st = (some err, st2) := by
  rw [walk]
  cases hd : e.fi.IsDir
  · rw [hd] at h
    simpa using h
  · rw [hd] at h
    simp only [Bool.true_eq_false, if_false, if_true] at h
    simp [h]

/-- An error other than `SkipDir` from the walk of a name ends the loop over
the names: the names after it are not visited. -/
theorem walkNames_abort {σ : Type} (walkFn : Entry → Option Nat → σ → Option ShiftErr × σ)
    (t : Tree) (rest : List Tree) (st st2 : σ) (code : Nat)
    (hl : t.lstatErr = none) (h : walk walkFn t st = (some (.sys code), st2)) :
    walkNames walkFn (t :: rest) st = (some (.sys code), st2) := by
  rw [walkNames]
  simp [hl, h]

/-- An error other than `SkipDir` from the walk of the root is what
`filepath.Walk` returns. -/
theorem Walk_abort {σ : Type} (fn : Entry → Option Nat → σ → Option ShiftErr × σ)
    (root : Tree) (st st2 : σ) (code : Nat)
    (hl : root.lstatErr = none) (h : walk fn root st = (some (.sys code), st2)) :
    Walk fn root st = (some (.sys code), st2) := by
  simp [Walk, hl, h]

/-- A name whose walk returns nil is followed by the next name. -/
theorem walkNames_continue {σ : Type}
    (walkFn : Entry → Option Nat → σ → Option ShiftErr × σ)
    (t : Tree) (rest : List Tree) (st st2 : σ)
    (hl : t.lstatErr = none) (h : walk walkFn t st = (none, st2)) :
    walkNames walkFn (t :: rest) st = walkNames walkFn rest st2 := by
  rw [walkNames]
  simp [hl, h]
/-- Claim C17. Outside test mode, for an entry the predicate does not skip:
the return value of `convert` is the same whatever the outcome of `SetCaps`;
when `Lstat`, reading the capabilities, changing the owner and shifting the
ACLs succeed, `convert` returns nil and the walk goes on with the next name;
a failure of `Lstat`, of reading the capabilities, of changing the owner or
of shifting the ACLs is returned by `convert`, and the walk returns it
without visiting anything more. -/
theorem SetCaps_failure_is_advisory (c : Shift) (e : Entry) (stat : Stat)
    (hardLinks : List Nat) (htest : c.testmode = false) (hskip : c.skips e = false) :
    (∀ err outcome,
        (convert c { e with SetCaps := outcome } err hardLinks).err =
          (convert c e err hardLinks).err) ∧
    (e.Lstat = .ok stat → (e.fi.symlink = true ∨ ∃ caps, e.GetCaps = .ok caps) →
        e.ShiftOwner = none → (e.fi.symlink = true ∨ e.ShiftACL = none) →
        (convert c e none hardLinks).err = none) ∧
    (∀ code, e.Lstat = .error code →
        (convert c e none hardLinks).err = some (.sys code)) ∧
    (e.Lstat = .ok stat → ¬ (stat.Nlink ≥ 2 ∧ hardLinks.contains stat.Ino = true) →
        (∀ code, e.fi.symlink = false → e.GetCaps = .error code →
            (convert c e none hardLinks).err = some (.sys code)) ∧
        (∀ code, (e.fi.symlink = true ∨ ∃ caps, e.GetCaps = .ok caps) →
            e.ShiftOwner = some code →
            (convert c e none hardLinks).err = some (.sys code)) ∧
        (∀ code, e.fi.symlink = false → (∃ caps, e.GetCaps = .ok caps) →
            e.ShiftOwner = none → e.ShiftACL = some code →
            (convert c e none hardLinks).err = some (.sys code))) ∧
    (∀ names rest st code, (c.walkFn e none st).1 = some (.sys code) →
        walkNames c.walkFn (.node e none none names :: rest) st = c.walkFn e none st ∧
        Walk c.walkFn (.node e none none names) st = c.walkFn e none st) ∧
    (∀ names rest st, e.fi.IsDir = false → (c.walkFn e none st).1 = none →
        walkNames c.walkFn (.node e none none names :: rest) st =
          walkNames c.walkFn rest (c.walkFn e none st).2) := by
  refine ⟨?_, ?_, ?_, ?_, ?_, ?_⟩
  · intro err outcome
    simp only [convert_err, convert_shift_err, Shift.skips]
  · intro hstat hcaps howner hacl
    rw [convert_err]
    simp only [hskip, hstat, Bool.false_eq_true, if_false, convert_shift_err, htest, howner]
    split
    · rfl
    · rcases hcaps with hs | ⟨caps, hc⟩
      · simp [hs]
      · rcases hacl with hs | ha
        · simp [hs]
        · simp [hc, ha]
  · intro code hstat
    rw [convert_err]
    simp only [hskip, hstat, Bool.false_eq_true, if_false]
  · intro hstat hnot
    refine ⟨?_, ?_, ?_⟩
    · intro code hs hc
      rw [convert_err]
      simp only [hskip, hstat, Bool.false_eq_true, if_false, if_neg hnot, convert_shift_err,
        htest, hs, hc]
    · intro code hcaps howner
      rw [convert_err]
      simp only [hskip, hstat, Bool.false_eq_true, if_false, if_neg hnot, convert_shift_err,
        htest, howner]
      rcases hcaps with hs | ⟨caps, hc⟩
      · simp [hs]
      · cases e.fi.symlink <;> simp [hc]
    · intro code hs hcaps howner hacl
      obtain ⟨caps, hc⟩ := hcaps
      rw [convert_err]
      simp only [hskip, hstat, Bool.false_eq_true, if_false, if_neg hnot, convert_shift_err,
        htest, hs, hc, howner, hacl]
  · intro names rest st code h
    have hw : walk c.walkFn (.node e none none names) st = c.walkFn e none st := by
      have h2 : c.walkFn e (if e.fi.IsDir then none else none) st =
          (some (.sys code), (c.walkFn e none st).2) := by
        rw [ite_self, ← h]
      rw [walk_abort c.walkFn e none none names st _ (.sys code) h2, ← h]
    have h3 : walk c.walkFn (.node e none none names) st =
        (some (.sys code), (c.walkFn e none st).2) := by
      rw [hw, ← h]
    constructor
    · rw [walkNames_abort c.walkFn (.node e none none names) rest st _ code rfl h3, ← h]
    · rw [Walk_abort c.walkFn (.node e none none names) st _ code rfl h3, ← h]
  · intro names rest st hfile h
    have hw : walk c.walkFn (.node e none none names) st = (none, (c.walkFn e none st).2) := by
      rw [walk]
      simp only [hfile, Bool.not_false, if_true]
      rw [← h]
    exact walkNames_continue c.walkFn (.node e none none names) rest st _ rfl hw

/-- Witness for C17: a file with capabilities on which `SetCaps` fails; the
step makes all its calls, warns, and returns nil. -/
theorem SetCaps_failure_is_advisory_witness :
    (convert
        { ShiftIntoNs := Example.into, ShiftFromNs := Example.from, dir := "/r",
          testmode := false, how := "out", skipper := none, VFS3Fscaps := VFS3FscapsUnknown }
        { path := "/r/ping", fi := { IsDir := false, symlink := false },
          Lstat := .ok { Nlink := 1, Ino := 9, Uid := 0, Gid := 0 },
          GetCaps := .ok [1, 2, 3], ShiftOwner := none, ShiftACL := none, SetCaps := some 1 }
        none []).err = none ∧
    (convert
        { ShiftIntoNs := Example.into, ShiftFromNs := Example.from, dir := "/r",
          testmode := false, how := "out", skipper := none, VFS3Fscaps := VFS3FscapsUnknown }
        { path := "/r/ping", fi := { IsDir := false, symlink := false },
          Lstat := .ok { Nlink := 1, Ino := 9, Uid := 0, Gid := 0 },
          GetCaps := .ok [1, 2, 3], ShiftOwner := none, ShiftACL := none, SetCaps := some 1 }
        none []).calls =
      [ .Lstat "/r/ping", .GetCaps "/r/ping", .ShiftOwner "/r" "/r/ping" 100000 100000,
        .ShiftACL "/r/ping", .SetCaps "/r/ping" [1, 2, 3] 0, .Warnf "/r/ping" 1 ] :=
  ⟨(SetCaps_failure_is_advisory
      { ShiftIntoNs := Example.into, ShiftFromNs := Example.from, dir := "/r",
        testmode := false, how := "out", skipper := none, VFS3Fscaps := VFS3FscapsUnknown }
      { path := "/r/ping", fi := { IsDir := false, symlink := false },
        Lstat := .ok { Nlink := 1, Ino := 9, Uid := 0, Gid := 0 },
        GetCaps := .ok [1, 2, 3], ShiftOwner := none, ShiftACL := none, SetCaps := some 1 }
      { Nlink := 1, Ino := 9, Uid := 0, Gid := 0 } [] rfl rfl).2.1 rfl
      (Or.inr ⟨[1, 2, 3], rfl⟩) rfl (Or.inr rfl),
   by decide⟩

/-! ## Hard links -/

theorem convert_shift_owner_calls (c : Shift) (e : Entry) (stat : Stat) (hardLinks : List Nat)
    (calls : List Call) :
    (convert.shift c e stat hardLinks calls).calls.countP Call.isShiftOwner ≤
      calls.countP Call.isShiftOwner + 1 := by
  obtain ⟨into, frm, dir, testmode, how, skipper, cache⟩ := c
  obtain ⟨path, ⟨isDir, symlink⟩, lstat, getCaps, shiftOwner, shiftACL, setCaps⟩ := e
  cases testmode <;> cases symlink <;> cases getCaps <;> cases shiftOwner <;>
    cases shiftACL <;> cases setCaps <;>
    simp [convert.shift, List.countP_append, Call.isShiftOwner] <;> split_ifs <;>
    simp [List.countP_append, Call.isShiftOwner]

/-- The slice `hardLinks` after one call of `convert`: the inode the visit
brings to the hard-link check is appended unless the slice holds it. -/
theorem convert_hardLinks (c : Shift) (e : Entry) (err : Option Nat) (hardLinks : List Nat) :
    (convert c e err hardLinks).hardLinks =
      match c.recorded (e, err) with
      | some ino => if hardLinks.contains ino then hardLinks else hardLinks ++ [ino]
      | none => hardLinks := by
  unfold convert Shift.recorded
  cases err with
  | some code => rfl
  | none =>
    simp only
    cases hs : c.skips e
    · simp only [Bool.false_eq_true, if_false]
      cases e.Lstat with
      | error code => rfl
      | ok stat =>
        simp only
        by_cases hn : stat.Nlink ≥ 2
        · rw [if_pos hn, if_pos hn]
          simp only
          by_cases hc : hardLinks.contains stat.Ino = true
          · rw [if_pos hc, if_pos hc]
          · rw [if_neg hc, if_neg hc, convert_shift_hardLinks]
        · rw [if_neg hn, if_neg hn, convert_shift_hardLinks]
    · simp

/-- An entry whose inode the slice already holds is left with nil after the
`Lstat`, with no other call and the slice as it was. -/
theorem convert_recorded_mem (c : Shift) (e : Entry) (hardLinks : List Nat) (ino : Nat)
    (hr : c.recorded (e, none) = some ino) (hmem : ino ∈ hardLinks) :
    convert c e none hardLinks = ⟨none, hardLinks, [.Lstat e.path]⟩ := by
  unfold Shift.recorded at hr
  unfold convert
  simp only at hr ⊢
  cases hs : c.skips e
  · simp only [hs, Bool.false_eq_true, if_false] at hr ⊢
    cases hl : e.Lstat with
    | error code => simp [hl] at hr
    | ok stat =>
      simp only [hl] at hr ⊢
      by_cases hn : stat.Nlink ≥ 2
      · rw [if_pos hn] at hr
        injection hr with hr
        subst hr
        have hc : hardLinks.contains stat.Ino = true := by simpa using hmem
        rw [if_pos hn, if_pos hc]
      · rw [if_neg hn] at hr
        exact absurd hr (by simp)
  · simp [hs] at hr

theorem hardLinksAfter_mem (c : Shift) (vs : List (Entry × Option Nat)) (hardLinks : List Nat)
    (ino : Nat) :
    ino ∈ hardLinksAfter c vs hardLinks ↔
      ino ∈ hardLinks ∨ ∃ v ∈ vs, c.recorded v = some ino := by
  induction vs generalizing hardLinks with
  | nil => simp [hardLinksAfter]
  | cons v rest ih =>
    rw [hardLinksAfter, ih, convert_hardLinks]
    cases hr : c.recorded (v.1, v.2) with
    | none =>
      have hr' : c.recorded v = none := hr
      simp only [List.mem_cons, exists_eq_or_imp, hr', false_or]
      constructor
      · rintro (h | h)
        · exact Or.inl h
        · exact Or.inr (Or.inr h)
      · rintro (h | h | h)
        · exact Or.inl h
        · exact absurd h (by simp)
        · exact Or.inr h
    | some i =>
      have hr' : c.recorded v = some i := hr
      simp only [List.mem_cons, exists_eq_or_imp, hr', Option.some.injEq]
      by_cases hc : hardLinks.contains i = true
      · rw [if_pos hc]
        have hmem : i ∈ hardLinks := by simpa using hc
        constructor
        · rintro (h | h)
          · exact Or.inl h
          · exact Or.inr (Or.inr h)
        · rintro (h | h | h)
          · exact Or.inl h
          · exact Or.inl (h ▸ hmem)
          · exact Or.inr h
      · rw [if_neg hc]
        simp only [List.mem_append, List.mem_singleton]
        constructor
        · rintro ((h | h) | h)
          · exact Or.inl h
          · exact Or.inr (Or.inl h.symm)
          · exact Or.inr (Or.inr h)
        · rintro (h | h | h)
          · exact Or.inl (Or.inl h)
          · exact Or.inl (Or.inr h.symm)
          · exact Or.inr h

theorem hardLinksAfter_nodup (c : Shift) (vs : List (Entry × Option Nat))
    (hardLinks : List Nat) (h : hardLinks.Nodup) : (hardLinksAfter c vs hardLinks).Nodup := by
  induction vs generalizing hardLinks with
  | nil => exact h
  | cons v rest ih =>
    rw [hardLinksAfter]
    apply ih
    rw [convert_hardLinks]
    cases c.recorded (v.1, v.2) with
    | none => exact h
    | some i =>
      simp only
      by_cases hc : hardLinks.contains i = true
      · rw [if_pos hc]
        exact h
      · rw [if_neg hc]
        have hmem : i ∉ hardLinks := by simpa using hc
        rw [List.nodup_append]
        exact ⟨h, List.nodup_singleton i, by
          intro a ha hb
          simp only [List.mem_singleton] at hb
          exact hmem (hb ▸ ha)⟩

theorem hardLinksAfter_append (c : Shift) (vs ws : List (Entry × Option Nat))
    (hardLinks : List Nat) :
    hardLinksAfter c (vs ++ ws) hardLinks = hardLinksAfter c ws (hardLinksAfter c vs hardLinks) := by
  induction vs generalizing hardLinks with
  | nil => rfl
  | cons v rest ih =>
    rw [List.cons_append, hardLinksAfter, hardLinksAfter, ih]

theorem convert_owner_calls (c : Shift) (e : Entry) (err : Option Nat) (hardLinks : List Nat) :
    (convert c e err hardLinks).calls.countP Call.isShiftOwner ≤ 1 := by
  have hs : ∀ stat hl,
      (convert.shift c e stat hl [.Lstat e.path]).calls.countP Call.isShiftOwner ≤ 1 := by
    intro stat hl
    have := convert_shift_owner_calls c e stat hl [.Lstat e.path]
    simpa [Call.isShiftOwner] using this
  unfold convert
  cases err with
  | some code => simp
  | none =>
    simp only
    split
    · simp
    · split
      · simp [Call.isShiftOwner]
      · split
        · split
          · simp [Call.isShiftOwner]
          · exact hs _ _
        · exact hs _ _

theorem convert_hardLinks_mono (c : Shift) (e : Entry) (err : Option Nat)
    (hardLinks : List Nat) (ino : Nat) (h : ino ∈ hardLinks) :
    ino ∈ (convert c e err hardLinks).hardLinks := by
  rw [convert_hardLinks]
  cases c.recorded (e, err) with
  | none => exact h
  | some i =>
    simp only
    split
    · exact h
    · exact List.mem_append_left _ h

/-- Once the slice holds an inode, no later visit of an entry with that inode
calls the ownership setter. -/
theorem ownerCalls_mem (c : Shift) (ino : Nat) (vs : List (Entry × Option Nat))
    (hardLinks : List Nat) (h : ino ∈ hardLinks) : ownerCalls c ino vs hardLinks = 0 := by
  induction vs generalizing hardLinks with
  | nil => rfl
  | cons v rest ih =>
    rw [ownerCalls, ih _ (convert_hardLinks_mono c v.1 v.2 hardLinks ino h)]
    by_cases hr : c.recorded v = some ino
    · rw [if_pos hr]
      obtain ⟨e, err⟩ := v
      have herr : err = none := by
        cases err with
        | none => rfl
        | some code => simp [Shift.recorded] at hr
      subst herr
      rw [convert_recorded_mem c e hardLinks ino hr h]
      simp [Call.isShiftOwner]
    · rw [if_neg hr]

/-- Along any sequence of visits the ownership setter is called at most once
for the entries that bring a given inode to the hard-link check. -/
theorem ownerCalls_le_one (c : Shift) (ino : Nat) (vs : List (Entry × Option Nat))
    (hardLinks : List Nat) : ownerCalls c ino vs hardLinks ≤ 1 := by
  induction vs generalizing hardLinks with
  | nil => simp [ownerCalls]
  | cons v rest ih =>
    by_cases hmem : ino ∈ hardLinks
    · rw [ownerCalls_mem c ino _ hardLinks hmem]
      exact Nat.zero_le 1
    · rw [ownerCalls]
      by_cases hr : c.recorded v = some ino
      · rw [if_pos hr]
        have hafter : ino ∈ (convert c v.1 v.2 hardLinks).hardLinks := by
          rw [convert_hardLinks]
          have hr' : c.recorded (v.1, v.2) = some ino := hr
          rw [hr']
          have hc : ¬ hardLinks.contains ino = true := by simpa using hmem
          simp only [if_neg hc]
          simp
        rw [ownerCalls_mem c ino rest _ hafter]
        exact convert_owner_calls c v.1 v.2 hardLinks
      · rw [if_neg hr, Nat.zero_add]
        exact ih _

theorem visitAll_append {σ : Type} (walkFn : Entry → Option Nat → σ → Option ShiftErr × σ)
    (vs ws : List (Entry × Option Nat)) (st : σ) :
    visitAll walkFn (vs ++ ws) st = visitAll walkFn ws (visitAll walkFn vs st) := by
  induction vs generalizing st with
  | nil => rfl
  | cons v rest ih => rw [List.cons_append, visitAll, visitAll, ih]

/-- The state a walk leaves is the state after the walk function has been
called along a sequence of visits: the walk does nothing to the state but
call the walk function. -/
theorem walk_visits {σ : Type} (walkFn : Entry → Option Nat → σ → Option ShiftErr × σ) :
    (∀ (t : Tree) (st : σ), ∃ vs, (walk walkFn t st).2 = visitAll walkFn vs st) ∧
    (∀ (ts : List Tree) (st : σ), ∃ vs, (walkNames walkFn ts st).2 = visitAll walkFn vs st) := by
  apply walk.mutual_induct walkFn
    (fun t st => ∃ vs, (walk walkFn t st).2 = visitAll walkFn vs st)
    (fun ts st => ∃ vs, (walkNames walkFn ts st).2 = visitAll walkFn vs st)
  · intro e lstatErr readDirErr names st h
    refine ⟨[(e, none)], ?_⟩
    rw [walk, if_pos h]
    rfl
  · intro e lstatErr readDirErr names st h r hr
    refine ⟨[(e, readDirErr)], ?_⟩
    rw [walk, if_neg h]
    simp only
    rw [if_pos hr]
    rfl
  · intro e lstatErr readDirErr names st h r hr ih
    obtain ⟨vs, hvs⟩ := ih
    refine ⟨(e, readDirErr) :: vs, ?_⟩
    rw [walk, if_neg h]
    simp only
    rw [if_neg hr, hvs]
    rfl
  · intro st
    exact ⟨[], by rw [walkNames]; rfl⟩
  · intro t rest st code hl r hr
    refine ⟨[(t.entry, some code)], ?_⟩
    rw [walkNames]
    simp only [hl]
    rw [if_pos hr]
    rfl
  · intro t rest st code hl r hr ih
    obtain ⟨vs, hvs⟩ := ih
    refine ⟨(t.entry, some code) :: vs, ?_⟩
    rw [walkNames]
    simp only [hl]
    rw [if_neg hr, hvs]
    rfl
  · intro t rest st hl r hr hr2 ih
    obtain ⟨vs, hvs⟩ := ih
    refine ⟨vs, ?_⟩
    rw [walkNames]
    simp only [hl]
    rw [if_pos hr, if_pos hr2, hvs]
  · intro t rest st hl r hr hr2 ih1 ih2
    obtain ⟨vs, hvs⟩ := ih1
    obtain ⟨ws, hws⟩ := ih2
    refine ⟨vs ++ ws, ?_⟩
    rw [walkNames]
    simp only [hl]
    rw [if_pos hr, if_neg hr2, hws, visitAll_append, ← hvs]
  · intro t rest st hl r hr ih1 ih2
    obtain ⟨vs, hvs⟩ := ih1
    obtain ⟨ws, hws⟩ := ih2
    refine ⟨vs ++ ws, ?_⟩
    rw [walkNames]
    simp only [hl]
    rw [if_neg hr, hws, visitAll_append, ← hvs]

/-- The state `filepath.Walk` leaves is the state after the function has
been called along a sequence of visits. -/
theorem Walk_visits {σ : Type} (fn : Entry → Option Nat → σ → Option ShiftErr × σ)
    (root : Tree) (st : σ) : ∃ vs, (Walk fn root st).2 = visitAll fn vs st := by
  have hw : ∃ vs,
      (match root.lstatErr with
        | some code => fn root.entry (some code) st
        | none => walk fn root st).2 = visitAll fn vs st := by
    cases root.lstatErr with
    | some code => exact ⟨[(root.entry, some code)], rfl⟩
    | none => exact (walk_visits fn).1 root st
  obtain ⟨vs, hvs⟩ := hw
  refine ⟨vs, ?_⟩
  unfold Walk
  simp only
  split
  · exact hvs
  · exact hvs

theorem visitAll_hardLinks (c : Shift) (vs : List (Entry × Option Nat)) (st : WalkState) :
    (visitAll c.walkFn vs st).hardLinks = hardLinksAfter c vs st.hardLinks := by
  induction vs generalizing st with
  | nil => rfl
  | cons v rest ih =>
    rw [visitAll, hardLinksAfter, ih]
    rfl

theorem recorded_iff (c : Shift) (v : Entry × Option Nat) (ino : Nat) :
    c.recorded v = some ino ↔
      v.2 = none ∧ c.skips v.1 = false ∧
        ∃ s, v.1.Lstat = .ok s ∧ 2 ≤ s.Nlink ∧ s.Ino = ino := by
  obtain ⟨e, err⟩ := v
  unfold Shift.recorded
  cases err with
  | some code => simp
  | none =>
    simp only [true_and]
    cases hs : c.skips e
    · simp only [Bool.false_eq_true, if_false, true_and]
      cases hl : e.Lstat with
      | error code => simp
      | ok stat =>
        simp only [Except.ok.injEq, exists_eq_left']
        by_cases hn : stat.Nlink ≥ 2
        · rw [if_pos hn]
          constructor
          · intro h
            injection h with h
            exact ⟨hn, h⟩
          · intro h
            rw [h.2]
        · rw [if_neg hn]
          constructor
          · intro h
            exact absurd h (by simp)
          · intro h
            exact absurd h.1 hn
    · simp

/-- Claim C14. Along the visits of one call, which share the slice
`hardLinks` that starts empty: an entry with link count at least two that
reaches the hard-link check is left after its `Lstat`, with nil, no further
call and the slice unchanged, exactly when an earlier visit, not skipped by
the predicate, was of an entry with link count at least two and the same
inode; an entry with link count one is never recorded and never left by
this rule; the slice never holds an inode twice; the ownership setter is
called at most once for the entries that bring a given inode to the check;
and the slice a walk leaves is that of a sequence of visits. -/
theorem hardLinks_dedup (c : Shift) (pre : List (Entry × Option Nat)) (e : Entry) (stat : Stat)
    (hskip : c.skips e = false) (hstat : e.Lstat = .ok stat) :
    (2 ≤ stat.Nlink →
      (convert c e none (hardLinksAfter c pre []) =
          ⟨none, hardLinksAfter c pre [], [.Lstat e.path]⟩ ↔
        ∃ v ∈ pre, v.2 = none ∧ c.skips v.1 = false ∧
          ∃ s, v.1.Lstat = .ok s ∧ 2 ≤ s.Nlink ∧ s.Ino = stat.Ino)) ∧
    (stat.Nlink < 2 →
      ∀ hardLinks,
        convert c e none hardLinks = convert.shift c e stat hardLinks [.Lstat e.path] ∧
        (convert c e none hardLinks).hardLinks = hardLinks) ∧
    (∀ vs, (hardLinksAfter c vs []).Nodup) ∧
    (∀ ino vs, ownerCalls c ino vs [] ≤ 1) ∧
    (∀ root, ∃ vs,
      (Walk c.walkFn root { hardLinks := [], calls := [] }).2.hardLinks =
        hardLinksAfter c vs []) := by
  refine ⟨?_, ?_, ?_, ?_, ?_⟩
  · intro hn
    have hr : c.recorded (e, none) = some stat.Ino :=
      (recorded_iff c (e, none) stat.Ino).mpr ⟨rfl, hskip, stat, hstat, hn, rfl⟩
    have hmem := hardLinksAfter_mem c pre [] stat.Ino
    simp only [List.not_mem_nil, false_or] at hmem
    have hiff : (∃ v ∈ pre, v.2 = none ∧ c.skips v.1 = false ∧
          ∃ s, v.1.Lstat = .ok s ∧ 2 ≤ s.Nlink ∧ s.Ino = stat.Ino) ↔
        stat.Ino ∈ hardLinksAfter c pre [] := by
      rw [hmem]
      constructor
      · rintro ⟨v, hv, h⟩
        exact ⟨v, hv, (recorded_iff c v stat.Ino).mpr h⟩
      · rintro ⟨v, hv, h⟩
        exact ⟨v, hv, (recorded_iff c v stat.Ino).mp h⟩
    rw [hiff]
    constructor
    · intro hc
      by_contra hno
      have hh := convert_hardLinks c e none (hardLinksAfter c pre [])
      rw [hr, hc] at hh
      have hcn : ¬ (hardLinksAfter c pre []).contains stat.Ino = true := by simpa using hno
      simp only [if_neg hcn] at hh
      have hlen := congrArg List.length hh
      simp at hlen
    · intro hin
      exact convert_recorded_mem c e _ stat.Ino hr hin
  · intro hn hardLinks
    have hc : convert c e none hardLinks = convert.shift c e stat hardLinks [.Lstat e.path] := by
      unfold convert
      simp only [hskip, hstat, Bool.false_eq_true, if_false]
      rw [if_neg (by omega)]
    exact ⟨hc, by rw [hc, convert_shift_hardLinks]⟩
  · intro vs
    exact hardLinksAfter_nodup c vs [] List.nodup_nil
  · intro ino vs
    exact ownerCalls_le_one c ino vs []
  · intro root
    obtain ⟨vs, hvs⟩ := Walk_visits c.walkFn root { hardLinks := [], calls := [] }
    exact ⟨vs, by rw [hvs, visitAll_hardLinks]⟩

/-- Witness for C14: scenario S5 of the specification, the tree with `a`, a
hard link to `a`, and `b`; the hard link is left after its `Lstat`, and the
whole call changes the owner of `a` and of `b` once each. -/
theorem hardLinks_dedup_witness :
    convert
        { ShiftIntoNs := Example.into, ShiftFromNs := Example.from, dir := "/r",
          testmode := false, how := "out", skipper := none, VFS3Fscaps := VFS3FscapsSupported }
        (Example.file "/r/a-hardlink" 2 7).entry none
        (hardLinksAfter
          { ShiftIntoNs := Example.into, ShiftFromNs := Example.from, dir := "/r",
            testmode := false, how := "out", skipper := none, VFS3Fscaps := VFS3FscapsSupported }
          [((Example.file "/r/a" 2 7).entry, none)] []) =
      ⟨none,
       hardLinksAfter
          { ShiftIntoNs := Example.into, ShiftFromNs := Example.from, dir := "/r",
            testmode := false, how := "out", skipper := none, VFS3Fscaps := VFS3FscapsSupported }
          [((Example.file "/r/a" 2 7).entry, none)] [],
       [.Lstat "/r/a-hardlink"]⟩ ∧
    (doUidshiftIntoContainer
        (Example.shiftEnv
          (Example.dir "/r" 1
            [Example.file "/r/a" 2 7, Example.file "/r/a-hardlink" 2 7, Example.file "/r/b" 1 8]))
        Example.into Example.from VFS3FscapsSupported "/r" false "out" none).calls =
      [ .Lstat "/r", .GetCaps "/r", .ShiftOwner "/r" "/r" 100000 100000, .ShiftACL "/r",
        .Lstat "/r/a", .GetCaps "/r/a", .ShiftOwner "/r" "/r/a" 100000 100000, .ShiftACL "/r/a",
        .Lstat "/r/a-hardlink",
        .Lstat "/r/b", .GetCaps "/r/b", .ShiftOwner "/r" "/r/b" 100000 100000,
        .ShiftACL "/r/b" ] :=
  ⟨((hardLinks_dedup
      { ShiftIntoNs := Example.into, ShiftFromNs := Example.from, dir := "/r",
        testmode := false, how := "out", skipper := none, VFS3Fscaps := VFS3FscapsSupported }
      [((Example.file "/r/a" 2 7).entry, none)]
      (Example.file "/r/a-hardlink" 2 7).entry
      { Nlink := 2, Ino := 7, Uid := 0, Gid := 0 } rfl rfl).1 (by decide)).2
      ⟨((Example.file "/r/a" 2 7).entry, none), by simp, rfl, rfl,
        { Nlink := 2, Ino := 7, Uid := 0, Gid := 0 }, rfl, by decide, rfl⟩,
   by decide⟩

/-! ## Sets that lack an axis -/

theorem find?_uid_none (rs : List IdRange)
    (h : ∀ r ∈ rs, r.Isuid = true →
      r.Endid < 100000 ∨ r.Endid - max r.Startid 100000 < 65536) :
    rs.find? (fun r => r.Isuid && kernelDefaultMap.suitable r) = none := by
  rw [List.find?_eq_none]
  intro r hr hp
  simp only [kernelDefaultMap.suitable, Bool.and_eq_true, decide_eq_true_eq] at hp
  rcases h r hr hp.1 with h1 | h1 <;> omega

theorem find?_gid_none (rs : List IdRange)
    (h : ∀ r ∈ rs, r.Isgid = true →
      r.Endid < 100000 ∨ r.Endid - max r.Startid 100000 < 65536) :
    rs.find? (fun r => r.Isgid && kernelDefaultMap.suitable r) = none := by
  rw [List.find?_eq_none]
  intro r hr hp
  simp only [kernelDefaultMap.suitable, Bool.and_eq_true, decide_eq_true_eq] at hp
  rcases h r hr hp.1 with h1 | h1 <;> omega

theorem find?_uid_some (rs : List IdRange) (u : IdRange) (hu : u ∈ rs)
    (huid : u.Isuid = true) (hend : 100000 ≤ u.Endid)
    (hsize : 65536 ≤ u.Endid - max u.Startid 100000) :
    ∃ r, rs.find? (fun r => r.Isuid && kernelDefaultMap.suitable r) = some r := by
  cases hf : rs.find? (fun r => r.Isuid && kernelDefaultMap.suitable r) with
  | some r => exact ⟨r, rfl⟩
  | none =>
    rw [List.find?_eq_none] at hf
    have := hf u hu
    simp [kernelDefaultMap.suitable, huid, hend, hsize] at this

/-- Claim C21. When the current map is read and its consolidated ranges are
not the full-range pair, `kernelDefaultMap` returns without error a set that
may lack an axis: the empty set when no range passes the selection test on
its axis, and a set of one uid entry when a uid range passes and no gid
range does.  `DefaultIdmapSet` hands these sets on unchanged when the shadow
files are not both present, and `GetIdmapSet` answers the empty set with nil;
none of them puts the hard-coded fallback or an error in their place. -/
theorem kernelDefaultMap_missing_axis (env : Env) (kernelMap : IdmapSet)
    (kernelRanges : List IdRange)
    (hc : CurrentIdmapSet env = .ok kernelMap)
    (hv : env.ValidRanges kernelMap = .ok kernelRanges)
    (hfull : kernelRanges ≠
      [ { Isuid := true, Isgid := false, Startid := 0, Endid := 4294967294 },
        { Isuid := false, Isgid := true, Startid := 0, Endid := 4294967294 } ]) :
    ((∀ r ∈ kernelRanges, r.Isuid = true →
          r.Endid < 100000 ∨ r.Endid - max r.Startid 100000 < 65536) →
      (∀ r ∈ kernelRanges, r.Isgid = true →
          r.Endid < 100000 ∨ r.Endid - max r.Startid 100000 < 65536) →
      kernelDefaultMap env = .ok { Idmap := [] }) ∧
    ((∃ u ∈ kernelRanges, u.Isuid = true ∧ 100000 ≤ u.Endid ∧
          65536 ≤ u.Endid - max u.Startid 100000) →
      (∀ r ∈ kernelRanges, r.Isgid = true →
          r.Endid < 100000 ∨ r.Endid - max r.Startid 100000 < 65536) →
      ∃ e, kernelDefaultMap env = .ok { Idmap := [e] } ∧ e.Isuid = true ∧ e.Isgid = false) ∧
    (∀ rootfs username user,
      (if username = [] then env.userCurrent else .ok username) = .ok user →
      (env.PathExists (.etcSubuid rootfs) && env.PathExists (.etcSubgid rootfs)) = false →
      DefaultIdmapSet env rootfs username = kernelDefaultMap env) ∧
    (∀ Usable, DefaultIdmapSet env "" [] = .ok { Idmap := [] } →
      GetIdmapSet env Usable = none) := by
  have hk : kernelDefaultMap env = .ok (kernelDefaultMap.select kernelRanges) := by
    unfold kernelDefaultMap
    simp only [hc, hv]
  have hne : kernelRanges ≠ kernelDefaultMap.fullKernelRanges := hfull
  refine ⟨?_, ?_, ?_, ?_⟩
  · intro hu hg
    rw [hk, select_eq, if_neg hne, find?_uid_none _ hu, find?_gid_none _ hg]
    rfl
  · rintro ⟨u, hmem, huid, hend, hsize⟩ hg
    obtain ⟨r, hr⟩ := find?_uid_some kernelRanges u hmem huid hend hsize
    refine ⟨kernelDefaultMap.uidEntry r, ?_, rfl, rfl⟩
    rw [hk, select_eq, if_neg hne, hr, find?_gid_none _ hg]
    rfl
  · intro rootfs username user huser hshadow
    unfold DefaultIdmapSet
    simp only [huser, hshadow, Bool.false_eq_true, if_false]
  · intro Usable hd
    unfold GetIdmapSet
    simp [hd]

/-- Witness for C21: a namespace that maps the single id `1000` on both axes
has the consolidated ranges `[0, 0]`, none passes, and the set is empty; with
the uid map `0 100000 1000000` the uid range `[0, 999999]` passes and the set
holds one uid entry and no gid entry. -/
theorem kernelDefaultMap_missing_axis_witness :
    kernelDefaultMap
        (Example.env "root" none none (some "0 1000 1\n") (some "0 1000 1\n")
          [⟨true, false, 0, 0⟩, ⟨false, true, 0, 0⟩]) =
      .ok { Idmap := [] } ∧
    kernelDefaultMap
        (Example.env "root" none none (some "0 100000 1000000\n") (some "0 1000 1\n")
          [⟨true, false, 0, 999999⟩, ⟨false, true, 0, 0⟩]) =
      .ok { Idmap := [ { Isuid := true, Isgid := false, Nsid := 0, Hostid := 100000,
                         Maprange := 900000 } ] } ∧
    DefaultIdmapSet
        (Example.env "root" none none (some "0 1000 1\n") (some "0 1000 1\n")
          [⟨true, false, 0, 0⟩, ⟨false, true, 0, 0⟩])
        "" [] =
      .ok { Idmap := [] } :=
  ⟨(kernelDefaultMap_missing_axis
      (Example.env "root" none none (some "0 1000 1\n") (some "0 1000 1\n")
        [⟨true, false, 0, 0⟩, ⟨false, true, 0, 0⟩])
      { Idmap := [ { Isuid := true, Nsid := 0, Hostid := 1000, Maprange := 1 },
                   { Isgid := true, Nsid := 0, Hostid := 1000, Maprange := 1 } ] }
      [⟨true, false, 0, 0⟩, ⟨false, true, 0, 0⟩]
      (by decide) (by decide) (by decide)).1 (by decide) (by decide),
   by decide,
   by decide⟩

end Idmap
